import Mathlib

/-!
Lion Cloud device driver: a shallow embedding.

The C sources `lcloud_filesys.c`, `lcloud_cache.c` and `lcloud_client.c` are
embedded as Lean functions over an explicit state.  Machine integers are
natural numbers or integers with the wrap-around of their C type written out.
Reads and writes outside an allocated object, and uses of a pointer that was
never set, end a run with `Res.fault`; a failed `assert` ends it with
`Res.abort`; loops take a fuel argument and end with `Res.nofuel` when it is
used up.
-/

namespace LionCloud

/-! ## Machine integers -/

/-- Conversion to `uint8_t`. -/
def u8 (x : Nat) : Nat := x % 256

/-- Conversion to `uint16_t`. -/
def u16 (x : Nat) : Nat := x % 65536

/-- Conversion to `uint32_t`. -/
def u32 (x : Nat) : Nat := x % 4294967296

/-- Conversion to `uint64_t` (also `size_t`). -/
def u64 (x : Nat) : Nat := x % 18446744073709551616

/-- Conversion of an integer to `uint64_t`: the value modulo `2^64`. -/
def toU64 (x : Int) : Nat := (x % 18446744073709551616).toNat

/-- Conversion of an integer to `uint32_t`: the value modulo `2^32`. -/
def toU32 (x : Int) : Nat := (x % 4294967296).toNat

/-- Conversion of an unsigned value to `int` (32 bits, two's complement). -/
def toI32 (x : Nat) : Int :=
  if x % 4294967296 < 2147483648 then ((x % 4294967296 : Nat) : Int)
  else ((x % 4294967296 : Nat) : Int) - 4294967296

/-! ## Register frames (`create_lcloud_registers`, `extract_lcloud_registers`) -/

/-- The seven register values of a frame. -/
structure Registers where
  b0 : Nat
  b1 : Nat
  c0 : Nat
  c1 : Nat
  c2 : Nat
  d0 : Nat
  d1 : Nat
  deriving DecidableEq, Repr

/-- `create_lcloud_registers`: the parameters are `uint8_t` (b0, b1, c0, c1,
c2) and `uint16_t` (d0, d1); each is cast to `uint64_t`, shifted left inside
64 bits, and the seven words are or-ed together. -/
def create_lcloud_registers (b0 b1 c0 c1 c2 d0 d1 : Nat) : Nat :=
  u64 (u8 b0 <<< 60) ||| u64 (u8 b1 <<< 56) ||| u64 (u8 c0 <<< 48) ||| u64 (u8 c1 <<< 40)
    ||| u64 (u8 c2 <<< 32) ||| u64 (u16 d0 <<< 16) ||| u64 (u16 d1 <<< 0)

/-- `extract_lcloud_registers`: masks and shifts each field out of the frame,
stores it through the pointer of its type, and returns 0. -/
def extract_lcloud_registers (resp : Nat) : Int × Registers :=
  (0,
   { b0 := u8 ((resp &&& 0xF000000000000000) >>> 60)
     b1 := u8 ((resp &&& 0x0F00000000000000) >>> 56)
     c0 := u8 ((resp &&& 0x00FF000000000000) >>> 48)
     c1 := u8 ((resp &&& 0x0000FF0000000000) >>> 40)
     c2 := u8 ((resp &&& 0x000000FF00000000) >>> 32)
     d0 := u16 ((resp &&& 0x00000000FFFF0000) >>> 16)
     d1 := u16 ((resp &&& 0x000000000000FFFF) >>> 0) })

/-! ## Outcomes -/

/-- Result of running driver code: a value, undefined behaviour (`fault`), a
failed `assert` (`abort`), or a loop that is still running when the fuel is
used up (`nofuel`). -/
inductive Res (α : Type) where
  | ok (a : α) : Res α
  | fault : Res α
  | abort : Res α
  | nofuel : Res α
  deriving DecidableEq, Repr

/-- Sequencing of two runs. -/
def Res.bind {α β : Type} : Res α → (α → Res β) → Res β
  | Res.ok a, f => f a
  | Res.fault, _ => Res.fault
  | Res.abort, _ => Res.abort
  | Res.nofuel, _ => Res.nofuel

/-- The value of a finished run. -/
def Res.val {α : Type} : Res α → Option α
  | Res.ok a => some a
  | _ => none

/-! ## Constants of `lcloud_controller.h` -/

/-- Modelled from the spec: `LC_DEVICE_BLOCK_SIZE` is defined in
`lcloud_controller.h`, which is not among the sources; the specification fixes
the block size at 256 bytes, and the sources themselves use the literal 256
for the same quantity (`assert(... <= 256)`, `memcpy(..., 256)`). -/
def LC_DEVICE_BLOCK_SIZE : Nat := 256

/-- The remaining constants of `lcloud_controller.h` used by the driver: the
opcodes, the two transfer directions and the cache capacity.  Their values are
not in the sources, so they are parameters of the model. -/
structure Config where
  LC_POWER_ON : Nat
  LC_DEVPROBE : Nat
  LC_DEVINIT : Nat
  LC_BLOCK_XFER : Nat
  LC_POWER_OFF : Nat
  LC_XFER_READ : Nat
  LC_XFER_WRITE : Nat
  LC_CACHE_MAXBLOCKS : Int

/-- The opcodes fit the 8-bit registers that carry them and the two transfer
directions differ. -/
def Config.WF (cfg : Config) : Prop :=
  cfg.LC_BLOCK_XFER < 256 ∧ cfg.LC_XFER_READ < 256 ∧ cfg.LC_XFER_WRITE < 256
    ∧ cfg.LC_XFER_READ ≠ cfg.LC_XFER_WRITE

instance (cfg : Config) : Decidable cfg.WF := by
  unfold Config.WF
  infer_instance

/-! ## Block cache (`lcloud_cache.c`) -/

/-- `CACHE_LINE`: `data` is the 256-byte payload, `lastUsed` a `uint64_t`,
`device` an `LcDeviceId` (a signed integer type: the code stores -1 in it),
`sec` and `block` are `uint16_t`. -/
structure CACHE_LINE where
  data : List Nat
  lastUsed : Nat
  device : Int
  sec : Nat
  block : Nat
  deriving DecidableEq, Repr

/-- The globals of `lcloud_cache.c`: `lines` is the array `cache` points to
(empty while the pointer is unset or freed), followed by `numLines`,
`maxBlocks`, `hits` and `misses`. -/
structure Cache where
  lines : List CACHE_LINE
  numLines : Nat
  maxBlocks : Int
  hits : Nat
  misses : Nat
  deriving DecidableEq, Repr

/-- The cache globals at program start: `numLines = 0`, `hits = misses = 0`,
no array allocated. -/
def Cache.initial : Cache :=
  { lines := [], numLines := 0, maxBlocks := 0, hits := 0, misses := 0 }

/-- The loop of `getLine`: `n` lines remain to be inspected, the next one has
index `i`; reading a line outside the array is a fault. -/
def getLineFrom (did : Int) (sec blk : Nat) : List CACHE_LINE → Nat → Nat → Res (Option Nat)
  | _, 0, _ => Res.ok none
  | [], _ + 1, _ => Res.fault
  | l :: ls, n + 1, i =>
    if l.device = did ∧ l.sec = sec ∧ l.block = blk then Res.ok (some i)
    else getLineFrom did sec blk ls n (i + 1)

/-- `getLine`: index of the first of the `numLines` resident lines holding the
key, or `none` for the C result -1.  `sec` and `blk` are `uint16_t` parameters
here and in `lcloud_getcache` and `lcloud_putcache`; the callers in
`lcloud_filesys.c` pass a `uint8_t` sector and a `uint16_t` block, which the
conversion leaves unchanged. -/
def getLine (c : Cache) (did : Int) (sec blk : Nat) : Res (Option Nat) :=
  getLineFrom did sec blk c.lines c.numLines 0

/-- The loop `for(j=0;j<numLines;j++) cache[j].lastUsed++` of
`lcloud_getcache`, on `uint64_t` counters. -/
def ageLines : List CACHE_LINE → Nat → Res (List CACHE_LINE)
  | ls, 0 => Res.ok ls
  | [], _ + 1 => Res.fault
  | l :: ls, n + 1 =>
    match ageLines ls n with
    | Res.ok ls1 => Res.ok ({ l with lastUsed := u64 (l.lastUsed + 1) } :: ls1)
    | Res.fault => Res.fault
    | Res.abort => Res.abort
    | Res.nofuel => Res.nofuel

/-- `lcloud_getcache`: on a miss counts it and returns `none` (NULL); on a hit
sets the line's counter to `(uint64_t)-1`, counts the hit, increments the
counter of every resident line, and returns the line's payload. -/
def lcloud_getcache (c : Cache) (did : Int) (sec blk : Nat) : Res (Option (List Nat) × Cache) :=
  match getLine c did sec blk with
  | Res.ok none => Res.ok (none, { c with misses := u64 (c.misses + 1) })
  | Res.ok (some num) =>
    match c.lines.get? num with
    | none => Res.fault
    | some l =>
      match ageLines (c.lines.set num { l with lastUsed := 18446744073709551615 }) c.numLines with
      | Res.ok ls => Res.ok (some l.data, { c with lines := ls, hits := u64 (c.hits + 1) })
      | Res.fault => Res.fault
      | Res.abort => Res.abort
      | Res.nofuel => Res.nofuel
  | Res.fault => Res.fault
  | Res.abort => Res.abort
  | Res.nofuel => Res.nofuel

/-- The eviction loop of `lcloud_putcache`: `n` lines remain, the next has
index `i`; `large` is an `int`, compared after conversion to `uint64_t` and
assigned by truncating the counter to `int`. -/
def evictScan : List CACHE_LINE → Nat → Nat → Int → Nat → Res Nat
  | _, 0, _, _, line => Res.ok line
  | [], _ + 1, _, _, _ => Res.fault
  | l :: ls, n + 1, i, large, line =>
    if l.lastUsed > toU64 large then evictScan ls n (i + 1) (toI32 l.lastUsed) i
    else evictScan ls n (i + 1) large line

/-- The line `lcloud_putcache` selects, with the new value of `numLines`. -/
def putLine (c : Cache) (did : Int) (sec blk : Nat) : Res (Nat × Nat) :=
  match getLine c did sec blk with
  | Res.ok none =>
    if (c.numLines : Int) < c.maxBlocks then Res.ok (c.numLines, c.numLines + 1)
    else
      match evictScan c.lines c.maxBlocks.toNat 0 0 0 with
      | Res.ok line => Res.ok (line, c.numLines)
      | Res.fault => Res.fault
      | Res.abort => Res.abort
      | Res.nofuel => Res.nofuel
  | Res.ok (some num) => Res.ok (num, c.numLines)
  | Res.fault => Res.fault
  | Res.abort => Res.abort
  | Res.nofuel => Res.nofuel

/-- `lcloud_putcache`: selects the line (resident line of the key, else the
next free line, else the line found by the eviction loop), stores key, counter
0 and the 256 bytes of `block` in it, and returns 0.  Storing to a line outside
the array is a fault. -/
def lcloud_putcache (c : Cache) (did : Int) (sec blk : Nat) (block : List Nat) :
    Res (Int × Cache) :=
  match putLine c did sec blk with
  | Res.ok (line, nl) =>
    if line < c.lines.length then
      Res.ok (0, { c with
        lines := c.lines.set line
          { data := block.take 256, lastUsed := 0, device := did, sec := sec, block := blk }
        numLines := nl })
    else Res.fault
  | Res.fault => Res.fault
  | Res.abort => Res.abort
  | Res.nofuel => Res.nofuel

/-- A line as `lcloud_initcache` leaves it: counter `(uint64_t)-1`, device -1,
sector and block `(uint16_t)-1`.  `malloc` leaves the payload bytes
indeterminate; the model records them as zeroes. -/
def CACHE_LINE.blank : CACHE_LINE :=
  { data := List.replicate 256 0, lastUsed := 18446744073709551615, device := -1,
    sec := 65535, block := 65535 }

/-- `lcloud_initcache`: allocates `maxblocks` lines and blanks them; `numLines`,
`hits` and `misses` are not touched.  A negative `maxblocks` converts to an
allocation size that `malloc` refuses, so the function returns -1 with the
pointer NULL; other allocations are taken to succeed. -/
def lcloud_initcache (c : Cache) (maxblocks : Int) : Int × Cache :=
  if maxblocks < 0 then (-1, { c with lines := [] })
  else (0, { c with lines := List.replicate maxblocks.toNat CACHE_LINE.blank,
                    maxBlocks := maxblocks })

/-- `lcloud_closecache`: frees the array (the statistics it logs are not
modelled) and returns 0. -/
def lcloud_closecache (c : Cache) : Int × Cache :=
  (0, { c with lines := [] })

/-! ## Transport (`lcloud_client.c`) and the storage server -/

/-- Exactly 256 bytes of a buffer (zero-padded if the list is shorter). -/
def blk256 (l : List Nat) : List Nat := (l ++ List.replicate 256 0).take 256

/-- The storage server at the far end of the socket.  It is outside the
repository, so it is an environment model: `reply` is the response frame it
sends for a request frame, and `blocks c1 d0 d1` is the content of the block
that the registers c1 (device), d0 (sector) and d1 (block) of a block-transfer
frame address. -/
structure Server where
  reply : Nat → Nat
  blocks : Nat → Nat → Nat → List Nat

/-- `client_lcloud_bus_request`: decodes the request frame; a block transfer
with `c2 == LC_XFER_READ` copies the 256 bytes of the addressed block into
`buf`, any other block transfer sends the 256 bytes of `buf` to the addressed
block; every other opcode only exchanges frames.  Returns the response frame,
the buffer and the server.  (Socket set-up and failure `assert`s are not
modelled.) -/
def client_lcloud_bus_request (cfg : Config) (srv : Server) (reg : Nat) (buf : List Nat) :
    Nat × List Nat × Server :=
  let r := (extract_lcloud_registers reg).2
  if r.c0 = cfg.LC_BLOCK_XFER then
    if r.c2 = cfg.LC_XFER_READ then (srv.reply reg, blk256 (srv.blocks r.c1 r.d0 r.d1), srv)
    else
      (srv.reply reg, buf,
        { srv with
          blocks := fun c s b =>
            if c = r.c1 ∧ s = r.d0 ∧ b = r.d1 then blk256 buf else srv.blocks c s b })
  else (srv.reply reg, buf, srv)

/-! ## File system state (`lcloud_filesys.c`) -/

/-- `MEMORY_ENTRY`: `startByte` is `uint32_t`, `length` is `uint16_t`, `sec`
and `block` are `uint8_t`, `device` is an `LcDeviceId`. -/
structure MEMORY_ENTRY where
  startByte : Nat
  length : Nat
  sec : Nat
  block : Nat
  device : Int
  deriving DecidableEq, Repr

/-- `FILE_INFO`: `handle` is an `int32_t`, `length` and `loc` are `uint32_t`. -/
structure FILE_INFO where
  handle : Int
  length : Nat
  loc : Nat
  deriving DecidableEq, Repr

/-- `FILE_OBJ`: `pos` is the heap array of `entries` memory entries; the model
keeps the array as a list and `entries` is its length. -/
structure FILE_OBJ where
  info : FILE_INFO
  pos : List MEMORY_ENTRY
  deriving DecidableEq, Repr

/-- `BLOCK`: `handle` is an `int32_t`, `spaceUsed` a `uint16_t`. -/
structure BLOCK where
  handle : Int
  spaceUsed : Nat
  deriving DecidableEq, Repr

/-- `DEVICE_OBJ`: `table[sec][block]` is kept as a total function; the driver
indexes it only with `sec < numSectors` and `block < numBlocks`. -/
structure DEVICE_OBJ where
  id : Int
  numSectors : Nat
  numBlocks : Nat
  table : Nat → Nat → BLOCK

/-- The globals of the driver: `files[0..numHandles)`, `devices[0..numDevices)`,
`on` (here `isOn`), the cache, together with the server and the header constants.  The
register globals `b0..d1` are only read right after they are written, and the
global loop counter `i` is assigned by every function before it is read, except
in `lcshutdown`, which is modelled with the value `lcclose` leaves in it. -/
structure LcState where
  cfg : Config
  files : List FILE_OBJ
  devices : List DEVICE_OBJ
  isOn : Bool
  cache : Cache
  server : Server

/-- The state at program start: nothing open, no device known, power off. -/
def LcState.boot (cfg : Config) (srv : Server) : LcState :=
  { cfg := cfg, files := [], devices := [], isOn := false, cache := Cache.initial, server := srv }

/-- Conversion of an `LcDeviceId` to the `uint8_t` register c1. -/
def devReg (id : Int) : Nat := (id % 256).toNat

/-- The loop of `checkHandle` from index `i` on. -/
def checkHandleFrom (h : Int) : List FILE_OBJ → Nat → Option Nat
  | [], _ => none
  | f :: fs, i => if h = f.info.handle then some i else checkHandleFrom h fs (i + 1)

/-- `checkHandle`: index of the first open file with handle `h`; `none` is the
C result -1. -/
def checkHandle (files : List FILE_OBJ) (h : Int) : Option Nat :=
  checkHandleFrom h files 0

/-- The loop of `checkId` from index `i` on. -/
def checkIdFrom (d : Int) : List DEVICE_OBJ → Nat → Option Nat
  | [], _ => none
  | dev :: ds, i => if d = dev.id then some i else checkIdFrom d ds (i + 1)

/-- `checkId`: index of the first device with id `d`; `none` is the C result
-1. -/
def checkId (devices : List DEVICE_OBJ) (d : Int) : Option Nat :=
  checkIdFrom d devices 0

/-- The inner loop of `availableSpace` over the blocks `j, j+1, ..` of one
sector, `n` of them remaining. -/
def scanRow (row : Nat → BLOCK) (fh : Int) : Nat → Nat → Option Nat
  | 0, _ => none
  | n + 1, j =>
    if (row j).spaceUsed < LC_DEVICE_BLOCK_SIZE ∧ ((row j).handle = fh ∨ (row j).handle = -1)
    then some j
    else scanRow row fh n (j + 1)

/-- The outer loop of `availableSpace` over the sectors `i, i+1, ..`, `n` of
them remaining. -/
def scanTable (table : Nat → Nat → BLOCK) (fh : Int) (numBlocks : Nat) :
    Nat → Nat → Option (Nat × Nat)
  | 0, _ => none
  | n + 1, i =>
    match scanRow (table i) fh numBlocks 0 with
    | some j => some (i, j)
    | none => scanTable table fh numBlocks n (i + 1)

/-- `availableSpace`: first slot in row-major order with `spaceUsed < 256`
owned by `fh` or by nobody.  The sector is stored through a `uint8_t *`, the
block through a `uint16_t *`; `none` is the C result -1. -/
def availableSpace (devices : List DEVICE_OBJ) (device : Int) (fh : Int) : Option (Nat × Nat) :=
  match checkId devices device with
  | none => none
  | some dIndex =>
    match devices.get? dIndex with
    | none => none
    | some dev =>
      match scanTable dev.table fh dev.numBlocks dev.numSectors 0 with
      | some (i, j) => some (u8 i, u16 j)
      | none => none

/-- The probe loop of `powerOn`: while `idFinder != 0`, a set low bit records a
device with id `i`; `idFinder` is a `uint16_t`, so 16 rounds of fuel exhaust
it. -/
def probeLoop : Nat → Nat → Nat → List Int
  | 0, _, _ => []
  | fuel + 1, idFinder, i =>
    if idFinder = 0 then []
    else if idFinder &&& 1 = 1 then (i : Int) :: probeLoop fuel (idFinder >>> 1) (i + 1)
    else probeLoop fuel (idFinder >>> 1) (i + 1)

/-- `powerOn`: sends power-on and the device probe, registers a device for
every set bit of the probe's d0, initialises every device (d0 sectors of d1
blocks, all unowned and empty), initialises the cache and sets `on`. -/
def powerOn (st : LcState) : Int × LcState :=
  let probe := (extract_lcloud_registers
    (client_lcloud_bus_request st.cfg st.server
      (create_lcloud_registers 0 0 st.cfg.LC_DEVPROBE 0 0 0 0) []).1).2
  let found : List DEVICE_OBJ := (probeLoop 16 probe.d0 0).map fun id =>
    { id := id, numSectors := 0, numBlocks := 0, table := fun _ _ => { handle := 0, spaceUsed := 0 } }
  let devs := (st.devices ++ found).map fun dev =>
    let r := (extract_lcloud_registers
      (client_lcloud_bus_request st.cfg st.server
        (create_lcloud_registers 0 0 st.cfg.LC_DEVINIT (devReg dev.id) 0 0 0) []).1).2
    { dev with numSectors := r.d0, numBlocks := r.d1,
               table := fun _ _ => { handle := -1, spaceUsed := 0 } }
  (0, { st with devices := devs, cache := (lcloud_initcache st.cache st.cfg.LC_CACHE_MAXBLOCKS).2,
                isOn := true })

/-- `lcopen`: powers on if needed, takes `numHandles` as the handle, fails with
-1 if a file with that handle is open, else stores a fresh file object in
`files[numHandles]` (a fault when the 256-slot array is full). -/
def lcopen (st : LcState) : Res (Int × LcState) :=
  let st1 := if st.isOn then st else (powerOn st).2
  let handle : Int := toI32 st1.files.length
  match checkHandle st1.files handle with
  | some _ => Res.ok (-1, st1)
  | none =>
    if st1.files.length < 256 then
      Res.ok (handle, { st1 with
        files := st1.files ++ [{ info := { handle := handle, length := 0, loc := 0 }, pos := [] }] })
    else Res.fault

/-- The search loop for the memory entry holding `loc`, from index `k` on:
`loc >= startByte && loc < startByte + length` in `uint32_t` arithmetic. -/
def findEntry (loc : Nat) : List MEMORY_ENTRY → Nat → Option (Nat × MEMORY_ENTRY)
  | [], _ => none
  | e :: es, k =>
    if e.startByte ≤ loc ∧ loc < u32 (e.startByte + e.length) then some (k, e)
    else findEntry loc es (k + 1)

/-- Fetch of a block into `subBuf` as `lcread` and `lcwrite` do it: a cache
lookup; on a miss a block read over the bus; on a hit a second lookup whose
payload is copied. -/
def fetchBlock (st : LcState) (id : Int) (sec block : Nat) : Res (List Nat × LcState) :=
  match lcloud_getcache st.cache id sec block with
  | Res.ok (none, c1) =>
    let r := client_lcloud_bus_request st.cfg st.server
      (create_lcloud_registers 0 0 st.cfg.LC_BLOCK_XFER (devReg id) st.cfg.LC_XFER_READ sec block)
      []
    Res.ok (r.2.1, { st with cache := c1, server := r.2.2 })
  | Res.ok (some _, c1) =>
    match lcloud_getcache c1 id sec block with
    | Res.ok (some d, c2) => Res.ok (blk256 d, { st with cache := c2 })
    | Res.ok (none, _) => Res.fault
    | Res.fault => Res.fault
    | Res.abort => Res.abort
    | Res.nofuel => Res.nofuel
  | Res.fault => Res.fault
  | Res.abort => Res.abort
  | Res.nofuel => Res.nofuel

/-! ## `lcread` -/

/-- The file object with its position replaced. -/
def setLoc (fl : FILE_OBJ) (loc : Nat) : FILE_OBJ :=
  { fl with info := { fl.info with loc := loc } }

/-- Loop state of `lcread`: `subPos` (an `int`), the caller's buffer `buf`, and
the globals. -/
structure ReadLoop where
  subPos : Int
  buf : List Nat
  st : LcState

/-- One pass of the `while (subPos < len)` loop of `lcread`.  Faults: no memory
entry holds the position (`pos[memPos]` is then read one past the array), the
entry's device is unknown (`devices[-1]`), or a `memcpy` leaves the 256-byte
`subBuf` or the caller's buffer. -/
def lcreadStep (fIndex len : Nat) (s : ReadLoop) : Res ReadLoop :=
  match s.st.files.get? fIndex with
  | none => Res.fault
  | some fl =>
    let off := fl.info.loc % LC_DEVICE_BLOCK_SIZE
    match findEntry fl.info.loc fl.pos 0 with
    | none => Res.fault
    | some (_, e) =>
      match checkId s.st.devices e.device with
      | none => Res.fault
      | some dIndex =>
        match s.st.devices.get? dIndex with
        | none => Res.fault
        | some dev =>
          let rest := u64 (len + 18446744073709551616 - toU64 s.subPos)
          let subLen :=
            if rest ≤ u32 (u32 (e.length + e.startByte) + 4294967296 - fl.info.loc) then rest
            else toU64 ((e.length : Int) - (off : Int))
          match fetchBlock s.st dev.id e.sec e.block with
          | Res.ok (subBuf, st1) =>
            if off + subLen ≤ LC_DEVICE_BLOCK_SIZE ∧ toU64 s.subPos + subLen ≤ s.buf.length then
              Res.ok
                { subPos := toI32 (toU64 s.subPos + subLen)
                  buf := s.buf.take (toU64 s.subPos) ++ (subBuf.drop off).take subLen
                    ++ s.buf.drop (toU64 s.subPos + subLen)
                  st := { st1 with
                    files := st1.files.set fIndex (setLoc fl (u32 (fl.info.loc + subLen))) } }
            else Res.fault
          | Res.fault => Res.fault
          | Res.abort => Res.abort
          | Res.nofuel => Res.nofuel

/-- The `while (subPos < len)` loop of `lcread`; the comparison converts the
`int` to `size_t`. -/
def lcreadLoop (fIndex len : Nat) : Nat → ReadLoop → Res ReadLoop
  | 0, s => if toU64 s.subPos < len then Res.nofuel else Res.ok s
  | fuel + 1, s =>
    if toU64 s.subPos < len then
      match lcreadStep fIndex len s with
      | Res.ok s1 => lcreadLoop fIndex len fuel s1
      | Res.fault => Res.fault
      | Res.abort => Res.abort
      | Res.nofuel => Res.nofuel
    else Res.ok s

/-- `lcread`: -1 for an unknown handle; else clamps `len` to
`length - loc` (a `uint32_t` difference), runs the loop, and returns the
clamped `len` converted to `int`, with the buffer and the globals. -/
def lcread (fuel : Nat) (st : LcState) (fh : Int) (buf : List Nat) (len : Nat) :
    Res (Int × List Nat × LcState) :=
  match checkHandle st.files fh with
  | none => Res.ok (-1, buf, st)
  | some fIndex =>
    match st.files.get? fIndex with
    | none => Res.fault
    | some fl =>
      let avail := u32 (fl.info.length + 4294967296 - fl.info.loc)
      let len1 := if len ≥ avail then avail else len
      match lcreadLoop fIndex len1 fuel { subPos := 0, buf := buf, st := st } with
      | Res.ok s => Res.ok (toI32 len1, s.buf, s.st)
      | Res.fault => Res.fault
      | Res.abort => Res.abort
      | Res.nofuel => Res.nofuel

/-! ## `lcwrite` -/

/-- Loop state of `lcwrite`: `subPos` (an `int`), the locals `sec`, `block`
and `dev` (the index of the device the pointer refers to, `none` while the
pointer is unset), and the globals. -/
structure WriteLoop where
  subPos : Int
  sec : Nat
  block : Nat
  dev : Option Nat
  st : LcState

/-- The loop `for(int q=0;q<numDevices;q++)` of `lcwrite` from index `q` on:
the first device for which `availableSpace` succeeds, with the sector and block
it stored. -/
def firstDevice (devices : List DEVICE_OBJ) (fh : Int) : List DEVICE_OBJ → Nat →
    Option (Nat × Nat × Nat)
  | [], _ => none
  | d :: ds, q =>
    match availableSpace devices d.id fh with
    | some (sec, block) => some (q, sec, block)
    | none => firstDevice devices fh ds (q + 1)

/-- Block selection at the top of the write loop.  Append mode keeps the old
`sec`, `block`, `dev` when no device has room; overwrite mode keeps them when
no memory entry holds the position.  The last component is the entry found
(`memPos` and `pos[memPos]`), if any. -/
def selectTarget (overwrite : Bool) (fh : Int) (fl : FILE_OBJ) (s : WriteLoop) :
    Nat × Nat × Option Nat × Option (Nat × MEMORY_ENTRY) :=
  if overwrite then
    match findEntry fl.info.loc fl.pos 0 with
    | some (memPos, e) => (e.sec, e.block, checkId s.st.devices e.device, some (memPos, e))
    | none => (s.sec, s.block, s.dev, none)
  else
    match firstDevice s.st.devices fh s.st.devices 0 with
    | some (q, sec, block) => (sec, block, some q, none)
    | none => (s.sec, s.block, s.dev, none)

/-- The sub-transfer length of one pass of the write loop; `rest` is
`len - subPos`, `used` the block's `spaceUsed`.  Reading `pos[memPos]` when no
entry was found is a fault. -/
def writeLen (overwrite : Bool) (entry : Option (Nat × MEMORY_ENTRY)) (loc used rest : Nat) :
    Res Nat :=
  if rest ≤ toU64 ((LC_DEVICE_BLOCK_SIZE : Int) - (used : Int)) then Res.ok rest
  else if overwrite then
    match entry with
    | none => Res.fault
    | some (_, e) =>
      if u32 (u32 (e.startByte + e.length) + 4294967296 - loc) ≤ rest then
        Res.ok (LC_DEVICE_BLOCK_SIZE - loc % LC_DEVICE_BLOCK_SIZE)
      else Res.ok rest
  else Res.ok (toU64 ((LC_DEVICE_BLOCK_SIZE : Int) - (used : Int)))

/-- A fresh memory entry and the block usage after it: the fourth branch of the
housekeeping of `lcwrite`, with its two `assert`s. -/
def newEntry (pos : List MEMORY_ENTRY) (loc subLen sec block : Nat) (id : Int) (used : Nat) :
    Res (List MEMORY_ENTRY × Nat) :=
  if u16 subLen ≤ 256 then
    if u16 (used + subLen) ≤ 256 then
      Res.ok (pos ++ [{ startByte := loc, length := u16 subLen, sec := sec, block := u8 block,
                        device := id }], u16 (used + subLen))
    else Res.abort
  else Res.abort

/-- The housekeeping of one pass of the write loop: the new memory entries and
the block's new `spaceUsed`, or `abort` when an `assert` fails. -/
def updateEntries (overwrite : Bool) (entry : Option (Nat × MEMORY_ENTRY))
    (pos : List MEMORY_ENTRY) (loc subLen sec block : Nat) (id : Int) (used : Nat) :
    Res (List MEMORY_ENTRY × Nat) :=
  if overwrite then
    match entry with
    | none => Res.fault
    | some (memPos, e) =>
      if u64 (subLen + u32 (loc + 4294967296 - e.startByte)) > e.length then
        let l := u16 (subLen + u32 (loc + 4294967296 - e.startByte))
        if l ≤ 256 then Res.ok (pos.set memPos { e with length := l }, l) else Res.abort
      else if used ≤ 256 then Res.ok (pos, used)
      else Res.abort
  else
    match pos.getLast? with
    | some last =>
      if u32 (last.startByte + last.length) = loc ∧ last.sec = sec ∧ last.block = block
          ∧ last.device = id then
        if u16 (last.length + subLen) ≤ 256 then
          if u16 (used + subLen) ≤ 256 then
            Res.ok (pos.set (pos.length - 1) { last with length := u16 (last.length + subLen) },
              u16 (used + subLen))
          else Res.abort
        else Res.abort
      else newEntry pos loc subLen sec block id used
    | none => newEntry pos loc subLen sec block id used

/-- The device with one slot of its table replaced. -/
def setBlock (dev : DEVICE_OBJ) (sec block : Nat) (b : BLOCK) : DEVICE_OBJ :=
  { dev with table := fun s k => if s = sec ∧ k = block then b else dev.table s k }

/-- One pass of the `while (subPos < len)` loop of `lcwrite`.  Faults: `dev` is
still unset or invalid when dereferenced, `pos[memPos]` is read with no entry
found, or the `memcpy` leaves the 256-byte `subBuf` or the caller's buffer. -/
def lcwriteStep (fIndex : Nat) (fh : Int) (buf : List Nat) (len : Nat) (overwrite : Bool)
    (s : WriteLoop) : Res WriteLoop :=
  match s.st.files.get? fIndex with
  | none => Res.fault
  | some fl =>
    match selectTarget overwrite fh fl s with
    | (_, _, none, _) => Res.fault
    | (sec, block, some q, entry) =>
      match s.st.devices.get? q with
      | none => Res.fault
      | some dev =>
        match fetchBlock s.st dev.id sec block with
        | Res.ok (subBuf, st1) =>
          let loc := fl.info.loc
          let used := (dev.table sec block).spaceUsed
          let rest := u64 (len + 18446744073709551616 - toU64 s.subPos)
          match writeLen overwrite entry loc used rest with
          | Res.ok subLen =>
            if loc % LC_DEVICE_BLOCK_SIZE + subLen ≤ LC_DEVICE_BLOCK_SIZE
                ∧ toU64 s.subPos + subLen ≤ buf.length then
              let subBuf1 := subBuf.take (loc % LC_DEVICE_BLOCK_SIZE)
                ++ (buf.drop (toU64 s.subPos)).take subLen
                ++ subBuf.drop (loc % LC_DEVICE_BLOCK_SIZE + subLen)
              let srv := (client_lcloud_bus_request st1.cfg st1.server
                (create_lcloud_registers 0 0 st1.cfg.LC_BLOCK_XFER (devReg dev.id)
                  st1.cfg.LC_XFER_WRITE sec block) subBuf1).2.2
              match lcloud_putcache st1.cache dev.id sec block subBuf1 with
              | Res.ok (_, c1) =>
                match updateEntries overwrite entry fl.pos loc subLen sec block dev.id used with
                | Res.ok (pos1, used1) =>
                  Res.ok
                    { subPos := toI32 (toU64 s.subPos + subLen)
                      sec := sec
                      block := block
                      dev := some q
                      st := { st1 with
                        cache := c1
                        server := srv
                        devices := st1.devices.set q
                          (setBlock dev sec block { handle := fh, spaceUsed := used1 })
                        files := st1.files.set fIndex
                          { info := { fl.info with loc := u32 (loc + subLen) }, pos := pos1 } } }
                | Res.fault => Res.fault
                | Res.abort => Res.abort
                | Res.nofuel => Res.nofuel
              | Res.fault => Res.fault
              | Res.abort => Res.abort
              | Res.nofuel => Res.nofuel
            else Res.fault
          | Res.fault => Res.fault
          | Res.abort => Res.abort
          | Res.nofuel => Res.nofuel
        | Res.fault => Res.fault
        | Res.abort => Res.abort
        | Res.nofuel => Res.nofuel

/-- The `while (subPos < len)` loop of `lcwrite`. -/
def lcwriteLoop (fIndex : Nat) (fh : Int) (buf : List Nat) (len : Nat) (overwrite : Bool) :
    Nat → WriteLoop → Res WriteLoop
  | 0, s => if toU64 s.subPos < len then Res.nofuel else Res.ok s
  | fuel + 1, s =>
    if toU64 s.subPos < len then
      match lcwriteStep fIndex fh buf len overwrite s with
      | Res.ok s1 => lcwriteLoop fIndex fh buf len overwrite fuel s1
      | Res.fault => Res.fault
      | Res.abort => Res.abort
      | Res.nofuel => Res.nofuel
    else Res.ok s

/-- The file length after the statement
`if(loc + len > length) length += len - (length - loc)`: the comparison and the
right-hand side are `size_t` arithmetic, `length - loc` is a `uint32_t`
difference, and the sum is stored in a `uint32_t`. -/
def grownLength (length loc len : Nat) : Nat :=
  if u64 (loc + len) > length then
    u32 (length + u64 (len + 18446744073709551616 - u32 (length + 4294967296 - loc)))
  else length

/-- `lcwrite`: -1 for an unknown handle; else decides overwrite mode
(`loc < length`), grows the file length, runs the loop from `subPos = 0`,
`sec = 0`, `block = 0` and `dev` unset, and returns `len` converted to
`int`. -/
def lcwrite (fuel : Nat) (st : LcState) (fh : Int) (buf : List Nat) (len : Nat) :
    Res (Int × LcState) :=
  match checkHandle st.files fh with
  | none => Res.ok (-1, st)
  | some fIndex =>
    match st.files.get? fIndex with
    | none => Res.fault
    | some fl =>
      let overwrite := decide (fl.info.loc < fl.info.length)
      let fl1 : FILE_OBJ :=
        { fl with info := { fl.info with
            length := grownLength fl.info.length fl.info.loc len } }
      let st1 := { st with files := st.files.set fIndex fl1 }
      match lcwriteLoop fIndex fh buf len overwrite fuel
          { subPos := 0, sec := 0, block := 0, dev := none, st := st1 } with
      | Res.ok s => Res.ok (toI32 len, s.st)
      | Res.fault => Res.fault
      | Res.abort => Res.abort
      | Res.nofuel => Res.nofuel

/-! ## `lcseek`, `lcclose`, `lcshutdown` -/

/-- `lcseek`: -1 for an unknown handle or an offset beyond the file length;
else stores the offset as position and returns it converted to `int`. -/
def lcseek (st : LcState) (fh : Int) (off : Nat) : Int × LcState :=
  match checkHandle st.files fh with
  | none => (-1, st)
  | some fIndex =>
    match st.files.get? fIndex with
    | none => (-1, st)
    | some fl =>
      if off > fl.info.length then (-1, st)
      else (toI32 off, { st with files := st.files.set fIndex (setLoc fl (u32 off)) })

/-- `lcclose`: -1 for an unknown handle; else frees the entries of the file,
moves every later file object one slot down and decrements `numHandles`. -/
def lcclose (st : LcState) (fh : Int) : Int × LcState :=
  match checkHandle st.files fh with
  | none => (-1, st)
  | some fIndex => (0, { st with files := st.files.eraseIdx fIndex })

/-- The loop `for(i=0;i<numHandles;i++) lcclose(files[i].info.handle)` of
`lcshutdown`.  The counter `i` is the global that `checkHandle` and the copy
loop of `lcclose` also use: when `lcclose` returns, `i` holds the value of
`numHandles` from before the call, and the loop then increments it. -/
def lcshutdownLoop : Nat → Nat → LcState → LcState
  | 0, _, st => st
  | fuel + 1, i, st =>
    if i < st.files.length then
      match st.files.get? i with
      | some f => lcshutdownLoop fuel (st.files.length + 1) (lcclose st f.info.handle).2
      | none => st
    else st

/-- `lcshutdown`: sends power-off, returns -1 unless the response has
`b1 == 1`, else runs the close loop, closes the cache and returns 0. -/
def lcshutdown (st : LcState) : Int × LcState :=
  let resp := (client_lcloud_bus_request st.cfg st.server
    (create_lcloud_registers 0 0 st.cfg.LC_POWER_OFF 0 0 0 0) []).1
  let r := extract_lcloud_registers resp
  if r.1 = -1 ∨ r.2.b1 ≠ 1 then (-1, st)
  else
    let st1 := lcshutdownLoop (st.files.length + 1) 0 st
    (0, { st1 with cache := (lcloud_closecache st1.cache).2 })

/-! ## Call sequences -/

/-- A call of the file API.  `lcread` carries the caller's buffer (its size is
the room the caller provides) and the requested length. -/
inductive Op where
  | lcopen : Op
  | lcread (fh : Int) (buf : List Nat) (len : Nat) : Op
  | lcwrite (fh : Int) (buf : List Nat) (len : Nat) : Op
  | lcseek (fh : Int) (off : Nat) : Op
  | lcclose (fh : Int) : Op

/-- The globals after one call (return value and read buffer dropped). -/
def runOp (fuel : Nat) (st : LcState) : Op → Res LcState
  | Op.lcopen => (lcopen st).bind fun r => Res.ok r.2
  | Op.lcread fh buf len => (lcread fuel st fh buf len).bind fun r => Res.ok r.2.2
  | Op.lcwrite fh buf len => (lcwrite fuel st fh buf len).bind fun r => Res.ok r.2
  | Op.lcseek fh off => Res.ok (lcseek st fh off).2
  | Op.lcclose fh => Res.ok (lcclose st fh).2

/-- The globals after a sequence of calls. -/
def runOps (fuel : Nat) : LcState → List Op → Res LcState
  | st, [] => Res.ok st
  | st, op :: ops => (runOp fuel st op).bind fun st1 => runOps fuel st1 ops

/-! ## A concrete installation for worked runs -/

/-- Sample values for the header constants: five distinct opcodes, two
distinct transfer directions, a cache of two lines. -/
def demoCfg : Config :=
  { LC_POWER_ON := 0, LC_DEVPROBE := 1, LC_DEVINIT := 2, LC_BLOCK_XFER := 3, LC_POWER_OFF := 4,
    LC_XFER_READ := 0, LC_XFER_WRITE := 1, LC_CACHE_MAXBLOCKS := 2 }

/-- A sample server: the probe answers with the bitmask `mask`, every device
initialisation with `secs` sectors of `blks` blocks, every response carries
`b1 = 1`, and all blocks start out zeroed. -/
def demoServer (mask secs blks : Nat) : Server :=
  { reply := fun reg =>
      let r := (extract_lcloud_registers reg).2
      if r.c0 = 1 then create_lcloud_registers 0 1 1 0 0 mask 0
      else if r.c0 = 2 then create_lcloud_registers 0 1 2 r.c1 0 secs blks
      else create_lcloud_registers 0 1 r.c0 0 0 0 0
    blocks := fun _ _ _ => List.replicate 256 0 }

/-- The program start on the specification's sample installation: one device
(id 0) with 4 sectors of 8 blocks. -/
def demoBoot : LcState := LcState.boot demoCfg (demoServer 1 4 8)

/-- The open-file table of a finished run. -/
def filesOf (r : Res LcState) : Res (List FILE_OBJ) :=
  r.bind fun st => Res.ok st.files

/-- The extent invariant of the specification for one file: the memory entries,
in order, start at 0, each starts where the previous one ends, and their
lengths add up to the file length. -/
def extentsChain : Nat → List MEMORY_ENTRY → Nat → Prop
  | start, [], length => start = length
  | start, e :: es, length => e.startByte = start ∧ extentsChain (start + e.length) es length

instance extentsChainDecidable (start : Nat) (es : List MEMORY_ENTRY) (length : Nat) :
    Decidable (extentsChain start es length) := by
  induction es generalizing start with
  | nil => unfold extentsChain; infer_instance
  | cons e es ih => unfold extentsChain; exact instDecidableAnd

/-- The extent invariant for a file object. -/
def FILE_OBJ.extentsOK (fl : FILE_OBJ) : Prop := extentsChain 0 fl.pos fl.info.length

instance (fl : FILE_OBJ) : Decidable fl.extentsOK := by
  unfold FILE_OBJ.extentsOK
  infer_instance

/-- A state with one open file of 2 GiB, for the return value of `lcseek`. -/
def seekBig : LcState :=
  { demoBoot with
    files := [{ info := { handle := 0, length := 2147483648, loc := 0 }, pos := [] }] }

/-- Return value and open-file table of a finished `lcwrite`. -/
def writeView (r : Res (Int × LcState)) : Res (Int × List FILE_OBJ) :=
  r.bind fun x => Res.ok (x.1, x.2.files)

/-- Return value, buffer and open-file table of a finished `lcread`. -/
def readView (r : Res (Int × List Nat × LcState)) : Res (Int × List Nat × List FILE_OBJ) :=
  r.bind fun x => Res.ok (x.1, x.2.1, x.2.2.files)

/-- Content of the server block addressed by (c1, d0, d1) after a finished
`lcwrite`. -/
def writtenBlock (r : Res (Int × LcState)) (c1 d0 d1 : Nat) : Res (List Nat) :=
  r.bind fun x => Res.ok (x.2.server.blocks c1 d0 d1)

/-! ## Invariants used by the round-trip proof -/

/-- Payload and key of a cache line (everything but the recency counter). -/
def CACHE_LINE.kd (l : CACHE_LINE) : List Nat × Int × Nat × Nat :=
  (l.data, l.device, l.sec, l.block)

/-- Coherence of the first `n` lines of a cache, given as payload/key pairs,
with the server for the single device `id`: the array is not empty and holds
the `n` lines, resident keys are pairwise different, and every resident line
belongs to `id` and holds the server's content of its block. -/
def ViewInv (V : List (List Nat × Int × Nat × Nat)) (n : Nat) (srv : Server) (id : Int) : Prop :=
  0 < V.length ∧ n ≤ V.length
    ∧ (∀ i j a b, i < n → j < n → V[i]? = some a → V[j]? = some b →
        a.2.2 = b.2.2 → i = j)
    ∧ (∀ i a, i < n → V[i]? = some a →
        a.2.1 = id ∧ a.1 = blk256 (srv.blocks (devReg id) a.2.2.1 a.2.2.2))

/-- Cache invariant: `maxBlocks` is the size of the array and the resident
lines are coherent with the server. -/
def CacheInv (c : Cache) (srv : Server) (id : Int) : Prop :=
  c.maxBlocks = (c.lines.length : Int) ∧ ViewInv (c.lines.map CACHE_LINE.kd) c.numLines srv id

/-- The key is held by one of the resident lines. -/
def Resident (c : Cache) (did : Int) (sec blk : Nat) : Prop :=
  ∃ j a, j < c.numLines ∧ (c.lines.map CACHE_LINE.kd)[j]? = some a ∧ a.2 = (did, sec, blk)

/-- The server after a block write of `data` to (device register, sector,
block). -/
def Server.store (srv : Server) (c1 d0 d1 : Nat) (data : List Nat) : Server :=
  { srv with
    blocks := fun c s b => if c = c1 ∧ s = d0 ∧ b = d1 then blk256 data else srv.blocks c s b }

/-- The memory entries of a file whose first `m` bytes were appended block by
block on a fresh device with `B` blocks per sector: entry `j` covers the bytes
from `256 * j` on and lies in block `j` of the row-major order. -/
def extsOf (id : Int) (B m : Nat) : List MEMORY_ENTRY :=
  (List.range ((m + 255) / 256)).map fun j =>
    { startByte := 256 * j, length := min 256 (m - 256 * j), sec := j / B, block := u8 (j % B),
      device := id }

/-- The slot `table[sc][b]` of that device after `m` bytes: the blocks before
byte `m` in row-major order belong to handle 0, the others are unowned. -/
def freshSlot (B m sc b : Nat) : BLOCK :=
  if b < B ∧ 256 * (B * sc + b) < m then
    { handle := 0, spaceUsed := min 256 (m - 256 * (B * sc + b)) }
  else { handle := -1, spaceUsed := 0 }

/-- State of the driver while the single file (handle 0) of a fresh
installation with one device appends `w`: `m` bytes are written. -/
def WState (id : Int) (S B : Nat) (w : List Nat) (m : Nat) (st : LcState) : Prop :=
  st.cfg.WF
    ∧ st.files = [{ info := { handle := 0, length := w.length, loc := m }, pos := extsOf id B m }]
    ∧ (∃ dev, st.devices = [dev] ∧ dev.id = id ∧ dev.numSectors = S ∧ dev.numBlocks = B
        ∧ ∀ sc b, dev.table sc b = freshSlot B m sc b)
    ∧ CacheInv st.cache st.server id
    ∧ (∀ j, 256 * j < m →
        (blk256 (st.server.blocks (devReg id) (j / B) (j % B))).take (min 256 (m - 256 * j))
          = (w.drop (256 * j)).take (min 256 (m - 256 * j)))

/-- What a sequential read of the entries delivers: of each entry's block the
first `length` bytes. -/
def readBack (srv : Server) : List MEMORY_ENTRY → List Nat
  | [] => []
  | e :: es =>
    (blk256 (srv.blocks (devReg e.device) e.sec e.block)).take e.length ++ readBack srv es

/-- Block-aligned entries of a file of `L` bytes on device `id`: entry `j`
starts at `256 * j` and holds `min 256 (L - 256 * j)` bytes. -/
def Aligned (id : Int) (L : Nat) (es : List MEMORY_ENTRY) : Prop :=
  es.length = (L + 255) / 256
    ∧ ∀ j e, es[j]? = some e →
        e.startByte = 256 * j ∧ e.length = min 256 (L - 256 * j) ∧ e.device = id
          ∧ e.sec < 65536 ∧ e.block < 65536

/-- State of the `lcread` loop on block-aligned entries of the single file
(handle 0) after `k` passes: position and `subPos` are `min L (256 * k)`, and
the caller's buffer `buf0` holds what the first `k` entries deliver in front of
its untouched rest. -/
def RState (id : Int) (L : Nat) (es : List MEMORY_ENTRY) (srv : Server) (buf0 : List Nat)
    (k : Nat) (s : ReadLoop) : Prop :=
  s.st.cfg.WF ∧ s.st.server = srv
    ∧ s.st.files = [{ info := { handle := 0, length := L, loc := min L (256 * k) }, pos := es }]
    ∧ (∃ dev, s.st.devices = [dev] ∧ dev.id = id)
    ∧ CacheInv s.st.cache srv id
    ∧ s.subPos = ((min L (256 * k) : Nat) : Int)
    ∧ (readBack srv (es.take k)).length = min L (256 * k)
    ∧ s.buf = readBack srv (es.take k) ++ buf0.drop (min L (256 * k))

/-! ## Cache call sequences -/

/-- A call of the cache API after initialisation: a lookup or an insertion of a
256-byte payload under the key (device, sector, block). -/
inductive CacheOp where
  | get (did : Int) (sec blk : Nat) : CacheOp
  | put (did : Int) (sec blk : Nat) (block : List Nat) : CacheOp
  deriving DecidableEq, Repr

/-- The cache globals after one call (return value dropped). -/
def runCacheOp (c : Cache) : CacheOp → Res Cache
  | CacheOp.get did sec blk => (lcloud_getcache c did sec blk).bind fun r => Res.ok r.2
  | CacheOp.put did sec blk block => (lcloud_putcache c did sec blk block).bind fun r => Res.ok r.2

/-- The cache globals after a sequence of calls. -/
def runCacheOps : Cache → List CacheOp → Res Cache
  | c, [] => Res.ok c
  | c, op :: ops => (runCacheOp c op).bind fun c1 => runCacheOps c1 ops

/-- The payload a lookup returns after a finished run (`none` for NULL), the
globals dropped. -/
def lookup (r : Res Cache) (did : Int) (sec blk : Nat) : Res (Option (List Nat)) :=
  r.bind fun c => (lcloud_getcache c did sec blk).bind fun x => Res.ok x.1

/-- The calls `lcloud_putcache(key, payload)` for a list of key/payload pairs,
in order, with no lookup in between. -/
def putsOf (es : List ((Int × Nat × Nat) × List Nat)) : List CacheOp :=
  es.map fun e => CacheOp.put e.1.1 e.1.2.1 e.1.2.2 e.2

/-- The calls `lcloud_getcache(key)` for a list of keys, in order. -/
def getsOf (ks : List (Int × Nat × Nat)) : List CacheOp :=
  ks.map fun k => CacheOp.get k.1 k.2.1 k.2.2

/-- The cache globals after a finished run followed by `lcloud_initcache(n)`. -/
def reinit (r : Res Cache) (n : Int) : Res Cache :=
  r.bind fun c => Res.ok (lcloud_initcache c n).2

/-- The cache globals after `lcloud_initcache(2)` at program start. -/
def demoCache : Cache := (lcloud_initcache Cache.initial 2).2

/-- Three key/payload pairs with the keys (0,0,0), (0,0,1) and (0,0,2). -/
def demoPairs : List ((Int × Nat × Nat) × List Nat) :=
  [((0, 0, 0), List.replicate 256 1), ((0, 0, 1), List.replicate 256 2),
    ((0, 0, 2), List.replicate 256 3)]

/-- Well-formed cache globals: `maxBlocks` is the size of the array, the array
is not empty and `numLines` does not exceed its size. -/
def CacheWF (c : Cache) : Prop :=
  c.maxBlocks = (c.lines.length : Int) ∧ c.numLines ≤ c.lines.length ∧ 0 < c.lines.length

/-- The line `lcloud_putcache` stores for a key/payload pair. -/
def lineOf (e : (Int × Nat × Nat) × List Nat) : CACHE_LINE :=
  { data := e.2.take 256, lastUsed := 0, device := e.1.1, sec := e.1.2.1, block := e.1.2.2 }

/-- The cache while the pairs `es` are inserted into a fresh cache of `cap`
lines: `j` of them are in, pair `i` in line `i`. -/
def Filling (cap : Nat) (es : List ((Int × Nat × Nat) × List Nat)) (j : Nat) (c : Cache) : Prop :=
  c.lines.length = cap ∧ c.maxBlocks = (cap : Int) ∧ c.numLines = j
    ∧ ∀ i, i < j → c.lines[i]? = (es[i]?).map lineOf

/-! ## The open-file table seen through handles -/

/-- The file object a handle resolves to: `files[checkHandle(h)]`, `none` when
`checkHandle` answers -1. -/
def resolve (st : LcState) (h : Int) : Option FILE_OBJ :=
  match checkHandle st.files h with
  | none => none
  | some fIndex => st.files.get? fIndex

/-- The handles of the open files, in table order. -/
def handlesOf (st : LcState) : List Int := st.files.map fun f => f.info.handle

/-- The state after three `lcopen` calls on the sample installation (handles
0, 1 and 2 open). -/
def demoOpen3 : LcState :=
  ((runOps 0 demoBoot [Op.lcopen, Op.lcopen, Op.lcopen]).val).getD demoBoot

/-- Handle equals table index for every open file: the handles are 0..n-1 in
table order. -/
def DenseHandles (st : LcState) : Prop :=
  ∀ (i : Nat) (f : FILE_OBJ), st.files[i]? = some f → f.info.handle = (i : Int)

/-- Sequences of `lcopen` and `lcclose` calls, started with `n` files open under
the handles 0..n-1, in which every `lcclose` closes the file opened last among
those still open (handle n-1) and no `lcopen` is called with 256 files open. -/
def lifoOps : Nat → List Op → Bool
  | _, [] => true
  | n, Op.lcopen :: ops => decide (n < 256) && lifoOps (n + 1) ops
  | n, Op.lcclose h :: ops => decide (0 < n) && decide (h = (n : Int) - 1) && lifoOps (n - 1) ops
  | _, _ :: _ => false

/-! ## Device probe and first fit, as specified -/

/-- The `d0` field of the server's response to the device probe. -/
def probeD0 (cfg : Config) (srv : Server) : Nat :=
  (extract_lcloud_registers
    (client_lcloud_bus_request cfg srv (create_lcloud_registers 0 0 cfg.LC_DEVPROBE 0 0 0 0) []).1).2.d0

/-- The ids `i` in `0..15` for which bit `i` of `d0` is set, in increasing
order. -/
def setBits (d0 : Nat) : List Int :=
  ((List.range 16).filter fun i => d0.testBit i).map Int.ofNat

/-- A device of 2 sectors with 3 blocks each: sector 0 is full, and of sector 1
the first block belongs to handle 7 and the others are unused. -/
def demoGrid : DEVICE_OBJ :=
  { id := 3, numSectors := 2, numBlocks := 3,
    table := fun s b => if s = 0 then { handle := 0, spaceUsed := 256 }
                        else if b = 0 then { handle := 7, spaceUsed := 10 }
                        else { handle := -1, spaceUsed := 0 } }

/-- The recency counters of all lines and `numLines` after a finished run. -/
def counters (r : Res Cache) : Res (List Nat × Nat) :=
  r.bind fun c => Res.ok (c.lines.map (fun l => l.lastUsed), c.numLines)

/-- Whether a block is resident in the cache after a finished run of the file
API, with the hit and miss counts at that point. -/
def cacheProbe (r : Res LcState) (did : Int) (sec blk : Nat) : Res (Bool × Nat × Nat) :=
  r.bind fun st =>
    (lcloud_getcache st.cache did sec blk).bind fun x =>
      Res.ok (x.1.isSome, st.cache.hits, st.cache.misses)

/-- A cache of two lines after the insertions of (0,0,0) and (0,0,1). -/
def demoFull : Cache :=
  ((runCacheOps demoCache
    [CacheOp.put 0 0 0 (List.replicate 256 1), CacheOp.put 0 0 1 (List.replicate 256 2)]).val).getD
    demoCache

/-! ## Register frames: arithmetic form -/

theorem mask_shift (x k w : Nat) :
    (x &&& ((2 ^ w - 1) * 2 ^ k)) >>> k = x / 2 ^ k % 2 ^ w := by
  apply Nat.eq_of_testBit_eq
  intro j
  rw [Nat.testBit_shiftRight, Nat.testBit_and, Nat.testBit_mod_two_pow,
    ← Nat.shiftRight_eq_div_pow, Nat.testBit_shiftRight, ← Nat.shiftLeft_eq,
    Nat.testBit_shiftLeft]
  simp only [Nat.testBit_two_pow_sub_one, Nat.add_sub_cancel_left, ge_iff_le,
    Nat.le_add_right, decide_True, Bool.true_and]
  cases Nat.testBit x (k + j) <;> simp

theorem or_shift_add (a b k : Nat) (hb : b < 2 ^ k) :
    (a * 2 ^ k) ||| b = a * 2 ^ k + b := by
  have h := Nat.mul_add_lt_is_or hb a
  rw [Nat.mul_comm] at h
  exact h.symm

/-- With `b1` inside its four bits, the frame is the sum of the shifted fields,
each of the others reduced to its width. -/
theorem create_eq_sum_mod (b0 b1 c0 c1 c2 d0 d1 : Nat) (hb1 : b1 < 16) :
    create_lcloud_registers b0 b1 c0 c1 c2 d0 d1
      = b0 % 16 * 2 ^ 60 + b1 * 2 ^ 56 + c0 % 256 * 2 ^ 48 + c1 % 256 * 2 ^ 40
        + c2 % 256 * 2 ^ 32 + d0 % 65536 * 2 ^ 16 + d1 % 65536 := by
  unfold create_lcloud_registers u64 u8 u16
  simp only [Nat.shiftLeft_eq]
  have e0 : b0 % 256 * 2 ^ 60 % 18446744073709551616 = b0 % 16 * 2 ^ 60 := by omega
  have e1 : b1 % 256 * 2 ^ 56 % 18446744073709551616 = b1 * 2 ^ 56 := by omega
  have e2 : c0 % 256 * 2 ^ 48 % 18446744073709551616 = c0 % 256 * 2 ^ 48 := by omega
  have e3 : c1 % 256 * 2 ^ 40 % 18446744073709551616 = c1 % 256 * 2 ^ 40 := by omega
  have e4 : c2 % 256 * 2 ^ 32 % 18446744073709551616 = c2 % 256 * 2 ^ 32 := by omega
  have e5 : d0 % 65536 * 2 ^ 16 % 18446744073709551616 = d0 % 65536 * 2 ^ 16 := by omega
  have e6 : d1 % 65536 * 2 ^ 0 % 18446744073709551616 = d1 % 65536 := by omega
  rw [e0, e1, e2, e3, e4, e5, e6]
  generalize b0 % 16 = x0
  generalize hx2 : c0 % 256 = x2
  generalize hx3 : c1 % 256 = x3
  generalize hx4 : c2 % 256 = x4
  generalize hx5 : d0 % 65536 = x5
  generalize hx6 : d1 % 65536 = x6
  have l2 : x2 < 256 := by omega
  have l3 : x3 < 256 := by omega
  have l4 : x4 < 256 := by omega
  have l5 : x5 < 65536 := by omega
  have l6 : x6 < 65536 := by omega
  rw [or_shift_add x0 (b1 * 2 ^ 56) 60 (by omega)]
  have s1 : x0 * 2 ^ 60 + b1 * 2 ^ 56 = (x0 * 2 ^ 4 + b1) * 2 ^ 56 := by omega
  rw [s1, or_shift_add _ (x2 * 2 ^ 48) 56 (by omega)]
  have s2 : (x0 * 2 ^ 4 + b1) * 2 ^ 56 + x2 * 2 ^ 48
      = (x0 * 2 ^ 12 + b1 * 2 ^ 8 + x2) * 2 ^ 48 := by omega
  rw [s2, or_shift_add _ (x3 * 2 ^ 40) 48 (by omega)]
  have s3 : (x0 * 2 ^ 12 + b1 * 2 ^ 8 + x2) * 2 ^ 48 + x3 * 2 ^ 40
      = (x0 * 2 ^ 20 + b1 * 2 ^ 16 + x2 * 2 ^ 8 + x3) * 2 ^ 40 := by omega
  rw [s3, or_shift_add _ (x4 * 2 ^ 32) 40 (by omega)]
  have s4 : (x0 * 2 ^ 20 + b1 * 2 ^ 16 + x2 * 2 ^ 8 + x3) * 2 ^ 40 + x4 * 2 ^ 32
      = (x0 * 2 ^ 28 + b1 * 2 ^ 24 + x2 * 2 ^ 16 + x3 * 2 ^ 8 + x4) * 2 ^ 32 := by omega
  rw [s4, or_shift_add _ (x5 * 2 ^ 16) 32 (by omega)]
  have s5 : (x0 * 2 ^ 28 + b1 * 2 ^ 24 + x2 * 2 ^ 16 + x3 * 2 ^ 8 + x4) * 2 ^ 32 + x5 * 2 ^ 16
      = (x0 * 2 ^ 44 + b1 * 2 ^ 40 + x2 * 2 ^ 32 + x3 * 2 ^ 24 + x4 * 2 ^ 16 + x5) * 2 ^ 16 := by
    omega
  rw [s5, or_shift_add _ x6 16 (by omega)]

/-- With `b1` inside its four bits, decoding an encoded frame gives the fields
reduced to their widths. -/
theorem extract_create_mod (b0 b1 c0 c1 c2 d0 d1 : Nat) (hb1 : b1 < 16) :
    extract_lcloud_registers (create_lcloud_registers b0 b1 c0 c1 c2 d0 d1)
      = (0, { b0 := b0 % 16, b1 := b1, c0 := c0 % 256, c1 := c1 % 256, c2 := c2 % 256,
              d0 := d0 % 65536, d1 := d1 % 65536 }) := by
  rw [create_eq_sum_mod b0 b1 c0 c1 c2 d0 d1 hb1]
  unfold extract_lcloud_registers u8 u16
  have m0 : (0xF000000000000000 : Nat) = (2 ^ 4 - 1) * 2 ^ 60 := by norm_num
  have m1 : (0x0F00000000000000 : Nat) = (2 ^ 4 - 1) * 2 ^ 56 := by norm_num
  have m2 : (0x00FF000000000000 : Nat) = (2 ^ 8 - 1) * 2 ^ 48 := by norm_num
  have m3 : (0x0000FF0000000000 : Nat) = (2 ^ 8 - 1) * 2 ^ 40 := by norm_num
  have m4 : (0x000000FF00000000 : Nat) = (2 ^ 8 - 1) * 2 ^ 32 := by norm_num
  have m5 : (0x00000000FFFF0000 : Nat) = (2 ^ 16 - 1) * 2 ^ 16 := by norm_num
  have m6 : (0x000000000000FFFF : Nat) = (2 ^ 16 - 1) * 2 ^ 0 := by norm_num
  rw [m0, m1, m2, m3, m4, m5, m6]
  simp only [mask_shift]
  refine Prod.ext rfl ?_
  simp only [Registers.mk.injEq]
  refine ⟨?_, ?_, ?_, ?_, ?_, ?_, ?_⟩ <;> omega

/-- C10: decoding an encoded frame gives back the seven fields and returns 0,
for all fields inside their bit widths. -/
theorem extract_create_roundtrip (b0 b1 c0 c1 c2 d0 d1 : Nat)
    (hb0 : b0 < 16) (hb1 : b1 < 16) (hc0 : c0 < 256) (hc1 : c1 < 256) (hc2 : c2 < 256)
    (hd0 : d0 < 65536) (hd1 : d1 < 65536) :
    extract_lcloud_registers (create_lcloud_registers b0 b1 c0 c1 c2 d0 d1)
      = (0, { b0 := b0, b1 := b1, c0 := c0, c1 := c1, c2 := c2, d0 := d0, d1 := d1 }) := by
  rw [extract_create_mod b0 b1 c0 c1 c2 d0 d1 hb1, Nat.mod_eq_of_lt hb0, Nat.mod_eq_of_lt hc0,
    Nat.mod_eq_of_lt hc1, Nat.mod_eq_of_lt hc2, Nat.mod_eq_of_lt hd0, Nat.mod_eq_of_lt hd1]

/-- C10 at the fields 1, 2, 3, 4, 5, 6, 7. -/
theorem extract_create_roundtrip_witness :
    extract_lcloud_registers (create_lcloud_registers 1 2 3 4 5 6 7)
      = (0, { b0 := 1, b1 := 2, c0 := 3, c1 := 4, c2 := 5, d0 := 6, d1 := 7 }) :=
  extract_create_roundtrip 1 2 3 4 5 6 7 (by decide) (by decide) (by decide) (by decide)
    (by decide) (by decide) (by decide)

/-! ## Handles -/

theorem checkHandleFrom_none (h : Int) (fs : List FILE_OBJ) (i : Nat)
    (hne : ∀ f ∈ fs, f.info.handle ≠ h) : checkHandleFrom h fs i = none := by
  induction fs generalizing i with
  | nil => rfl
  | cons f fs ih =>
    have h1 : ¬ h = f.info.handle := fun e => hne f (List.mem_cons_self _ _) e.symm
    simp only [checkHandleFrom, h1, if_false]
    exact ih (i + 1) (fun g hg => hne g (List.mem_cons_of_mem _ hg))

theorem checkHandleFrom_some (h : Int) (fs : List FILE_OBJ) (i k : Nat)
    (hk : checkHandleFrom h fs i = some k) :
    i ≤ k ∧ ∃ f, fs.get? (k - i) = some f ∧ f.info.handle = h := by
  induction fs generalizing i with
  | nil => simp [checkHandleFrom] at hk
  | cons f fs ih =>
    simp only [checkHandleFrom] at hk
    by_cases hf : h = f.info.handle
    · simp only [hf, if_true, Option.some.injEq] at hk
      subst hk
      exact ⟨Nat.le_refl _, f, by simp, hf.symm⟩
    · simp only [hf, if_false] at hk
      obtain ⟨h1, g, hg, hh⟩ := ih (i + 1) hk
      refine ⟨by omega, g, ?_, hh⟩
      have e : k - i = (k - (i + 1)) + 1 := by omega
      rw [e]
      simpa using hg

/-- An index returned by `checkHandle` addresses an open file with that
handle. -/
theorem checkHandle_some (files : List FILE_OBJ) (h : Int) (k : Nat)
    (hk : checkHandle files h = some k) :
    ∃ f, files.get? k = some f ∧ f.info.handle = h := by
  obtain ⟨_, f, hf, hh⟩ := checkHandleFrom_some h files 0 k hk
  exact ⟨f, by simpa using hf, hh⟩

/-- C6: a handle that no open file carries makes `lcread`, `lcwrite`, `lcseek`
and `lcclose` return -1 and leave the whole state (open-file table, device
table, cache, server) and the caller's buffer as they were. -/
theorem invalid_handle_rejected (st : LcState) (fh : Int) (fuel : Nat) (buf : List Nat)
    (len off : Nat) (hfh : ∀ f ∈ st.files, f.info.handle ≠ fh) :
    lcread fuel st fh buf len = Res.ok (-1, buf, st)
      ∧ lcwrite fuel st fh buf len = Res.ok (-1, st)
      ∧ lcseek st fh off = (-1, st)
      ∧ lcclose st fh = (-1, st) := by
  have h0 : checkHandle st.files fh = none := checkHandleFrom_none fh st.files 0 hfh
  refine ⟨?_, ?_, ?_, ?_⟩
  · simp only [lcread, h0]
  · simp only [lcwrite, h0]
  · simp only [lcseek, h0]
  · simp only [lcclose, h0]

/-- C6 at handle 7 while only handle 0 is open. -/
theorem invalid_handle_rejected_witness :
    lcread 3 seekBig 7 [1, 2] 2 = Res.ok (-1, [1, 2], seekBig)
      ∧ lcwrite 3 seekBig 7 [1, 2] 2 = Res.ok (-1, seekBig)
      ∧ lcseek seekBig 7 5 = (-1, seekBig)
      ∧ lcclose seekBig 7 = (-1, seekBig) :=
  invalid_handle_rejected seekBig 7 3 [1, 2] 2 5 (by decide)

/-! ## `lcseek` -/

/-- C5 as stated fails for offsets of 2 GiB and more: the offset equals the
file length, the call succeeds, yet the returned `int` is negative. -/
theorem lcseek_return_wraps :
    (2147483648 : Nat) ≤ 2147483648
      ∧ (lcseek seekBig 0 2147483648).1 = -2147483648
      ∧ (lcseek seekBig 0 2147483648).2.files
          = [{ info := { handle := 0, length := 2147483648, loc := 2147483648 }, pos := [] }] := by
  decide

/-- C5, amended: on an open handle `lcseek` returns -1 and changes nothing when
the offset exceeds the file length; otherwise it keeps handle, length and
entries, stores the offset in the `uint32_t` position (the offset itself when
it is below 2^32) and returns the offset converted to `int`: the offset itself
when it is below 2^31, and the offset minus 2^32 from 2^31 up to 2^32. -/
theorem lcseek_spec (st : LcState) (fh : Int) (off fIndex : Nat) (fl : FILE_OBJ)
    (hidx : checkHandle st.files fh = some fIndex) (hfl : st.files.get? fIndex = some fl) :
    lcseek st fh off
        = (if fl.info.length < off then (-1, st)
           else (toI32 off,
                 { st with
                   files := st.files.set fIndex
                     { info := { handle := fl.info.handle, length := fl.info.length,
                                 loc := u32 off },
                       pos := fl.pos } }))
      ∧ (off < 4294967296 → u32 off = off)
      ∧ (off < 2147483648 → toI32 off = (off : Int))
      ∧ (2147483648 ≤ off → off < 4294967296 → toI32 off = (off : Int) - 4294967296) := by
  refine ⟨?_, ?_, ?_, ?_⟩
  · by_cases h : fl.info.length < off
    · simp only [lcseek, hidx, hfl, gt_iff_lt, h, if_true]
    · simp only [lcseek, hidx, hfl, gt_iff_lt, h, if_false, setLoc]
  · intro h
    exact Nat.mod_eq_of_lt h
  · intro h
    unfold toI32
    have e : off % 4294967296 = off := Nat.mod_eq_of_lt (by omega)
    simp only [e, h, if_true]
  · intro h1 h2
    unfold toI32
    have e : off % 4294967296 = off := Nat.mod_eq_of_lt h2
    have h3 : ¬ off < 2147483648 := by omega
    simp only [e, h3, if_false]

/-- C5, amended, at offset 2^31 in a file of 2 GiB: the seek succeeds and the
result is the offset minus 2^32. -/
theorem lcseek_spec_witness :
    checkHandle seekBig.files 0 = some 0
      ∧ seekBig.files.get? 0
          = some { info := { handle := 0, length := 2147483648, loc := 0 }, pos := [] }
      ∧ (lcseek seekBig 0 2147483648
          = (if (2147483648 : Nat) < 2147483648 then (-1, seekBig)
             else (toI32 2147483648,
                   { seekBig with
                     files := seekBig.files.set 0
                       { info := { handle := 0, length := 2147483648,
                                   loc := u32 2147483648 },
                         pos := [] } }))
        ∧ ((2147483648 : Nat) < 4294967296 → u32 2147483648 = 2147483648)
        ∧ ((2147483648 : Nat) < 2147483648 → toI32 2147483648 = ((2147483648 : Nat) : Int))
        ∧ ((2147483648 : Nat) ≤ 2147483648 → (2147483648 : Nat) < 4294967296
            → toI32 2147483648 = ((2147483648 : Nat) : Int) - 4294967296)) :=
  ⟨by decide, by decide,
    lcseek_spec seekBig 0 2147483648 0
      { info := { handle := 0, length := 2147483648, loc := 0 }, pos := [] }
      (by decide) (by decide)⟩

/-! ## Worked runs that contradict the specification -/

set_option maxRecDepth 1000000

/-- C3 fails on the code: a file of 44 bytes with position 34 is overwritten
with `len = 220` from a 222-byte buffer.  The single pass of the loop takes
`256 - 34 = 222` bytes, two more than `len`: `lcwrite` returns 220, the file
length becomes 254 = 34 + 220, but the position ends at 256, and bytes 220 and
221 of the buffer reach the block. -/
theorem lcwrite_takes_more_than_len :
    filesOf (runOps 4 demoBoot [Op.lcopen, Op.lcwrite 0 (List.replicate 44 1) 44, Op.lcseek 0 34])
        = Res.ok [{ info := { handle := 0, length := 44, loc := 34 },
                    pos := [{ startByte := 0, length := 44, sec := 0, block := 0, device := 0 }] }]
      ∧ writeView ((runOps 4 demoBoot
            [Op.lcopen, Op.lcwrite 0 (List.replicate 44 1) 44, Op.lcseek 0 34]).bind
          fun st => lcwrite 4 st 0 (List.replicate 220 2 ++ [7, 8]) 220)
        = Res.ok (220,
            [{ info := { handle := 0, length := 254, loc := 256 },
               pos := [{ startByte := 0, length := 256, sec := 0, block := 0, device := 0 }] }])
      ∧ (writtenBlock ((runOps 4 demoBoot
            [Op.lcopen, Op.lcwrite 0 (List.replicate 44 1) 44, Op.lcseek 0 34]).bind
          fun st => lcwrite 4 st 0 (List.replicate 220 2 ++ [7, 8]) 220) 0 0 0).bind
          (fun b => Res.ok (b.drop 254))
        = Res.ok [7, 8] := by
  decide

/-- C8 fails on the code: after writing 300 bytes, seeking to 290 and writing
with `len = 220`, the pass of the loop takes 222 bytes; the entries then cover
[0,256) and [256,512), 512 bytes in all, while the tracked file length is
510. -/
theorem extents_exceed_length :
    filesOf (runOps 4 demoBoot
        [Op.lcopen, Op.lcwrite 0 (List.replicate 300 1) 300, Op.lcseek 0 290,
         Op.lcwrite 0 (List.replicate 222 2) 220])
        = Res.ok [{ info := { handle := 0, length := 510, loc := 512 },
                    pos := [{ startByte := 0, length := 256, sec := 0, block := 0, device := 0 },
                            { startByte := 256, length := 256, sec := 0, block := 1,
                              device := 0 }] }]
      ∧ (filesOf (runOps 4 demoBoot
          [Op.lcopen, Op.lcwrite 0 (List.replicate 300 1) 300, Op.lcseek 0 290,
           Op.lcwrite 0 (List.replicate 222 2) 220])).bind
          (fun fs => Res.ok (fs.map fun fl => decide fl.extentsOK))
        = Res.ok [false] := by
  decide

/-- C9 fails on the code: a file with handle 0 writes 100 bytes and is closed;
the next file opened gets handle 0 again and inherits the half-used block.
After three appends its second entry covers [156,257) in one block; an
overwrite of 256 bytes at position 256 then sets that entry's length and the
block's `spaceUsed` to 356, and `assert(... <= 256)` fails. -/
theorem assert_fails_after_handle_reuse :
    filesOf (runOps 4 demoBoot
        [Op.lcopen, Op.lcwrite 0 (List.replicate 100 9) 100, Op.lcclose 0, Op.lcopen,
         Op.lcwrite 0 (List.replicate 156 1) 156, Op.lcwrite 0 (List.replicate 100 2) 100,
         Op.lcwrite 0 [3] 1, Op.lcseek 0 256])
        = Res.ok [{ info := { handle := 0, length := 257, loc := 256 },
                    pos := [{ startByte := 0, length := 156, sec := 0, block := 0, device := 0 },
                            { startByte := 156, length := 101, sec := 0, block := 1,
                              device := 0 }] }]
      ∧ writeView ((runOps 4 demoBoot
          [Op.lcopen, Op.lcwrite 0 (List.replicate 100 9) 100, Op.lcclose 0, Op.lcopen,
           Op.lcwrite 0 (List.replicate 156 1) 156, Op.lcwrite 0 (List.replicate 100 2) 100,
           Op.lcwrite 0 [3] 1, Op.lcseek 0 256]).bind
          (fun st => lcwrite 4 st 0 (List.replicate 256 4) 256))
        = Res.abort := by
  decide

/-- C1 fails on the code: a file with handle 0 writes 255 bytes and is closed;
the next file opened gets handle 0 again.  Four appends of 1, 255, 1 and 1
bytes give it the tracked length 258; after `lcseek(fh,0)` a read of 258 bytes
into a 600-byte buffer returns 258, but byte 257 of the buffer is 2 (a byte of
the second write) where the fourth write put 4.  With a buffer of exactly 258
bytes the last `memcpy` of the read runs past the buffer. -/
theorem roundtrip_broken_after_handle_reuse :
    filesOf (runOps 4 demoBoot
        [Op.lcopen, Op.lcwrite 0 (List.replicate 255 9) 255, Op.lcclose 0, Op.lcopen,
         Op.lcwrite 0 [1] 1, Op.lcwrite 0 (List.replicate 255 2) 255, Op.lcwrite 0 [3] 1,
         Op.lcwrite 0 [4] 1, Op.lcseek 0 0])
        = Res.ok [{ info := { handle := 0, length := 258, loc := 0 },
                    pos := [{ startByte := 0, length := 1, sec := 0, block := 0, device := 0 },
                            { startByte := 1, length := 256, sec := 0, block := 1, device := 0 },
                            { startByte := 257, length := 1, sec := 0, block := 2,
                              device := 0 }] }]
      ∧ ((runOps 4 demoBoot
          [Op.lcopen, Op.lcwrite 0 (List.replicate 255 9) 255, Op.lcclose 0, Op.lcopen,
           Op.lcwrite 0 [1] 1, Op.lcwrite 0 (List.replicate 255 2) 255, Op.lcwrite 0 [3] 1,
           Op.lcwrite 0 [4] 1, Op.lcseek 0 0]).bind
          (fun st => lcread 4 st 0 (List.replicate 600 0) 258)).bind
          (fun r => Res.ok (r.1, r.2.1.take 258))
        = Res.ok (258, [1] ++ List.replicate 255 2 ++ [3, 2])
      ∧ [1] ++ List.replicate 255 2 ++ [3, 2] ≠ [1] ++ List.replicate 255 2 ++ [3] ++ [4]
      ∧ readView ((runOps 4 demoBoot
          [Op.lcopen, Op.lcwrite 0 (List.replicate 255 9) 255, Op.lcclose 0, Op.lcopen,
           Op.lcwrite 0 [1] 1, Op.lcwrite 0 (List.replicate 255 2) 255, Op.lcwrite 0 [3] 1,
           Op.lcwrite 0 [4] 1, Op.lcseek 0 0]).bind
          (fun st => lcread 4 st 0 (List.replicate 258 0) 258))
        = Res.fault := by
  decide

/-- C4 fails on the code: in the state reached by opening a file, writing 200
bytes, closing it, opening again (handle 0 is reused) and appending 56, 200, 56
and 10 bytes, the file has position 0 after `lcseek(fh,0)` and length 322.
`lcread` with `len = 322` into a 600-byte buffer returns 322 = min(322, 322 - 0),
but its third pass copies a whole block, and the position ends at 512 instead
of 322. -/
theorem lcread_position_overshoots :
    filesOf (runOps 4 demoBoot
        [Op.lcopen, Op.lcwrite 0 (List.replicate 200 9) 200, Op.lcclose 0, Op.lcopen,
         Op.lcwrite 0 (List.replicate 56 1) 56, Op.lcwrite 0 (List.replicate 200 2) 200,
         Op.lcwrite 0 (List.replicate 56 3) 56, Op.lcwrite 0 (List.replicate 10 4) 10,
         Op.lcseek 0 0])
        = Res.ok [{ info := { handle := 0, length := 322, loc := 0 },
                    pos := [{ startByte := 0, length := 56, sec := 0, block := 0, device := 0 },
                            { startByte := 56, length := 256, sec := 0, block := 1, device := 0 },
                            { startByte := 312, length := 10, sec := 0, block := 2,
                              device := 0 }] }]
      ∧ ((runOps 4 demoBoot
          [Op.lcopen, Op.lcwrite 0 (List.replicate 200 9) 200, Op.lcclose 0, Op.lcopen,
           Op.lcwrite 0 (List.replicate 56 1) 56, Op.lcwrite 0 (List.replicate 200 2) 200,
           Op.lcwrite 0 (List.replicate 56 3) 56, Op.lcwrite 0 (List.replicate 10 4) 10,
           Op.lcseek 0 0]).bind
          (fun st => lcread 4 st 0 (List.replicate 600 0) 322)).bind
          (fun r => Res.ok (r.1, r.2.2.files.map fun fl => fl.info.loc))
        = Res.ok (322, [512]) := by
  decide

/-! ## Cache lemmas -/

theorem set_of_getElem? {α : Type} (l : List α) (i : Nat) (a : α) (h : l[i]? = some a) :
    l.set i a = l := by
  induction l generalizing i with
  | nil => rfl
  | cons x xs ih =>
    cases i with
    | zero =>
      simp only [List.getElem?_cons_zero, Option.some.injEq] at h
      simp [h]
    | succ k =>
      simp only [List.getElem?_cons_succ] at h
      simp [List.set, ih k h]

theorem getLineFrom_total (did : Int) (sec blk : Nat) (ls : List CACHE_LINE) :
    ∀ (n i0 : Nat), n ≤ ls.length →
      (getLineFrom did sec blk ls n i0 = Res.ok none
          ∧ ∀ j l, j < n → ls[j]? = some l → ¬ (l.device = did ∧ l.sec = sec ∧ l.block = blk))
        ∨ (∃ j l, j < n ∧ ls[j]? = some l ∧ (l.device = did ∧ l.sec = sec ∧ l.block = blk)
            ∧ getLineFrom did sec blk ls n i0 = Res.ok (some (i0 + j))) := by
  induction ls with
  | nil =>
    intro n i0 hn
    have : n = 0 := by simpa using hn
    subst this
    left
    exact ⟨rfl, fun j l hj => absurd hj (Nat.not_lt_zero _)⟩
  | cons x xs ih =>
    intro n i0 hn
    cases n with
    | zero =>
      left
      exact ⟨rfl, fun j l hj => absurd hj (Nat.not_lt_zero _)⟩
    | succ m =>
      by_cases hx : x.device = did ∧ x.sec = sec ∧ x.block = blk
      · right
        refine ⟨0, x, Nat.succ_pos _, List.getElem?_cons_zero, hx, ?_⟩
        simp only [getLineFrom, hx, and_self, if_true, Nat.add_zero]
      · have hm : m ≤ xs.length := by simpa using hn
        rcases ih m (i0 + 1) hm with ⟨h1, h2⟩ | ⟨j, l, hj, hl, hk, hr⟩
        · left
          refine ⟨?_, ?_⟩
          · simp only [getLineFrom, hx, if_false, h1]
          · intro j l hj hl
            cases j with
            | zero =>
              simp only [List.getElem?_cons_zero, Option.some.injEq] at hl
              subst hl
              exact hx
            | succ k =>
              simp only [List.getElem?_cons_succ] at hl
              exact h2 k l (by omega) hl
        · right
          refine ⟨j + 1, l, by omega, by simpa using hl, hk, ?_⟩
          simp only [getLineFrom, hx, if_false, hr]
          congr 2
          omega

theorem ageLines_view (ls : List CACHE_LINE) :
    ∀ (n : Nat), n ≤ ls.length →
      ∃ ls1, ageLines ls n = Res.ok ls1 ∧ ls1.map CACHE_LINE.kd = ls.map CACHE_LINE.kd := by
  induction ls with
  | nil =>
    intro n hn
    have : n = 0 := by simpa using hn
    subst this
    exact ⟨[], rfl, rfl⟩
  | cons x xs ih =>
    intro n hn
    cases n with
    | zero => exact ⟨x :: xs, rfl, rfl⟩
    | succ m =>
      obtain ⟨ys, h1, h2⟩ := ih m (by simpa using hn)
      refine ⟨{ x with lastUsed := u64 (x.lastUsed + 1) } :: ys, ?_, ?_⟩
      · simp only [ageLines, h1]
      · simp only [List.map_cons, h2]
        rfl

theorem evictScan_lt (ls : List CACHE_LINE) :
    ∀ (n i : Nat) (large : Int) (line : Nat), n ≤ ls.length →
      ∃ r, evictScan ls n i large line = Res.ok r ∧ (r = line ∨ (i ≤ r ∧ r < i + n)) := by
  induction ls with
  | nil =>
    intro n i large line hn
    have : n = 0 := by simpa using hn
    subst this
    exact ⟨line, rfl, Or.inl rfl⟩
  | cons x xs ih =>
    intro n i large line hn
    cases n with
    | zero => exact ⟨line, rfl, Or.inl rfl⟩
    | succ m =>
      have hm : m ≤ xs.length := by simpa using hn
      by_cases hx : x.lastUsed > toU64 large
      · obtain ⟨r, h1, h2⟩ := ih m (i + 1) (toI32 x.lastUsed) i hm
        refine ⟨r, ?_, ?_⟩
        · simp only [evictScan, hx, if_true, h1]
        · right; omega
      · obtain ⟨r, h1, h2⟩ := ih m (i + 1) large line hm
        refine ⟨r, ?_, ?_⟩
        · simp only [evictScan, hx, if_false, h1]
        · rcases h2 with h2 | h2
          · exact Or.inl h2
          · right; omega

theorem blk256_length (l : List Nat) : (blk256 l).length = 256 := by
  unfold blk256
  simp only [List.length_take, List.length_append, List.length_replicate]
  omega

theorem blk256_of_length (l : List Nat) (h : l.length = 256) : blk256 l = l := by
  unfold blk256
  rw [List.take_append_of_le_length (by omega)]
  exact List.take_of_length_le (by omega)

theorem blk256_idem (l : List Nat) : blk256 (blk256 l) = blk256 l :=
  blk256_of_length _ (blk256_length l)

theorem devReg_lt (id : Int) : devReg id < 256 := by
  unfold devReg
  omega

/-- A block read over the bus returns the server's block and leaves the server
as it is. -/
theorem bus_read (cfg : Config) (hcfg : cfg.WF) (srv : Server) (id : Int) (sec blk : Nat)
    (hsec : sec < 65536) (hblk : blk < 65536) (buf : List Nat) :
    (client_lcloud_bus_request cfg srv
        (create_lcloud_registers 0 0 cfg.LC_BLOCK_XFER (devReg id) cfg.LC_XFER_READ sec blk)
        buf).2
      = (blk256 (srv.blocks (devReg id) sec blk), srv) := by
  obtain ⟨h1, h2, _, _⟩ := hcfg
  have hd := devReg_lt id
  simp only [client_lcloud_bus_request, extract_create_mod _ _ _ _ _ _ _ (by decide : 0 < 16),
    Nat.mod_eq_of_lt h1, Nat.mod_eq_of_lt h2, Nat.mod_eq_of_lt hd, Nat.mod_eq_of_lt hsec,
    Nat.mod_eq_of_lt hblk, if_true]

/-- A block write over the bus stores the 256 bytes in the addressed block. -/
theorem bus_write (cfg : Config) (hcfg : cfg.WF) (srv : Server) (id : Int) (sec blk : Nat)
    (hsec : sec < 65536) (hblk : blk < 65536) (buf : List Nat) :
    (client_lcloud_bus_request cfg srv
        (create_lcloud_registers 0 0 cfg.LC_BLOCK_XFER (devReg id) cfg.LC_XFER_WRITE sec blk)
        buf).2.2
      = srv.store (devReg id) sec blk buf := by
  obtain ⟨h1, h2, h3, h4⟩ := hcfg
  have hd := devReg_lt id
  have h5 : ¬ cfg.LC_XFER_WRITE = cfg.LC_XFER_READ := fun e => h4 e.symm
  simp only [client_lcloud_bus_request, extract_create_mod _ _ _ _ _ _ _ (by decide : 0 < 16),
    Nat.mod_eq_of_lt h1, Nat.mod_eq_of_lt h3, Nat.mod_eq_of_lt hd, Nat.mod_eq_of_lt hsec,
    Nat.mod_eq_of_lt hblk, if_true, h5, if_false, Server.store]

theorem CacheInv_of_view (c c1 : Cache) (srv : Server) (id : Int)
    (hv : c1.lines.map CACHE_LINE.kd = c.lines.map CACHE_LINE.kd)
    (hn : c1.numLines = c.numLines) (hm : c1.maxBlocks = c.maxBlocks)
    (h : CacheInv c srv id) : CacheInv c1 srv id := by
  have hl : c1.lines.length = c.lines.length := by
    have := congrArg List.length hv
    simpa using this
  unfold CacheInv at *
  rw [hv, hn, hm, hl]
  exact h

theorem getLine_resident (c : Cache) (did : Int) (sec blk : Nat)
    (hn : c.numLines ≤ c.lines.length) :
    (getLine c did sec blk = Res.ok none ∧ ¬ Resident c did sec blk)
      ∨ (∃ j l, j < c.numLines ∧ c.lines[j]? = some l
          ∧ (l.device = did ∧ l.sec = sec ∧ l.block = blk)
          ∧ getLine c did sec blk = Res.ok (some j)) := by
  rcases getLineFrom_total did sec blk c.lines c.numLines 0 hn with ⟨h1, h2⟩ | ⟨j, l, hj, hl, hk, hr⟩
  · left
    refine ⟨h1, ?_⟩
    rintro ⟨j, a, hj, ha, hk⟩
    rw [List.getElem?_map] at ha
    cases hl : c.lines[j]? with
    | none => rw [hl] at ha; simp at ha
    | some l =>
      rw [hl] at ha
      simp only [Option.map_some', Option.some.injEq] at ha
      subst ha
      simp only [CACHE_LINE.kd, Prod.mk.injEq] at hk
      exact h2 j l hj hl hk
  · right
    refine ⟨j, l, hj, hl, hk, ?_⟩
    unfold getLine
    rw [hr, Nat.zero_add]

/-- A lookup of a key that is not resident returns NULL and only counts the
miss. -/
theorem getcache_miss (c : Cache) (srv : Server) (id : Int) (sec blk : Nat)
    (h : CacheInv c srv id) (hr : ¬ Resident c id sec blk) :
    lcloud_getcache c id sec blk = Res.ok (none, { c with misses := u64 (c.misses + 1) }) := by
  have hlen : c.numLines ≤ c.lines.length := by
    have := h.2.2.1
    simpa using this
  rcases getLine_resident c id sec blk hlen with ⟨h1, _⟩ | ⟨j, l, hj, hl, hk, _⟩
  · simp only [lcloud_getcache, h1]
  · exfalso
    apply hr
    refine ⟨j, l.kd, hj, ?_, ?_⟩
    · rw [List.getElem?_map, hl]; rfl
    · simp only [CACHE_LINE.kd, hk.1, hk.2.1, hk.2.2]

/-- A lookup of a resident key returns the server's content of the block and
changes only recency counters and the hit count. -/
theorem getcache_hit (c : Cache) (srv : Server) (id : Int) (sec blk : Nat)
    (h : CacheInv c srv id) (hr : Resident c id sec blk) :
    ∃ c1, lcloud_getcache c id sec blk
        = Res.ok (some (blk256 (srv.blocks (devReg id) sec blk)), c1)
      ∧ c1.lines.map CACHE_LINE.kd = c.lines.map CACHE_LINE.kd
      ∧ c1.numLines = c.numLines ∧ c1.maxBlocks = c.maxBlocks := by
  have hlen : c.numLines ≤ c.lines.length := by
    have := h.2.2.1
    simpa using this
  rcases getLine_resident c id sec blk hlen with ⟨_, h2⟩ | ⟨j, l, hj, hl, hk, hg⟩
  · exact absurd hr h2
  · have hcoh := h.2.2.2.2 j l.kd hj (by rw [List.getElem?_map, hl]; rfl)
    have hset : (c.lines.set j { l with lastUsed := 18446744073709551615 }).map CACHE_LINE.kd
        = c.lines.map CACHE_LINE.kd := by
      rw [List.map_set]
      apply set_of_getElem?
      rw [List.getElem?_map, hl]
      rfl
    obtain ⟨ls1, ha, hb⟩ := ageLines_view
      (c.lines.set j { l with lastUsed := 18446744073709551615 }) c.numLines
      (by simpa using hlen)
    refine ⟨{ c with lines := ls1, hits := u64 (c.hits + 1) }, ?_, ?_, rfl, rfl⟩
    · have hget : c.lines.get? j = some l := by simpa using hl
      simp only [lcloud_getcache, hg, hget, ha]
      have hd : l.data = blk256 (srv.blocks (devReg id) sec blk) := by
        have := hcoh.2
        simp only [CACHE_LINE.kd] at this
        rw [this, hk.2.1, hk.2.2]
      rw [hd]
    · simp only [hb, hset]

theorem Resident_of_view (c c1 : Cache) (did : Int) (sec blk : Nat)
    (hv : c1.lines.map CACHE_LINE.kd = c.lines.map CACHE_LINE.kd)
    (hn : c1.numLines = c.numLines) (h : Resident c did sec blk) : Resident c1 did sec blk := by
  unfold Resident at *
  rw [hv, hn]
  exact h

/-- `fetchBlock` delivers the server's content of the block, whether it comes
from the cache or over the bus, and keeps the cache coherent. -/
theorem fetchBlock_spec (st : LcState) (id : Int) (sec blk : Nat) (hcfg : st.cfg.WF)
    (hinv : CacheInv st.cache st.server id) (hsec : sec < 65536) (hblk : blk < 65536) :
    ∃ c1, fetchBlock st id sec blk
        = Res.ok (blk256 (st.server.blocks (devReg id) sec blk), { st with cache := c1 })
      ∧ CacheInv c1 st.server id := by
  by_cases hr : Resident st.cache id sec blk
  · obtain ⟨c1, h1, hv1, hn1, hm1⟩ := getcache_hit st.cache st.server id sec blk hinv hr
    have hinv1 : CacheInv c1 st.server id := CacheInv_of_view st.cache c1 _ _ hv1 hn1 hm1 hinv
    have hr1 : Resident c1 id sec blk := Resident_of_view st.cache c1 _ _ _ hv1 hn1 hr
    obtain ⟨c2, h2, hv2, hn2, hm2⟩ := getcache_hit c1 st.server id sec blk hinv1 hr1
    refine ⟨c2, ?_, CacheInv_of_view c1 c2 _ _ hv2 hn2 hm2 hinv1⟩
    simp only [fetchBlock, h1, h2, blk256_idem]
  · have h1 := getcache_miss st.cache st.server id sec blk hinv hr
    refine ⟨{ st.cache with misses := u64 (st.cache.misses + 1) }, ?_, ?_⟩
    · have hb := bus_read st.cfg hcfg st.server id sec blk hsec hblk []
      have hb1 := congrArg Prod.fst hb
      have hb2 := congrArg Prod.snd hb
      simp only at hb1 hb2
      simp only [fetchBlock, h1, hb1, hb2]
    · exact CacheInv_of_view st.cache _ _ _ rfl rfl rfl hinv

theorem viewInv_set (V : List (List Nat × Int × Nat × Nat)) (n nl r : Nat) (srv : Server)
    (id : Int) (sec blk : Nat) (data : List Nat) (h : ViewInv V n srv id)
    (hr : r < V.length) (hrn : r < nl) (hnl : nl ≤ V.length)
    (hother : ∀ j, j < nl → j ≠ r → j < n ∧ ∀ b, V[j]? = some b → b.2.2 ≠ (sec, blk))
    (hlen : data.length = 256) :
    ViewInv (V.set r (data.take 256, id, sec, blk)) nl (srv.store (devReg id) sec blk data) id := by
  obtain ⟨h0, _, hnd, hcoh⟩ := h
  refine ⟨by simpa using h0, by simpa using hnl, ?_, ?_⟩
  · intro i j a b hi hj ha hb hab
    by_cases hir : i = r
    · by_cases hjr : j = r
      · omega
      · exfalso
        subst hir
        rw [List.getElem?_set_self hr] at ha
        rw [List.getElem?_set_ne (Ne.symm hjr)] at hb
        simp only [Option.some.injEq] at ha
        subst ha
        exact (hother j hj hjr).2 b hb hab.symm
    · by_cases hjr : j = r
      · exfalso
        subst hjr
        rw [List.getElem?_set_self hr] at hb
        rw [List.getElem?_set_ne (Ne.symm hir)] at ha
        simp only [Option.some.injEq] at hb
        subst hb
        exact (hother i hi hir).2 a ha hab
      · rw [List.getElem?_set_ne (Ne.symm hir)] at ha
        rw [List.getElem?_set_ne (Ne.symm hjr)] at hb
        exact hnd i j a b (hother i hi hir).1 (hother j hj hjr).1 ha hb hab
  · intro i a hi ha
    by_cases hir : i = r
    · subst hir
      rw [List.getElem?_set_self hr] at ha
      simp only [Option.some.injEq] at ha
      subst ha
      refine ⟨rfl, ?_⟩
      simp only [Server.store, and_self, if_true, blk256_idem]
      rw [blk256_of_length data hlen]
      exact List.take_of_length_le (by omega)
    · rw [List.getElem?_set_ne (Ne.symm hir)] at ha
      obtain ⟨h1, h2⟩ := hcoh i a (hother i hi hir).1 ha
      refine ⟨h1, ?_⟩
      have hne : ¬ (a.2.2.1 = sec ∧ a.2.2.2 = blk) := by
        intro e
        exact (hother i hi hir).2 a ha (Prod.ext e.1 e.2)
      simp only [Server.store, true_and, hne, if_false]
      exact h2

/-- `lcloud_putcache` of the 256 bytes just written to the server keeps the
cache coherent with the updated server. -/
theorem putcache_spec (c : Cache) (srv : Server) (id : Int) (sec blk : Nat) (data : List Nat)
    (h : CacheInv c srv id) (hlen : data.length = 256) :
    ∃ c1, lcloud_putcache c id sec blk data = Res.ok (0, c1)
      ∧ CacheInv c1 (srv.store (devReg id) sec blk data) id := by
  obtain ⟨hmax, hview⟩ := h
  have h0 : 0 < c.lines.length := by simpa using hview.1
  have hn : c.numLines ≤ c.lines.length := by simpa using hview.2.1
  have key : ∀ r nl, putLine c id sec blk = Res.ok (r, nl) → r < c.lines.length → r < nl →
      nl ≤ c.lines.length →
      (∀ j, j < nl → j ≠ r → j < c.numLines
        ∧ ∀ b, (c.lines.map CACHE_LINE.kd)[j]? = some b → b.2.2 ≠ (sec, blk)) →
      ∃ c1, lcloud_putcache c id sec blk data = Res.ok (0, c1)
        ∧ CacheInv c1 (srv.store (devReg id) sec blk data) id := by
    intro r nl hp hr hrn hnl hother
    refine ⟨{ c with
      lines := c.lines.set r
        { data := data.take 256, lastUsed := 0, device := id, sec := sec, block := blk }
      numLines := nl }, ?_, ?_⟩
    · simp only [lcloud_putcache, hp, hr, if_true]
    · refine ⟨by simpa using hmax, ?_⟩
      have := viewInv_set (c.lines.map CACHE_LINE.kd) c.numLines nl r srv id sec blk data hview
        (by simpa using hr) hrn (by simpa using hnl) hother hlen
      simpa [List.map_set, CACHE_LINE.kd] using this
  have nonres : (∀ j l, j < c.numLines → c.lines[j]? = some l →
        ¬ (l.device = id ∧ l.sec = sec ∧ l.block = blk)) →
      ∀ j, j < c.numLines → ∀ b, (c.lines.map CACHE_LINE.kd)[j]? = some b → b.2.2 ≠ (sec, blk) := by
    intro hno j hj b hb e
    have hdev := (hview.2.2.2 j b hj hb).1
    rw [List.getElem?_map] at hb
    cases hl : c.lines[j]? with
    | none => rw [hl] at hb; simp at hb
    | some l =>
      rw [hl] at hb
      simp only [Option.map_some', Option.some.injEq] at hb
      subst hb
      simp only [CACHE_LINE.kd, Prod.mk.injEq] at e hdev
      exact hno j l hj hl ⟨hdev, e.1, e.2⟩
  rcases getLineFrom_total id sec blk c.lines c.numLines 0 hn with ⟨h1, h2⟩ | ⟨j, l, hj, hl, hk, hg⟩
  · by_cases hfull : (c.numLines : Int) < c.maxBlocks
    · have hlt : c.numLines < c.lines.length := by omega
      apply key c.numLines (c.numLines + 1)
      · simp only [putLine, getLine, h1, hfull, if_true]
      · exact hlt
      · omega
      · omega
      · intro j hj hne
        have hj2 : j < c.numLines := by omega
        exact ⟨hj2, nonres h2 j hj2⟩
    · have heq : c.numLines = c.lines.length := by omega
      obtain ⟨r, hr1, hr2⟩ := evictScan_lt c.lines c.lines.length 0 0 0 (Nat.le_refl _)
      have hrl : r < c.lines.length := by omega
      apply key r c.numLines
      · have ht : c.maxBlocks.toNat = c.lines.length := by omega
        simp only [putLine, getLine, h1, hfull, if_false, ht, hr1]
      · exact hrl
      · omega
      · omega
      · intro j hj _
        exact ⟨hj, nonres h2 j hj⟩
  · apply key j c.numLines
    · simp only [putLine, getLine, hg, Nat.zero_add]
    · omega
    · exact hj
    · exact hn
    · intro i hi hne
      refine ⟨hi, ?_⟩
      intro b hb e
      apply hne
      have hlj : (c.lines.map CACHE_LINE.kd)[j]? = some l.kd := by
        rw [List.getElem?_map, hl]; rfl
      apply hview.2.2.1 i j b l.kd hi hj hb hlj
      rw [e]
      simp only [CACHE_LINE.kd, hk.2.1, hk.2.2]

/-! ## First-fit search -/

theorem scanRow_none (row : Nat → BLOCK) (fh : Int) :
    ∀ (n j : Nat),
      (∀ t, j ≤ t → t < j + n →
        ¬ ((row t).spaceUsed < LC_DEVICE_BLOCK_SIZE ∧ ((row t).handle = fh ∨ (row t).handle = -1))) →
      scanRow row fh n j = none := by
  intro n
  induction n with
  | zero => intro j _; rfl
  | succ n ih =>
    intro j h
    have h0 := h j (Nat.le_refl _) (by omega)
    simp only [scanRow, h0, if_false]
    exact ih (j + 1) (fun t h1 h2 => h t (by omega) (by omega))

theorem scanRow_some (row : Nat → BLOCK) (fh : Int) :
    ∀ (n j t : Nat), j ≤ t → t < j + n →
      (∀ u, j ≤ u → u < t →
        ¬ ((row u).spaceUsed < LC_DEVICE_BLOCK_SIZE ∧ ((row u).handle = fh ∨ (row u).handle = -1))) →
      ((row t).spaceUsed < LC_DEVICE_BLOCK_SIZE ∧ ((row t).handle = fh ∨ (row t).handle = -1)) →
      scanRow row fh n j = some t := by
  intro n
  induction n with
  | zero => intro j t h1 h2; omega
  | succ n ih =>
    intro j t h1 h2 hbefore hfree
    by_cases hjt : j = t
    · subst hjt
      rw [scanRow, if_pos hfree]
    · have h0 := hbefore j (Nat.le_refl _) (by omega)
      simp only [scanRow, h0, if_false]
      exact ih (j + 1) t (by omega) (by omega) (fun u h3 h4 => hbefore u (by omega) h4) hfree

theorem scanTable_some (table : Nat → Nat → BLOCK) (fh : Int) (numBlocks : Nat) :
    ∀ (n i s b : Nat), i ≤ s → s < i + n →
      (∀ r, i ≤ r → r < s → scanRow (table r) fh numBlocks 0 = none) →
      scanRow (table s) fh numBlocks 0 = some b →
      scanTable table fh numBlocks n i = some (s, b) := by
  intro n
  induction n with
  | zero => intro i s b h1 h2; omega
  | succ n ih =>
    intro i s b h1 h2 hbefore hrow
    by_cases his : i = s
    · subst his
      simp only [scanTable, hrow]
    · have h0 := hbefore i (Nat.le_refl _) (by omega)
      simp only [scanTable, h0]
      exact ih (i + 1) s b (by omega) (by omega) (fun r h3 h4 => hbefore r (by omega) h4) hrow

theorem div_lt_of_lt_mul' (k S B : Nat) (h : k < S * B) : k / B < S := by
  apply Nat.div_lt_of_lt_mul
  rw [Nat.mul_comm]
  exact h

theorem rowmajor_lt (B k r t : Nat) (hr : r < k / B) (ht : t < B) : B * r + t < k := by
  have h1 : B * (r + 1) ≤ B * (k / B) := Nat.mul_le_mul_left B hr
  have h2 : B * (k / B) ≤ k := Nat.mul_div_le k B
  rw [Nat.mul_succ] at h1
  omega

theorem rowmajor_unique (B k sc b : Nat) (hb : b < B) (h : B * sc + b = k) :
    sc = k / B ∧ b = k % B := by
  subst h
  have hB : 0 < B := by omega
  constructor
  · rw [Nat.mul_add_div hB, Nat.div_eq_of_lt hb, Nat.add_zero]
  · rw [Nat.mul_add_mod, Nat.mod_eq_of_lt hb]

/-- On the device of a file that has filled `k` whole blocks, first fit finds
block `k` of the row-major order. -/
theorem scanTable_fresh (B S k : Nat) (table : Nat → Nat → BLOCK) (hk : k < S * B)
    (ht : ∀ sc b, table sc b = freshSlot B (256 * k) sc b) :
    scanTable table 0 B S 0 = some (k / B, k % B) := by
  have hB : 0 < B := by
    rcases Nat.eq_zero_or_pos B with h | h
    · subst h; simp at hk
    · exact h
  have hdm := Nat.div_add_mod k B
  apply scanTable_some table 0 B S 0 (k / B) (k % B) (Nat.zero_le _)
  · have := div_lt_of_lt_mul' k S B hk
    omega
  · intro r _ hr
    apply scanRow_none
    intro t _ htB
    have hlt := rowmajor_lt B k r t hr (by omega)
    simp only [ht, freshSlot, LC_DEVICE_BLOCK_SIZE]
    have c1 : t < B ∧ 256 * (B * r + t) < 256 * k := ⟨by omega, by omega⟩
    simp only [c1, and_self, if_true]
    omega
  · have hmod : k % B < B := Nat.mod_lt k hB
    apply scanRow_some (table (k / B)) 0 B 0 (k % B) (Nat.zero_le _) (by omega)
    · intro u _ hu
      simp only [ht, freshSlot, LC_DEVICE_BLOCK_SIZE]
      have c1 : u < B ∧ 256 * (B * (k / B) + u) < 256 * k := ⟨by omega, by omega⟩
      simp only [c1, and_self, if_true]
      omega
    · simp only [ht, freshSlot, LC_DEVICE_BLOCK_SIZE]
      have c1 : ¬ (k % B < B ∧ 256 * (B * (k / B) + k % B) < 256 * k) := by
        rw [hdm]; omega
      simp only [c1, if_false]
      decide

/-! ## The write loop on a fresh installation -/

theorem toU64_natCast (n : Nat) (h : n < 18446744073709551616) : toU64 (n : Int) = n := by
  unfold toU64
  omega

theorem toI32_small (n : Nat) (h : n < 2147483648) : toI32 n = (n : Int) := by
  unfold toI32
  have : n % 4294967296 = n := Nat.mod_eq_of_lt (by omega)
  simp only [this, h, if_true]

theorem writeLen_append (loc rest : Nat) :
    writeLen false none loc 0 rest = Res.ok (min 256 rest) := by
  have h : toU64 ((LC_DEVICE_BLOCK_SIZE : Int) - ((0 : Nat) : Int)) = 256 := by decide
  unfold writeLen
  rw [h]
  by_cases hr : rest ≤ 256
  · simp only [hr, if_true, Nat.min_eq_right hr]
  · simp only [hr, if_false, Bool.false_eq_true]
    have : min 256 rest = 256 := by omega
    rw [this]

theorem availableSpace_fresh (dev : DEVICE_OBJ) (S B k : Nat) (hS : S ≤ 256) (hB : B ≤ 65536)
    (hnS : dev.numSectors = S) (hnB : dev.numBlocks = B) (hk : k < S * B)
    (ht : ∀ sc b, dev.table sc b = freshSlot B (256 * k) sc b) :
    availableSpace [dev] dev.id 0 = some (k / B, k % B) := by
  have hB0 : 0 < B := by
    rcases Nat.eq_zero_or_pos B with h | h
    · subst h; simp at hk
    · exact h
  have h1 : k / B < S := div_lt_of_lt_mul' k S B hk
  have h2 : k % B < B := Nat.mod_lt k hB0
  simp only [availableSpace, checkId, checkIdFrom, if_true, List.get?, hnB, hnS,
    scanTable_fresh B S k dev.table hk ht, u8, u16]
  rw [Nat.mod_eq_of_lt (by omega : k / B < 256), Nat.mod_eq_of_lt (by omega : k % B < 65536)]

theorem extsOf_zero (id : Int) (B : Nat) : extsOf id B 0 = [] := by
  simp [extsOf]

theorem extsOf_snoc (id : Int) (B k m1 : Nat) (h1 : 256 * k < m1) (h2 : m1 ≤ 256 * k + 256) :
    extsOf id B m1 = extsOf id B (256 * k)
      ++ [{ startByte := 256 * k, length := m1 - 256 * k, sec := k / B, block := u8 (k % B),
            device := id }] := by
  have e1 : (m1 + 255) / 256 = k + 1 := by omega
  have e2 : (256 * k + 255) / 256 = k := by omega
  unfold extsOf
  rw [e1, e2, List.range_succ, List.map_append]
  congr 1
  · apply List.map_congr_left
    intro j hj
    have hj2 : j < k := List.mem_range.mp hj
    have a1 : min 256 (m1 - 256 * j) = 256 := by omega
    have a2 : min 256 (256 * k - 256 * j) = 256 := by omega
    rw [a1, a2]
  · have a3 : min 256 (m1 - 256 * k) = m1 - 256 * k := by omega
    simp only [List.map_cons, List.map_nil, a3]

theorem extsOf_getLast (id : Int) (B k : Nat) :
    (extsOf id B (256 * k)).getLast? = none
      ∨ (0 < k ∧ (extsOf id B (256 * k)).getLast?
          = some { startByte := 256 * (k - 1), length := 256, sec := (k - 1) / B,
                   block := u8 ((k - 1) % B), device := id }) := by
  cases k with
  | zero => left; simp [extsOf]
  | succ n =>
    right
    refine ⟨Nat.succ_pos _, ?_⟩
    rw [extsOf_snoc id B n (256 * (n + 1)) (by omega) (by omega), List.getLast?_concat]
    have : 256 * (n + 1) - 256 * n = 256 := by omega
    simp only [this, Nat.add_sub_cancel]

theorem updateEntries_fresh (id : Int) (B k c : Nat) (hc1 : 0 < c) (hc2 : c ≤ 256) :
    updateEntries false none (extsOf id B (256 * k)) (256 * k) c (k / B) (k % B) id 0
      = Res.ok (extsOf id B (256 * k + c), c) := by
  have hnew : newEntry (extsOf id B (256 * k)) (256 * k) c (k / B) (k % B) id 0
      = Res.ok (extsOf id B (256 * k + c), c) := by
    have e1 : u16 c = c := Nat.mod_eq_of_lt (by omega)
    have e2 : u16 (0 + c) = c := by rw [Nat.zero_add]; exact e1
    have e3 : 256 * k + c - 256 * k = c := by omega
    simp only [newEntry, e1, e2, hc2, if_true]
    rw [extsOf_snoc id B k (256 * k + c) (by omega) (by omega), e3]
  unfold updateEntries
  simp only [Bool.false_eq_true, if_false]
  rcases extsOf_getLast id B k with h | ⟨hk, h⟩
  · rw [h]
    exact hnew
  · rw [h]
    simp only
    have hcond : ¬ (u32 (256 * (k - 1) + 256) = 256 * k ∧ (k - 1) / B = k / B
        ∧ u8 ((k - 1) % B) = k % B ∧ True) := by
      rintro ⟨_, hq, hr, _⟩
      have d1 := Nat.div_add_mod k B
      have d2 := Nat.div_add_mod (k - 1) B
      rw [hq] at d2
      unfold u8 at hr
      have := Nat.mod_le ((k - 1) % B) 256
      omega
    rw [if_neg hcond]
    exact hnew

theorem freshSlot_step (B k c : Nat) (dev : DEVICE_OBJ) (hB : 0 < B) (hc1 : 0 < c)
    (hc2 : c ≤ 256) (ht : ∀ sc b, dev.table sc b = freshSlot B (256 * k) sc b) :
    ∀ sc b, (setBlock dev (k / B) (k % B) { handle := 0, spaceUsed := c }).table sc b
      = freshSlot B (256 * k + c) sc b := by
  intro sc b
  have hdm := Nat.div_add_mod k B
  have hmod : k % B < B := Nat.mod_lt k hB
  unfold setBlock
  simp only
  by_cases he : sc = k / B ∧ b = k % B
  · rw [if_pos he, he.1, he.2]
    unfold freshSlot
    rw [hdm]
    have c1 : k % B < B ∧ 256 * k < 256 * k + c := ⟨hmod, by omega⟩
    rw [if_pos c1]
    have : min 256 (256 * k + c - 256 * k) = c := by omega
    rw [this]
  · rw [if_neg he, ht]
    unfold freshSlot
    by_cases hb : b < B
    · have hne : B * sc + b ≠ k := by
        intro e
        exact he (rowmajor_unique B k sc b hb e)
      by_cases hlt : B * sc + b < k
      · have c1 : b < B ∧ 256 * (B * sc + b) < 256 * k := ⟨hb, by omega⟩
        have c2 : b < B ∧ 256 * (B * sc + b) < 256 * k + c := ⟨hb, by omega⟩
        rw [if_pos c1, if_pos c2]
        have a1 : min 256 (256 * k - 256 * (B * sc + b)) = 256 := by omega
        have a2 : min 256 (256 * k + c - 256 * (B * sc + b)) = 256 := by omega
        rw [a1, a2]
      · have c1 : ¬ (b < B ∧ 256 * (B * sc + b) < 256 * k) := by omega
        have c2 : ¬ (b < B ∧ 256 * (B * sc + b) < 256 * k + c) := by omega
        rw [if_neg c1, if_neg c2]
    · have c1 : ¬ (b < B ∧ 256 * (B * sc + b) < 256 * k) := fun h => hb h.1
      have c2 : ¬ (b < B ∧ 256 * (B * sc + b) < 256 * k + c) := fun h => hb h.1
      rw [if_neg c1, if_neg c2]

theorem divmod_ne (B j k : Nat) (h : j ≠ k) : ¬ (j / B = k / B ∧ j % B = k % B) := by
  rintro ⟨h1, h2⟩
  have d1 := Nat.div_add_mod j B
  have d2 := Nat.div_add_mod k B
  rw [h1, h2] at d1
  omega

theorem server_step (srv : Server) (id : Int) (B k c : Nat) (w old : List Nat)
    (hc1 : 0 < c) (hc2 : c ≤ 256) (hcw : 256 * k + c ≤ w.length) (hold : old.length = 256)
    (hsrv : ∀ j, 256 * j < 256 * k →
      (blk256 (srv.blocks (devReg id) (j / B) (j % B))).take (min 256 (256 * k - 256 * j))
        = (w.drop (256 * j)).take (min 256 (256 * k - 256 * j))) :
    ∀ j, 256 * j < 256 * k + c →
      (blk256 ((srv.store (devReg id) (k / B) (k % B)
          (old.take 0 ++ (w.drop (256 * k)).take c ++ old.drop c)).blocks
            (devReg id) (j / B) (j % B))).take (min 256 (256 * k + c - 256 * j))
        = (w.drop (256 * j)).take (min 256 (256 * k + c - 256 * j)) := by
  intro j hj
  have hlen : ((w.drop (256 * k)).take c).length = c := by
    simp only [List.length_take, List.length_drop]
    omega
  by_cases hjk : j = k
  · subst hjk
    have a1 : min 256 (256 * j + c - 256 * j) = c := by omega
    simp only [Server.store, and_self, if_true, blk256_idem, a1]
    rw [blk256_of_length _ (by
      simp only [List.take_zero, List.nil_append, List.length_append, hlen, List.length_drop,
        hold]
      omega)]
    simp only [List.take_zero, List.nil_append]
    rw [List.take_append_of_le_length (by omega)]
    rw [List.take_of_length_le (by omega)]
  · have hlt : j < k := by omega
    have hne : ¬ (j / B = k / B ∧ j % B = k % B) := divmod_ne B j k hjk
    have a1 : min 256 (256 * k + c - 256 * j) = min 256 (256 * k - 256 * j) := by omega
    simp only [Server.store, true_and, hne, if_false, a1]
    exact hsrv j (by omega)

theorem lcwriteStep_fresh (id : Int) (S B : Nat) (w : List Nat) (k : Nat) (s : WriteLoop)
    (hS : S ≤ 256) (hB : B ≤ 65536) (hL : w.length < 2147483648)
    (hW : WState id S B w (256 * k) s.st) (hk : k < S * B) (hlt : 256 * k < w.length)
    (hsub : s.subPos = ((256 * k : Nat) : Int)) :
    ∃ s1, lcwriteStep 0 0 w w.length false s = Res.ok s1
      ∧ WState id S B w (256 * k + min 256 (w.length - 256 * k)) s1.st
      ∧ s1.subPos = ((256 * k + min 256 (w.length - 256 * k) : Nat) : Int)
      ∧ s1.sec = k / B ∧ s1.block = k % B ∧ s1.dev = some 0 := by
  obtain ⟨hcfg, hfiles, ⟨dev, hdevs, hid, hnS, hnB, htab⟩, hcache, hsrv⟩ := hW
  have hB0 : 0 < B := by
    rcases Nat.eq_zero_or_pos B with h | h
    · subst h; simp at hk
    · exact h
  have hdm := Nat.div_add_mod k B
  have hq : k / B < S := div_lt_of_lt_mul' k S B hk
  have hr : k % B < B := Nat.mod_lt k hB0
  generalize hc : min 256 (w.length - 256 * k) = c
  have hc1 : 0 < c := by omega
  have hc2 : c ≤ 256 := by omega
  have hcw : 256 * k + c ≤ w.length := by omega
  -- block selection
  have hav := availableSpace_fresh dev S B k hS hB hnS hnB hk htab
  have hsel : selectTarget false 0
      { info := { handle := 0, length := w.length, loc := 256 * k }, pos := extsOf id B (256 * k) } s
      = (k / B, k % B, some 0, none) := by
    simp only [selectTarget, Bool.false_eq_true, if_false, hdevs, firstDevice, hav]
  -- fetch
  obtain ⟨c1, hf, hc1inv⟩ := fetchBlock_spec s.st id (k / B) (k % B) hcfg hcache (by omega)
    (by omega)
  generalize hold : blk256 (s.st.server.blocks (devReg id) (k / B) (k % B)) = old at hf
  have holdlen : old.length = 256 := by rw [← hold]; exact blk256_length _
  -- usage of the selected slot
  have hused : (dev.table (k / B) (k % B)).spaceUsed = 0 := by
    rw [htab]
    unfold freshSlot
    rw [hdm]
    have : ¬ (k % B < B ∧ 256 * k < 256 * k) := by omega
    rw [if_neg this]
  have hrest : u64 (w.length + 18446744073709551616 - 256 * k) = w.length - 256 * k := by
    unfold u64
    omega
  have hwl : writeLen false none (256 * k) 0 (w.length - 256 * k) = Res.ok c := by
    rw [writeLen_append, hc]
  have hsubU : toU64 s.subPos = 256 * k := by rw [hsub]; exact toU64_natCast _ (by omega)
  have hcl : c ≤ LC_DEVICE_BLOCK_SIZE := hc2
  have hmod0 : 256 * k % LC_DEVICE_BLOCK_SIZE = 0 := by
    unfold LC_DEVICE_BLOCK_SIZE
    omega
  generalize hnb : old.take 0 ++ (w.drop (256 * k)).take c ++ old.drop c = newBlock
  have hnblen : newBlock.length = 256 := by
    rw [← hnb]
    simp only [List.take_zero, List.nil_append, List.length_append, List.length_take,
      List.length_drop, holdlen]
    omega
  obtain ⟨c2, hput, hc2inv⟩ := putcache_spec c1 s.st.server id (k / B) (k % B) newBlock hc1inv
    hnblen
  have hbw := bus_write s.st.cfg hcfg s.st.server id (k / B) (k % B) (by omega) (by omega)
    newBlock
  have hupd := updateEntries_fresh id B k c hc1 hc2
  have hget0 : s.st.files.get? 0
      = some { info := { handle := 0, length := w.length, loc := 256 * k },
               pos := extsOf id B (256 * k) } := by
    rw [hfiles]; rfl
  have hgetd : s.st.devices.get? 0 = some dev := by
    rw [hdevs]; rfl
  have hi32 : toI32 (256 * k + c) = ((256 * k + c : Nat) : Int) := toI32_small _ (by omega)
  have hu32 : u32 (256 * k + c) = 256 * k + c := Nat.mod_eq_of_lt (by omega)
  refine ⟨{ subPos := ((256 * k + c : Nat) : Int), sec := k / B, block := k % B, dev := some 0,
            st := { cfg := s.st.cfg
                    files := [{ info := { handle := 0, length := w.length, loc := 256 * k + c },
                                pos := extsOf id B (256 * k + c) }]
                    devices := [setBlock dev (k / B) (k % B) { handle := 0, spaceUsed := c }]
                    isOn := s.st.isOn
                    cache := c2
                    server := s.st.server.store (devReg id) (k / B) (k % B) newBlock } },
    ?_, ?_, rfl, rfl, rfl, rfl⟩
  · simp only [lcwriteStep, hget0, hsel, hgetd, hid, hf, hused, hrest, hwl, hsubU, hmod0,
      Nat.zero_add, hcl, hcw, and_self, if_true, hnb, hbw, hput, hupd, hi32, hu32]
    simp only [hfiles, hdevs, List.set]
  · refine ⟨hcfg, rfl, ⟨_, rfl, hid, hnS, hnB, freshSlot_step B k c dev hB0 hc1 hc2 htab⟩,
      hc2inv, ?_⟩
    rw [← hnb]
    exact server_step s.st.server id B k c w old hc1 hc2 hcw holdlen hsrv

theorem lcwriteLoop_done (fIndex : Nat) (fh : Int) (buf : List Nat) (len : Nat) (ow : Bool)
    (fuel : Nat) (s : WriteLoop) (h : ¬ toU64 s.subPos < len) :
    lcwriteLoop fIndex fh buf len ow fuel s = Res.ok s := by
  cases fuel with
  | zero => simp only [lcwriteLoop, h, if_false]
  | succ n => simp only [lcwriteLoop, h, if_false]

theorem lcwriteLoop_fresh (id : Int) (S B : Nat) (w : List Nat)
    (hS : S ≤ 256) (hB : B ≤ 65536) (hL : w.length < 2147483648)
    (hfit : w.length ≤ 256 * (S * B)) :
    ∀ (fuel k : Nat) (s : WriteLoop), WState id S B w (256 * k) s.st →
      s.subPos = ((256 * k : Nat) : Int) → 256 * k ≤ w.length →
      w.length ≤ 256 * k + 256 * fuel →
      ∃ s1, lcwriteLoop 0 0 w w.length false fuel s = Res.ok s1
        ∧ WState id S B w w.length s1.st := by
  intro fuel
  induction fuel with
  | zero =>
    intro k s hW hsub hle hfuel
    have e : 256 * k = w.length := by omega
    refine ⟨s, lcwriteLoop_done _ _ _ _ _ _ _ ?_, ?_⟩
    · rw [hsub, toU64_natCast _ (by omega)]; omega
    · rw [← e]; exact hW
  | succ n ih =>
    intro k s hW hsub hle hfuel
    by_cases hdone : 256 * k = w.length
    · refine ⟨s, lcwriteLoop_done _ _ _ _ _ _ _ ?_, ?_⟩
      · rw [hsub, toU64_natCast _ (by omega)]; omega
      · rw [← hdone]; exact hW
    · have hlt : 256 * k < w.length := by omega
      have hk : k < S * B := by omega
      obtain ⟨s1, hstep, hW1, hsub1, _⟩ := lcwriteStep_fresh id S B w k s hS hB hL hW hk hlt hsub
      have hcond : toU64 s.subPos < w.length := by
        rw [hsub, toU64_natCast _ (by omega)]; exact hlt
      simp only [lcwriteLoop, hcond, if_true, hstep]
      by_cases hfull : 256 ≤ w.length - 256 * k
      · have e : 256 * k + min 256 (w.length - 256 * k) = 256 * (k + 1) := by omega
        rw [e] at hW1 hsub1
        exact ih (k + 1) s1 hW1 hsub1 (by omega) (by omega)
      · have e : 256 * k + min 256 (w.length - 256 * k) = w.length := by omega
        rw [e] at hW1 hsub1
        refine ⟨s1, lcwriteLoop_done _ _ _ _ _ _ _ ?_, hW1⟩
        rw [hsub1, toU64_natCast _ (by omega)]; omega

/-- `lcwrite` of `w` to the one empty file of a fresh one-device installation
returns `|w|` and leaves the blocks, entries and server content described by
`WState`. -/
theorem lcwrite_fresh (id : Int) (S B : Nat) (w : List Nat) (st : LcState) (fuel : Nat)
    (hS : S ≤ 256) (hB : B ≤ 65536) (hL : w.length < 2147483648)
    (hfit : w.length ≤ 256 * (S * B)) (hfuel : w.length ≤ 256 * fuel)
    (hcfg : st.cfg.WF)
    (hfiles : st.files = [{ info := { handle := 0, length := 0, loc := 0 }, pos := [] }])
    (hdev : ∃ dev, st.devices = [dev] ∧ dev.id = id ∧ dev.numSectors = S ∧ dev.numBlocks = B
      ∧ ∀ sc b, dev.table sc b = { handle := -1, spaceUsed := 0 })
    (hcache : CacheInv st.cache st.server id) :
    ∃ st1, lcwrite fuel st 0 w w.length = Res.ok ((w.length : Int), st1)
      ∧ WState id S B w w.length st1 := by
  have hch : checkHandle st.files 0 = some 0 := by
    rw [hfiles]; rfl
  have hget : st.files.get? 0 = some { info := { handle := 0, length := 0, loc := 0 }, pos := [] } := by
    rw [hfiles]; rfl
  have hgrow : grownLength 0 0 w.length = w.length := by
    unfold grownLength u64 u32
    by_cases h0 : w.length = 0
    · simp [h0]
    · have : (0 + w.length) % 18446744073709551616 > 0 := by omega
      rw [if_pos this]
      omega
  obtain ⟨dev, hdevs, hid, hnS, hnB, htab⟩ := hdev
  have hW0 : WState id S B w (256 * 0)
      ({ subPos := 0, sec := 0, block := 0, dev := none,
         st := { st with
           files := st.files.set 0
             { info := { handle := 0, length := w.length, loc := 0 }, pos := [] } } } :
        WriteLoop).st := by
    refine ⟨hcfg, ?_, ⟨dev, hdevs, hid, hnS, hnB, ?_⟩, hcache, ?_⟩
    · simp only [hfiles, List.set, Nat.mul_zero, extsOf_zero]
    · intro sc b
      rw [htab]
      unfold freshSlot
      have : ¬ (b < B ∧ 256 * (B * sc + b) < 256 * 0) := by omega
      rw [if_neg this]
    · intro j hj
      omega
  obtain ⟨s1, hloop, hW1⟩ := lcwriteLoop_fresh id S B w hS hB hL hfit fuel 0 _ hW0 rfl
    (by omega) (by omega)
  refine ⟨s1.st, ?_, hW1⟩
  simp only [lcwrite, hch, hget, Nat.lt_irrefl, decide_False, hgrow, hloop,
    toI32_small _ hL]
/-! ## The read loop on block-aligned entries -/

theorem findEntry_spec (loc : Nat) (es : List MEMORY_ENTRY) :
    ∀ (i0 k : Nat) (e : MEMORY_ENTRY), es[k]? = some e →
      (e.startByte ≤ loc ∧ loc < u32 (e.startByte + e.length)) →
      (∀ j e1, j < k → es[j]? = some e1 →
        ¬ (e1.startByte ≤ loc ∧ loc < u32 (e1.startByte + e1.length))) →
      findEntry loc es i0 = some (i0 + k, e) := by
  induction es with
  | nil => intro i0 k e h; simp at h
  | cons x xs ih =>
    intro i0 k e hk hc hbefore
    cases k with
    | zero =>
      simp only [List.getElem?_cons_zero, Option.some.injEq] at hk
      subst hk
      rw [findEntry, if_pos hc, Nat.add_zero]
    | succ n =>
      have h0 := hbefore 0 x (Nat.succ_pos _) List.getElem?_cons_zero
      rw [findEntry, if_neg h0]
      simp only [List.getElem?_cons_succ] at hk
      rw [ih (i0 + 1) n e hk hc (fun j e1 hj he1 => hbefore (j + 1) e1 (by omega) (by simpa using he1))]
      congr 2
      omega

theorem readBack_append (srv : Server) (xs ys : List MEMORY_ENTRY) :
    readBack srv (xs ++ ys) = readBack srv xs ++ readBack srv ys := by
  induction xs with
  | nil => rfl
  | cons x xs ih =>
    show readBack srv (x :: (xs ++ ys)) = readBack srv (x :: xs) ++ readBack srv ys
    simp only [readBack, ih, List.append_assoc]

theorem readBack_take_succ (srv : Server) (es : List MEMORY_ENTRY) (k : Nat) (e : MEMORY_ENTRY)
    (h : es[k]? = some e) :
    readBack srv (es.take (k + 1))
      = readBack srv (es.take k)
        ++ (blk256 (srv.blocks (devReg e.device) e.sec e.block)).take e.length := by
  rw [List.take_succ, h, readBack_append]
  simp only [Option.toList, readBack, List.append_nil]

theorem lcreadLoop_done (fIndex len fuel : Nat) (s : ReadLoop) (h : ¬ toU64 s.subPos < len) :
    lcreadLoop fIndex len fuel s = Res.ok s := by
  cases fuel with
  | zero => simp only [lcreadLoop, h, if_false]
  | succ n => simp only [lcreadLoop, h, if_false]

theorem lcreadStep_aligned (id : Int) (L : Nat) (es : List MEMORY_ENTRY) (srv : Server)
    (buf0 : List Nat) (k : Nat) (s : ReadLoop) (hL : L < 2147483648) (hbuf : L ≤ buf0.length)
    (hal : Aligned id L es) (hR : RState id L es srv buf0 k s) (hlt : 256 * k < L) :
    ∃ s1, lcreadStep 0 L s = Res.ok s1 ∧ RState id L es srv buf0 (k + 1) s1 := by
  obtain ⟨hcfg, hsrv, hfiles, ⟨dev, hdevs, hid⟩, hcache, hsub, hlen, hbufs⟩ := hR
  have hm : min L (256 * k) = 256 * k := by omega
  rw [hm] at hfiles hsub hlen hbufs
  generalize hc : min 256 (L - 256 * k) = c
  have hc1 : 0 < c := by omega
  have hc2 : c ≤ 256 := by omega
  have hm1 : min L (256 * (k + 1)) = 256 * k + c := by omega
  have hkl : k < es.length := by rw [hal.1]; omega
  obtain ⟨e, he⟩ : ∃ e, es[k]? = some e := ⟨es[k], List.getElem?_eq_getElem hkl⟩
  obtain ⟨hes, hel, hed, hesec, heblk⟩ := hal.2 k e he
  rw [hc] at hel
  have hfind : findEntry (256 * k) es 0 = some (0 + k, e) := by
    apply findEntry_spec (256 * k) es 0 k e he
    · rw [hes, hel]
      unfold u32
      omega
    · intro j e1 hj he1
      obtain ⟨h1, h2, _⟩ := hal.2 j e1 he1
      rw [h1, h2]
      unfold u32
      omega
  have hget0 : s.st.files.get? 0
      = some { info := { handle := 0, length := L, loc := 256 * k }, pos := es } := by
    rw [hfiles]; rfl
  have hcid : checkId s.st.devices e.device = some 0 := by
    rw [hdevs, hed, ← hid]
    simp only [checkId, checkIdFrom, if_true]
  have hgetd : s.st.devices.get? 0 = some dev := by
    rw [hdevs]; rfl
  have hsubU : toU64 s.subPos = 256 * k := by rw [hsub]; exact toU64_natCast _ (by omega)
  have hrest : u64 (L + 18446744073709551616 - 256 * k) = L - 256 * k := by
    unfold u64
    omega
  have hmod0 : 256 * k % LC_DEVICE_BLOCK_SIZE = 0 := by
    unfold LC_DEVICE_BLOCK_SIZE
    omega
  have hsubLen : (if L - 256 * k ≤ u32 (u32 (e.length + e.startByte) + 4294967296 - 256 * k)
      then L - 256 * k else toU64 ((e.length : Int) - ((0 : Nat) : Int))) = c := by
    rw [hes, hel]
    have a1 : u32 (u32 (c + 256 * k) + 4294967296 - 256 * k) = c := by
      unfold u32
      omega
    rw [a1]
    by_cases h : L - 256 * k ≤ c
    · rw [if_pos h]; omega
    · rw [if_neg h]
      unfold toU64
      omega
  have hcache1 : CacheInv s.st.cache s.st.server id := by rw [hsrv]; exact hcache
  obtain ⟨c1, hf, hc1inv⟩ := fetchBlock_spec s.st id e.sec e.block hcfg hcache1 hesec heblk
  rw [hsrv] at hf hc1inv
  generalize hblk : blk256 (srv.blocks (devReg id) e.sec e.block) = blk at hf
  have hblklen : blk.length = 256 := by rw [← hblk]; exact blk256_length _
  have hbuflen : s.buf.length = buf0.length := by
    rw [hbufs, List.length_append, hlen, List.length_drop]
    omega
  have hcl : c ≤ LC_DEVICE_BLOCK_SIZE := hc2
  have hroom : 256 * k + c ≤ s.buf.length := by rw [hbuflen]; omega
  have hi32 : toI32 (256 * k + c) = ((256 * k + c : Nat) : Int) := toI32_small _ (by omega)
  have hu32 : u32 (256 * k + c) = 256 * k + c := Nat.mod_eq_of_lt (by omega)
  have hnext : readBack srv (es.take (k + 1)) = readBack srv (es.take k) ++ blk.take c := by
    rw [readBack_take_succ srv es k e he, hed, hblk, hel]
  refine ⟨{ subPos := ((256 * k + c : Nat) : Int)
            buf := s.buf.take (256 * k) ++ (blk.drop 0).take c ++ s.buf.drop (256 * k + c)
            st := { cfg := s.st.cfg
                    files := [{ info := { handle := 0, length := L, loc := 256 * k + c },
                                pos := es }]
                    devices := s.st.devices
                    isOn := s.st.isOn
                    cache := c1
                    server := srv } }, ?_, ?_⟩
  · simp only [lcreadStep, hget0, hfind, hcid, hgetd, hid, hsubU, hrest, hmod0, hsubLen, hf,
      Nat.zero_add, hcl, hroom, and_self, if_true, hi32, hu32, setLoc]
    simp only [hfiles, List.set]
  · refine ⟨hcfg, rfl, ?_, ⟨dev, hdevs, hid⟩, hc1inv, ?_, ?_, ?_⟩
    · rw [hm1]
    · rw [hm1]
    · rw [hm1, hnext, List.length_append, hlen, List.length_take, hblklen]
      omega
    · rw [hm1, hnext, hbufs]
      simp only [List.drop_zero]
      rw [List.take_append_of_le_length (by omega), List.take_of_length_le (by omega)]
      have hd : List.drop (256 * k + c) (readBack srv (List.take k es) ++ List.drop (256 * k) buf0)
          = List.drop (256 * k + c) buf0 := by
        rw [← hlen, List.drop_append, List.drop_drop, hlen]
      rw [hd]

theorem lcreadLoop_aligned (id : Int) (L : Nat) (es : List MEMORY_ENTRY) (srv : Server)
    (buf0 : List Nat) (hL : L < 2147483648) (hbuf : L ≤ buf0.length) (hal : Aligned id L es) :
    ∀ (fuel k : Nat) (s : ReadLoop), RState id L es srv buf0 k s →
      L ≤ 256 * k + 256 * fuel →
      ∃ s1, lcreadLoop 0 L fuel s = Res.ok s1 ∧ RState id L es srv buf0 es.length s1 := by
  have hfin : ∀ (k : Nat) (s : ReadLoop), RState id L es srv buf0 k s → L ≤ 256 * k →
      ∃ s1, ∀ fuel, lcreadLoop 0 L fuel s = Res.ok s1 ∧ RState id L es srv buf0 es.length s1 := by
    intro k s hR hk
    refine ⟨s, fun fuel => ⟨lcreadLoop_done _ _ _ _ ?_, ?_⟩⟩
    · rw [hR.2.2.2.2.2.1, toU64_natCast _ (by omega)]
      omega
    · have e1 : min L (256 * k) = min L (256 * es.length) := by
        rw [hal.1]; omega
      have e2 : es.take k = es.take es.length := by
        rw [List.take_of_length_le (by rw [hal.1]; omega), List.take_length]
      unfold RState at hR ⊢
      rw [← e1, ← e2]
      exact hR
  intro fuel
  induction fuel with
  | zero =>
    intro k s hR hfuel
    obtain ⟨s1, h⟩ := hfin k s hR (by omega)
    exact ⟨s1, h 0⟩
  | succ n ih =>
    intro k s hR hfuel
    by_cases hdone : L ≤ 256 * k
    · obtain ⟨s1, h⟩ := hfin k s hR hdone
      exact ⟨s1, h (n + 1)⟩
    · have hlt : 256 * k < L := by omega
      obtain ⟨s1, hstep, hR1⟩ := lcreadStep_aligned id L es srv buf0 k s hL hbuf hal hR hlt
      have hcond : toU64 s.subPos < L := by
        rw [hR.2.2.2.2.2.1, toU64_natCast _ (by omega)]
        omega
      simp only [lcreadLoop, hcond, if_true, hstep]
      exact ih (k + 1) s1 hR1 (by omega)

/-- `lcread` of the whole single file with block-aligned entries returns the
file length and fills the buffer with what the entries' blocks hold on the
server. -/
theorem lcread_aligned (id : Int) (L : Nat) (es : List MEMORY_ENTRY) (st : LcState)
    (buf0 : List Nat) (fuel : Nat) (hL : L < 2147483648) (hbuf : L ≤ buf0.length)
    (hfuel : L ≤ 256 * fuel) (hal : Aligned id L es) (hcfg : st.cfg.WF)
    (hfiles : st.files = [{ info := { handle := 0, length := L, loc := 0 }, pos := es }])
    (hdev : ∃ dev, st.devices = [dev] ∧ dev.id = id)
    (hcache : CacheInv st.cache st.server id) :
    ∃ st1, lcread fuel st 0 buf0 L
      = Res.ok ((L : Int), readBack st.server es ++ buf0.drop L, st1) := by
  have hch : checkHandle st.files 0 = some 0 := by
    rw [hfiles]; rfl
  have hget : st.files.get? 0
      = some { info := { handle := 0, length := L, loc := 0 }, pos := es } := by
    rw [hfiles]; rfl
  have havail : u32 (L + 4294967296 - 0) = L := by
    unfold u32
    omega
  have hR0 : RState id L es st.server buf0 0 { subPos := 0, buf := buf0, st := st } := by
    refine ⟨hcfg, rfl, ?_, hdev, hcache, ?_, ?_, ?_⟩
    · rw [hfiles]; simp
    · simp
    · simp [readBack]
    · simp [readBack]
  obtain ⟨s1, hloop, hR1⟩ := lcreadLoop_aligned id L es st.server buf0 hL hbuf hal fuel 0 _ hR0
    (by omega)
  refine ⟨s1.st, ?_⟩
  have hb := hR1.2.2.2.2.2.2.2
  have hmin : min L (256 * es.length) = L := by rw [hal.1]; omega
  rw [List.take_length, hmin] at hb
  simp only [lcread, hch, hget, havail, ge_iff_le, Nat.le_refl, if_true, hloop, toI32_small _ hL,
    hb]
/-! ## Round trip on a fresh installation -/

theorem extsOf_getElem? (id : Int) (B m j : Nat) (e : MEMORY_ENTRY)
    (h : (extsOf id B m)[j]? = some e) :
    j < (m + 255) / 256
      ∧ e = { startByte := 256 * j, length := min 256 (m - 256 * j), sec := j / B,
              block := u8 (j % B), device := id } := by
  unfold extsOf at h
  rw [List.getElem?_map] at h
  by_cases hj : j < (m + 255) / 256
  · rw [List.getElem?_range hj] at h
    simp only [Option.map_some', Option.some.injEq] at h
    exact ⟨hj, h.symm⟩
  · have : (List.range ((m + 255) / 256))[j]? = none := by
      apply List.getElem?_eq_none
      simp only [List.length_range]
      omega
    rw [this] at h
    simp at h

/-- The entries left by the appends of a fresh file are block-aligned. -/
theorem extsOf_aligned (id : Int) (S B L : Nat) (hS : S ≤ 256) (hfit : L ≤ 256 * (S * B)) :
    Aligned id L (extsOf id B L) := by
  refine ⟨by simp [extsOf], ?_⟩
  intro j e he
  obtain ⟨hj, rfl⟩ := extsOf_getElem? id B L j e he
  have hjk : j < S * B := by omega
  have hq := div_lt_of_lt_mul' j S B hjk
  refine ⟨rfl, rfl, rfl, ?_, ?_⟩
  · show j / B < 65536
    omega
  · show u8 (j % B) < 65536
    unfold u8
    omega

/-- With block numbers below 256, reading the entries back delivers the bytes
that were written. -/
theorem readBack_extsOf (id : Int) (S B : Nat) (w : List Nat) (st : LcState)
    (hW : WState id S B w w.length st) :
    ∀ n, (∀ j, j < n → 256 * j < w.length → j % B < 256) →
      readBack st.server (extsOf id B (min w.length (256 * n))) = w.take (min w.length (256 * n)) := by
  obtain ⟨_, _, _, _, hsrv⟩ := hW
  intro n
  induction n with
  | zero =>
    intro _
    simp [extsOf_zero, readBack]
  | succ n ih =>
    intro hsmall
    have ih1 := ih (fun j hj hl => hsmall j (by omega) hl)
    by_cases hlt : 256 * n < w.length
    · have e0 : min w.length (256 * n) = 256 * n := by omega
      rw [e0] at ih1
      generalize hc : min 256 (w.length - 256 * n) = c
      have e1 : min w.length (256 * (n + 1)) = 256 * n + c := by omega
      have hb : u8 (n % B) = n % B := Nat.mod_eq_of_lt (hsmall n (by omega) hlt)
      have hs := hsrv n hlt
      rw [hc] at hs
      rw [e1, extsOf_snoc id B n (256 * n + c) (by omega) (by omega), readBack_append, ih1]
      have e2 : 256 * n + c - 256 * n = c := by omega
      simp only [readBack, List.append_nil, hb, e2, hs]
      rw [List.take_add]
    · have e0 : min w.length (256 * (n + 1)) = min w.length (256 * n) := by omega
      rw [e0]
      exact ih1

theorem readBack_extsOf_all (id : Int) (S B : Nat) (w : List Nat) (st : LcState) (hB : B ≤ 256)
    (hfit : w.length ≤ 256 * (S * B)) (hW : WState id S B w w.length st) :
    readBack st.server (extsOf id B w.length) = w := by
  have hB0 : ∀ j, 256 * j < w.length → j % B < 256 := by
    intro j hj
    rcases Nat.eq_zero_or_pos B with h | h
    · subst h
      simp only [Nat.mul_zero] at hfit
      omega
    · have := Nat.mod_lt j h
      omega
  have h := readBack_extsOf id S B w st hW w.length (fun j _ hl => hB0 j hl)
  have e : min w.length (256 * w.length) = w.length := by omega
  rw [e] at h
  rw [h, List.take_length]

/-- The first `lcopen` of a run powers the driver on and opens handle 0. -/
theorem lcopen_boot (cfg : Config) (srv : Server) :
    lcopen (LcState.boot cfg srv)
      = Res.ok (0, { (powerOn (LcState.boot cfg srv)).2 with
          files := [{ info := { handle := 0, length := 0, loc := 0 }, pos := [] }] }) := by
  have h1 : (LcState.boot cfg srv).isOn = false := rfl
  have h2 : (powerOn (LcState.boot cfg srv)).2.files = [] := rfl
  simp only [lcopen, h1, Bool.false_eq_true, if_false, h2, checkHandle, checkHandleFrom,
    List.length_nil, List.nil_append]
  rfl

/-- After power-on every device is unowned and empty, the cache is coherent
(it holds no line), and configuration and server are unchanged. -/
theorem powerOn_fresh (cfg : Config) (srv : Server) (id : Int) (S B : Nat)
    (hcap : 0 < cfg.LC_CACHE_MAXBLOCKS)
    (hdev : (powerOn (LcState.boot cfg srv)).2.devices.map
        (fun d => (d.id, d.numSectors, d.numBlocks)) = [(id, S, B)]) :
    (powerOn (LcState.boot cfg srv)).2.cfg = cfg
      ∧ (powerOn (LcState.boot cfg srv)).2.server = srv
      ∧ (∃ dev, (powerOn (LcState.boot cfg srv)).2.devices = [dev] ∧ dev.id = id
          ∧ dev.numSectors = S ∧ dev.numBlocks = B
          ∧ ∀ sc b, dev.table sc b = { handle := -1, spaceUsed := 0 })
      ∧ CacheInv (powerOn (LcState.boot cfg srv)).2.cache srv id := by
  refine ⟨rfl, rfl, ?_, ?_⟩
  · generalize hds : (powerOn (LcState.boot cfg srv)).2.devices = ds at hdev
    have htab : ∀ d ∈ ds, ∀ sc b, d.table sc b = { handle := -1, spaceUsed := 0 } := by
      intro d hd sc b
      rw [← hds] at hd
      simp only [powerOn, List.mem_map] at hd
      obtain ⟨x, _, rfl⟩ := hd
      rfl
    match ds, hdev, htab with
    | [d], hdev, htab =>
      simp only [List.map_cons, List.map_nil, List.cons.injEq, Prod.mk.injEq, and_true] at hdev
      exact ⟨d, rfl, hdev.1, hdev.2.1, hdev.2.2, htab d (List.mem_singleton_self d)⟩
    | [], hdev, _ => simp at hdev
    | _ :: _ :: _, hdev, _ => simp at hdev
  · have hc : (powerOn (LcState.boot cfg srv)).2.cache
        = { lines := List.replicate cfg.LC_CACHE_MAXBLOCKS.toNat CACHE_LINE.blank, numLines := 0,
            maxBlocks := cfg.LC_CACHE_MAXBLOCKS, hits := 0, misses := 0 } := by
      have hneg : ¬ cfg.LC_CACHE_MAXBLOCKS < 0 := by omega
      simp only [powerOn, LcState.boot, lcloud_initcache, hneg, if_false, Cache.initial]
    rw [hc]
    refine ⟨?_, ?_, ?_, ?_, ?_⟩
    · simp only [List.length_replicate]
      omega
    · simp only [List.length_map, List.length_replicate]
      omega
    · exact Nat.zero_le _
    · intro i j a b hi
      exact absurd hi (Nat.not_lt_zero i)
    · intro i a hi
      exact absurd hi (Nat.not_lt_zero i)

theorem lcseek_zero_of_WState (id : Int) (S B : Nat) (w : List Nat) (st : LcState)
    (hW : WState id S B w w.length st) :
    lcseek st 0 0
      = (0, { st with
          files := [{ info := { handle := 0, length := w.length, loc := 0 },
                      pos := extsOf id B w.length }] }) := by
  obtain ⟨_, hfiles, _, _, _⟩ := hW
  have hch : checkHandle st.files 0 = some 0 := by
    rw [hfiles]; rfl
  have hget : st.files.get? 0
      = some { info := { handle := 0, length := w.length, loc := w.length },
               pos := extsOf id B w.length } := by
    rw [hfiles]; rfl
  have h0 : ¬ 0 > w.length := by omega
  simp only [lcseek, hch, hget, h0, if_false, setLoc]
  simp only [hfiles, List.set]
  rfl

/-- The whole run of C2 on a fresh one-device installation with at most 256
sectors: the read delivers what the entries' blocks hold. -/
theorem fresh_run (cfg : Config) (srv : Server) (id : Int) (S B : Nat) (w buf : List Nat)
    (fuel : Nat) (hcfg : cfg.WF) (hcap : 0 < cfg.LC_CACHE_MAXBLOCKS)
    (hdev : (powerOn (LcState.boot cfg srv)).2.devices.map
        (fun d => (d.id, d.numSectors, d.numBlocks)) = [(id, S, B)])
    (hS : S ≤ 256) (hB : B ≤ 65536) (hL : w.length < 2147483648)
    (hfit : w.length ≤ 256 * (S * B)) (hbuf : w.length ≤ buf.length)
    (hfuel : w.length ≤ 256 * fuel) :
    ∃ st1 st2 st4, lcopen (LcState.boot cfg srv) = Res.ok (0, st1)
      ∧ lcwrite fuel st1 0 w w.length = Res.ok ((w.length : Int), st2)
      ∧ WState id S B w w.length st2
      ∧ (lcseek st2 0 0).1 = 0
      ∧ lcread fuel (lcseek st2 0 0).2 0 buf w.length
          = Res.ok ((w.length : Int),
              readBack st2.server (extsOf id B w.length) ++ buf.drop w.length, st4) := by
  obtain ⟨hc, hs, hdev1, hcache⟩ := powerOn_fresh cfg srv id S B hcap hdev
  obtain ⟨st2, hwr, hW⟩ := lcwrite_fresh id S B w
    { (powerOn (LcState.boot cfg srv)).2 with
      files := [{ info := { handle := 0, length := 0, loc := 0 }, pos := [] }] }
    fuel hS hB hL hfit hfuel hcfg rfl hdev1 hcache
  have hseek := lcseek_zero_of_WState id S B w st2 hW
  have hWc := hW
  obtain ⟨hcfg2, _, ⟨dev2, hdevs2, hid2, _⟩, hcache2, _⟩ := hWc
  obtain ⟨st4, hrd⟩ := lcread_aligned id w.length (extsOf id B w.length)
    { st2 with
      files := [{ info := { handle := 0, length := w.length, loc := 0 },
                  pos := extsOf id B w.length }] }
    buf fuel hL hbuf hfuel (extsOf_aligned id S B w.length hS hfit) hcfg2 rfl
    ⟨dev2, hdevs2, hid2⟩ hcache2
  refine ⟨_, st2, st4, lcopen_boot cfg srv, hwr, hW, ?_, ?_⟩
  · rw [hseek]
  · rw [hseek]
    exact hrd

/-- Round trip inside the stored ranges: on the state right after power-on of
an installation with one device of at most 256 sectors and at most 256 blocks
per sector that can hold `w`, with enough fuel for the loops, the first
`lcopen` returns handle 0,
`lcwrite(0, w, |w|)` returns `|w|`, `lcseek(0, 0)` returns 0, and
`lcread(0, buf, |w|)` into a buffer of `|w|` bytes returns `|w|` and fills the
buffer with exactly `w`. -/
theorem roundtrip_fresh (cfg : Config) (srv : Server) (id : Int) (S B : Nat) (w buf : List Nat)
    (fuel : Nat) (hcfg : cfg.WF) (hcap : 0 < cfg.LC_CACHE_MAXBLOCKS)
    (hdev : (powerOn (LcState.boot cfg srv)).2.devices.map
        (fun d => (d.id, d.numSectors, d.numBlocks)) = [(id, S, B)])
    (hS : S ≤ 256) (hB : B ≤ 256) (hfit : w.length ≤ 256 * (S * B))
    (hbuf : buf.length = w.length) (hfuel : w.length ≤ 256 * fuel) :
    ∃ st1 st2 st4, lcopen (LcState.boot cfg srv) = Res.ok (0, st1)
      ∧ lcwrite fuel st1 0 w w.length = Res.ok ((w.length : Int), st2)
      ∧ (lcseek st2 0 0).1 = 0
      ∧ lcread fuel (lcseek st2 0 0).2 0 buf w.length = Res.ok ((w.length : Int), w, st4) := by
  have hSB : S * B ≤ 256 * 256 := Nat.mul_le_mul hS hB
  have hL : w.length < 2147483648 := by omega
  obtain ⟨st1, st2, st4, h1, h2, hW, h3, h4⟩ := fresh_run cfg srv id S B w buf fuel hcfg hcap hdev
    hS (by omega) hL hfit (by omega) hfuel
  refine ⟨st1, st2, st4, h1, h2, h3, ?_⟩
  rw [h4, readBack_extsOf_all id S B w st2 hB hfit hW, List.drop_of_length_le (by omega),
    List.append_nil]

/-- The round trip of 300 bytes on the specification's installation (one
device, 4 sectors of 8 blocks). -/
theorem roundtrip_fresh_witness :
    ∃ st1 st2 st4, lcopen (LcState.boot demoCfg (demoServer 1 4 8)) = Res.ok (0, st1)
      ∧ lcwrite 2 st1 0 (List.replicate 300 7) (List.replicate 300 7).length
          = Res.ok (((List.replicate 300 7).length : Int), st2)
      ∧ (lcseek st2 0 0).1 = 0
      ∧ lcread 2 (lcseek st2 0 0).2 0 (List.replicate 300 0) (List.replicate 300 7).length
          = Res.ok (((List.replicate 300 7).length : Int), List.replicate 300 7, st4) :=
  roundtrip_fresh demoCfg (demoServer 1 4 8) 0 4 8 (List.replicate 300 7) (List.replicate 300 0) 2
    (by decide) (by decide) (by decide) (by decide) (by decide) (by simp) (by simp) (by simp)

/-- C2 fails on the code: on a fresh installation with one device of 1 sector
and 257 blocks, which can hold 65792 bytes, the file gets 65536 zero bytes
followed by a 1.  `lcwrite` sends the last byte to block 256 (its block number
is a `uint16_t`, as on the bus, in the cache and in the device table), but the
memory entry stores the block number in a `uint8_t` and records block 0; both
calls report success, and the read delivers the first byte of the file, 0, as
byte 65536. -/
theorem roundtrip_fails_past_block_255 :
    ∃ st1 st2 st4 out, lcopen (LcState.boot demoCfg (demoServer 1 1 257)) = Res.ok (0, st1)
      ∧ lcwrite 300 st1 0 (List.replicate 65536 0 ++ [1]) 65537 = Res.ok (65537, st2)
      ∧ (lcseek st2 0 0).1 = 0
      ∧ lcread 300 (lcseek st2 0 0).2 0 (List.replicate 65537 0) 65537
          = Res.ok (65537, out, st4)
      ∧ out.getLast? = some 0
      ∧ (List.replicate 65536 0 ++ [1]).getLast? = some 1 := by
  have hlen : (List.replicate 65536 0 ++ [1]).length = 65537 := by
    rw [List.length_append, List.length_replicate]; rfl
  have hblen : (List.replicate 65537 0).length = 65537 := List.length_replicate _ _
  have htake : (List.replicate 65536 0 ++ [1]).take 1 = [0] := by
    rw [List.take_append_of_le_length (by rw [List.length_replicate]; omega),
      List.take_replicate]
    rfl
  obtain ⟨st1, st2, st4, h1, h2, hW, h3, h4⟩ := fresh_run demoCfg (demoServer 1 1 257) 0 1 257
    (List.replicate 65536 0 ++ [1]) (List.replicate 65537 0) 300 (by decide) (by decide)
    (by decide) (by omega) (by omega) (by rw [hlen]; omega) (by rw [hlen]; omega)
    (by rw [hlen, hblen]) (by rw [hlen]; omega)
  rw [hlen] at h2 h4
  refine ⟨st1, st2, st4, _, h1, h2, h3, h4, ?_, List.getLast?_concat _⟩
  have hs := hW.2.2.2.2 0 (by rw [hlen]; omega)
  rw [hlen] at hs
  have e0 : devReg 0 = 0 := by decide
  have hs1 : (blk256 (st2.server.blocks 0 0 0)).take 1 = [0] := by
    have a := congrArg (List.take 1) hs
    rw [e0, Nat.zero_div, Nat.zero_mod, Nat.mul_zero, Nat.sub_zero, List.drop_zero,
      List.take_take, List.take_take] at a
    have m1 : min 1 (min 256 65537) = 1 := by decide
    rw [m1] at a
    rw [a, htake]
  have e1 : (256 : Nat) / 257 = 0 := by decide
  have e2 : u8 (256 % 257) = 0 := by decide
  have e3 : (65537 : Nat) - 256 * 256 = 1 := by decide
  rw [extsOf_snoc 0 257 256 65537 (by omega) (by omega), readBack_append,
    List.drop_of_length_le (by rw [hblen]), List.append_nil]
  show (readBack st2.server (extsOf 0 257 (256 * 256))
      ++ ((blk256 (st2.server.blocks (devReg 0) (256 / 257) (u8 (256 % 257)))).take
            (65537 - 256 * 256) ++ [])).getLast? = some 0
  rw [e0, e1, e2, e3, hs1, List.append_nil, List.getLast?_concat]
/-! ## A full device -/

/-- One pass of the write loop after the only block of a one-block device has
been filled: no device has room, the stale `dev`, `sec` and `block` are used
again, the sub-transfer length is 0, and nothing that the loop condition or the
next pass depends on changes. -/
theorem lcwriteStep_full (id : Int) (w : List Nat) (s : WriteLoop)
    (hL1 : 256 < w.length) (hL2 : w.length < 2147483648)
    (hW : WState id 1 1 w 256 s.st) (hsec : s.sec = 0) (hblock : s.block = 0)
    (hdevp : s.dev = some 0) (hsub : s.subPos = 256) :
    ∃ s1, lcwriteStep 0 0 w w.length false s = Res.ok s1
      ∧ WState id 1 1 w 256 s1.st ∧ s1.sec = 0 ∧ s1.block = 0 ∧ s1.dev = some 0
      ∧ s1.subPos = 256 := by
  obtain ⟨hcfg, hfiles, ⟨dev, hdevs, hid, hnS, hnB, htab⟩, hcache, hsrv⟩ := hW
  have hexts : extsOf id 1 256
      = [{ startByte := 0, length := 256, sec := 0, block := 0, device := id }] := rfl
  rw [hexts] at hfiles
  have hslot : dev.table 0 0 = { handle := 0, spaceUsed := 256 } := by
    rw [htab]; rfl
  have hav : availableSpace [dev] dev.id 0 = none := by
    simp only [availableSpace, checkId, checkIdFrom, if_true, List.get?, hnB, hnS, scanTable,
      scanRow, hslot, LC_DEVICE_BLOCK_SIZE, Nat.lt_irrefl, false_and, if_false]
  have hsel : selectTarget false 0
      { info := { handle := 0, length := w.length, loc := 256 },
        pos := [{ startByte := 0, length := 256, sec := 0, block := 0, device := id }] } s
      = (0, 0, some 0, none) := by
    simp only [selectTarget, Bool.false_eq_true, if_false, hdevs, firstDevice, hav, hsec, hblock,
      hdevp]
  obtain ⟨c1, hf, hc1inv⟩ := fetchBlock_spec s.st id 0 0 hcfg hcache (by omega) (by omega)
  generalize hold : blk256 (s.st.server.blocks (devReg id) 0 0) = old at hf
  have holdlen : old.length = 256 := by rw [← hold]; exact blk256_length _
  have hused : (dev.table 0 0).spaceUsed = 256 := by rw [hslot]
  have hrest : u64 (w.length + 18446744073709551616 - 256) = w.length - 256 := by
    unfold u64
    omega
  have hwl : writeLen false none 256 256 (w.length - 256) = Res.ok 0 := by
    have h0 : toU64 ((LC_DEVICE_BLOCK_SIZE : Int) - ((256 : Nat) : Int)) = 0 := by decide
    have hn : ¬ w.length - 256 ≤ 0 := by omega
    simp only [writeLen, h0, hn, if_false, Bool.false_eq_true]
  have hsubU : toU64 s.subPos = 256 := by rw [hsub]; decide
  have hmod0 : 256 % LC_DEVICE_BLOCK_SIZE = 0 := by decide
  have hnb : old.take 0 ++ (w.drop 256).take 0 ++ old.drop 0 = old := by
    simp only [List.take_zero, List.nil_append, List.drop_zero]
  obtain ⟨c2, hput, hc2inv⟩ := putcache_spec c1 s.st.server id 0 0 old hc1inv holdlen
  have hbw := bus_write s.st.cfg hcfg s.st.server id 0 0 (by omega) (by omega) old
  have hupd : updateEntries false none
      [{ startByte := 0, length := 256, sec := 0, block := 0, device := id }] 256 0 0 0 id 256
      = Res.ok ([{ startByte := 0, length := 256, sec := 0, block := 0, device := id }], 256) := by
    have a1 : u32 (0 + 256) = 256 := by decide
    have a2 : u16 (256 + 0) = 256 := by decide
    simp only [updateEntries, Bool.false_eq_true, if_false, List.getLast?_singleton, a1, a2,
      and_self, if_true, Nat.le_refl, List.length_singleton, Nat.sub_self, List.set]
  have hget0 : s.st.files.get? 0
      = some { info := { handle := 0, length := w.length, loc := 256 },
               pos := [{ startByte := 0, length := 256, sec := 0, block := 0, device := id }] } := by
    rw [hfiles]; rfl
  have hgetd : s.st.devices.get? 0 = some dev := by
    rw [hdevs]; rfl
  have hroom : 256 ≤ w.length := by omega
  have hi32 : toI32 256 = 256 := by decide
  have hu32 : u32 256 = 256 := by decide
  refine ⟨{ subPos := 256, sec := 0, block := 0, dev := some 0,
            st := { cfg := s.st.cfg
                    files := [{ info := { handle := 0, length := w.length, loc := 256 },
                                pos := [{ startByte := 0, length := 256, sec := 0, block := 0,
                                          device := id }] }]
                    devices := [setBlock dev 0 0 { handle := 0, spaceUsed := 256 }]
                    isOn := s.st.isOn
                    cache := c2
                    server := s.st.server.store (devReg id) 0 0 old } },
    ?_, ?_, rfl, rfl, rfl, rfl⟩
  · simp only [lcwriteStep, hget0, hsel, hgetd, hid, hf, hused, hrest, hwl, hsubU, hmod0,
      Nat.zero_add, Nat.add_zero, Nat.zero_le, hroom, and_self, if_true, hnb, hbw, hput, hupd,
      hi32, hu32]
    simp only [hfiles, hdevs, List.set]
  · refine ⟨hcfg, by rw [hexts], ⟨_, rfl, hid, hnS, hnB, ?_⟩, hc2inv, ?_⟩
    · intro sc b
      unfold setBlock
      simp only
      by_cases he : sc = 0 ∧ b = 0
      · rw [if_pos he, he.1, he.2]; rfl
      · rw [if_neg he, htab]
    · intro j hj
      have hj0 : j = 0 := by omega
      subst hj0
      have h0 := hsrv 0 (by omega)
      simp only [Nat.zero_div, Nat.zero_mod] at h0 ⊢
      simp only [Server.store, and_self, if_true, blk256_idem]
      rw [blk256_of_length old holdlen, ← hold]
      exact h0

theorem lcwriteLoop_full (id : Int) (w : List Nat) (hL1 : 256 < w.length)
    (hL2 : w.length < 2147483648) :
    ∀ (fuel : Nat) (s : WriteLoop), WState id 1 1 w 256 s.st → s.sec = 0 → s.block = 0 →
      s.dev = some 0 → s.subPos = 256 →
      lcwriteLoop 0 0 w w.length false fuel s = Res.nofuel := by
  intro fuel
  induction fuel with
  | zero =>
    intro s _ _ _ _ hsub
    have hcond : toU64 s.subPos < w.length := by
      rw [hsub]
      have : toU64 256 = 256 := by decide
      omega
    simp only [lcwriteLoop, hcond, if_true]
  | succ n ih =>
    intro s hW hsec hblock hdevp hsub
    have hcond : toU64 s.subPos < w.length := by
      rw [hsub]
      have : toU64 256 = 256 := by decide
      omega
    obtain ⟨s1, hstep, hW1, h1, h2, h3, h4⟩ :=
      lcwriteStep_full id w s hL1 hL2 hW hsec hblock hdevp hsub
    simp only [lcwriteLoop, hcond, if_true, hstep]
    exact ih s1 hW1 h1 h2 h3 h4

/-- An append of more than 256 bytes to the empty file of a fresh installation
whose only device has a single block never returns: the first pass fills the
block and every later pass transfers nothing. -/
theorem lcwrite_full_device (id : Int) (w : List Nat) (st : LcState)
    (hL1 : 256 < w.length) (hL2 : w.length < 2147483648) (hcfg : st.cfg.WF)
    (hfiles : st.files = [{ info := { handle := 0, length := 0, loc := 0 }, pos := [] }])
    (hdev : ∃ dev, st.devices = [dev] ∧ dev.id = id ∧ dev.numSectors = 1 ∧ dev.numBlocks = 1
      ∧ ∀ sc b, dev.table sc b = { handle := -1, spaceUsed := 0 })
    (hcache : CacheInv st.cache st.server id) :
    ∀ fuel, lcwrite fuel st 0 w w.length = Res.nofuel := by
  intro fuel
  have hch : checkHandle st.files 0 = some 0 := by
    rw [hfiles]; rfl
  have hget : st.files.get? 0 = some { info := { handle := 0, length := 0, loc := 0 }, pos := [] } := by
    rw [hfiles]; rfl
  have hgrow : grownLength 0 0 w.length = w.length := by
    unfold grownLength u64 u32
    have : (0 + w.length) % 18446744073709551616 > 0 := by omega
    rw [if_pos this]
    omega
  obtain ⟨dev, hdevs, hid, hnS, hnB, htab⟩ := hdev
  have hW0 : WState id 1 1 w (256 * 0)
      ({ subPos := 0, sec := 0, block := 0, dev := none,
         st := { st with
           files := st.files.set 0
             { info := { handle := 0, length := w.length, loc := 0 }, pos := [] } } } :
        WriteLoop).st := by
    refine ⟨hcfg, ?_, ⟨dev, hdevs, hid, hnS, hnB, ?_⟩, hcache, ?_⟩
    · simp only [hfiles, List.set, Nat.mul_zero, extsOf_zero]
    · intro sc b
      rw [htab]
      unfold freshSlot
      have : ¬ (b < 1 ∧ 256 * (1 * sc + b) < 256 * 0) := by omega
      rw [if_neg this]
    · intro j hj
      omega
  have hloop : lcwriteLoop 0 0 w w.length false fuel
      { subPos := 0, sec := 0, block := 0, dev := none,
        st := { st with
          files := st.files.set 0
            { info := { handle := 0, length := w.length, loc := 0 }, pos := [] } } }
      = Res.nofuel := by
    have hcond : toU64 (0 : Int) < w.length := by
      have : toU64 0 = 0 := by decide
      omega
    cases fuel with
    | zero => simp only [lcwriteLoop, hcond, if_true]
    | succ n =>
      obtain ⟨s1, hstep, hW1, hsub1, h1, h2, h3⟩ := lcwriteStep_fresh id 1 1 w 0 _
        (by omega) (by omega) hL2 hW0 (by omega) (by omega) rfl
      have e : 256 * 0 + min 256 (w.length - 256 * 0) = 256 := by omega
      rw [e] at hW1 hsub1
      simp only [lcwriteLoop, hcond, if_true, hstep]
      exact lcwriteLoop_full id w hL1 hL2 n s1 hW1 h1 h2 h3 hsub1
  simp only [lcwrite, hch, hget, Nat.lt_irrefl, decide_False, hgrow, hloop]

set_option maxRecDepth 1000000

/-- C7 fails on the code, in both ways a full device can arise.  (1) On a
device with a single block, file 0 owns the block, so for file 1
`availableSpace` returns -1 for the only device; the append of one byte to
file 1 then dereferences the pointer `dev`, which was never set, instead of
returning -1.  (2) On the same device an append of 300 bytes to the first file
fills the block in its first pass; afterwards `availableSpace` fails, the stale
`dev` is used, the sub-transfer length is 0, and for every amount of fuel the
loop is still running: `lcwrite` does not terminate. -/
theorem device_full_not_reported :
    (filesOf (runOps 4 (LcState.boot demoCfg (demoServer 1 1 1))
        [Op.lcopen, Op.lcopen, Op.lcwrite 0 [5] 1])
        = Res.ok [{ info := { handle := 0, length := 1, loc := 1 },
                    pos := [{ startByte := 0, length := 1, sec := 0, block := 0, device := 0 }] },
                  { info := { handle := 1, length := 0, loc := 0 }, pos := [] }]
      ∧ (runOps 4 (LcState.boot demoCfg (demoServer 1 1 1))
          [Op.lcopen, Op.lcopen, Op.lcwrite 0 [5] 1]).bind
          (fun st => Res.ok (st.devices.map fun d => availableSpace st.devices d.id 1))
        = Res.ok [none]
      ∧ writeView ((runOps 4 (LcState.boot demoCfg (demoServer 1 1 1))
          [Op.lcopen, Op.lcopen, Op.lcwrite 0 [5] 1]).bind
          (fun st => lcwrite 4 st 1 [6] 1))
        = Res.fault)
      ∧ ∀ fuel, ∃ st1, lcopen (LcState.boot demoCfg (demoServer 1 1 1)) = Res.ok (0, st1)
          ∧ lcwrite fuel st1 0 (List.replicate 300 1) 300 = Res.nofuel := by
  refine ⟨by decide, ?_⟩
  intro fuel
  obtain ⟨_, _, hdev1, hcache⟩ := powerOn_fresh demoCfg (demoServer 1 1 1) 0 1 1 (by decide)
    (by decide)
  have hlen : (List.replicate 300 1).length = 300 := List.length_replicate _ _
  have h := lcwrite_full_device 0 (List.replicate 300 1)
    { (powerOn (LcState.boot demoCfg (demoServer 1 1 1))).2 with
      files := [{ info := { handle := 0, length := 0, loc := 0 }, pos := [] }] }
    (by rw [hlen]; omega) (by rw [hlen]; omega) (by decide) rfl hdev1 hcache fuel
  rw [hlen] at h
  exact ⟨_, lcopen_boot demoCfg (demoServer 1 1 1), h⟩

/-! ## Register frames: bit layout -/

/-- C11: for fields inside their bit widths (`b0, b1 < 16`, `c0, c1, c2 < 256`,
`d0, d1 < 65536`) the frame built by `create_lcloud_registers` is
`b0*2^60 + b1*2^56 + c0*2^48 + c1*2^40 + c2*2^32 + d0*2^16 + d1`; it fits 64
bits and the fields sit in the disjoint bit ranges 63-60, 59-56, 55-48, 47-40,
39-32, 31-16 and 15-0. -/
theorem frame_layout (b0 b1 c0 c1 c2 d0 d1 : Nat)
    (hb0 : b0 < 16) (hb1 : b1 < 16) (hc0 : c0 < 256) (hc1 : c1 < 256) (hc2 : c2 < 256)
    (hd0 : d0 < 65536) (hd1 : d1 < 65536) :
    create_lcloud_registers b0 b1 c0 c1 c2 d0 d1
        = b0 * 2 ^ 60 + b1 * 2 ^ 56 + c0 * 2 ^ 48 + c1 * 2 ^ 40 + c2 * 2 ^ 32 + d0 * 2 ^ 16 + d1
      ∧ create_lcloud_registers b0 b1 c0 c1 c2 d0 d1 < 2 ^ 64
      ∧ create_lcloud_registers b0 b1 c0 c1 c2 d0 d1 / 2 ^ 60 % 2 ^ 4 = b0
      ∧ create_lcloud_registers b0 b1 c0 c1 c2 d0 d1 / 2 ^ 56 % 2 ^ 4 = b1
      ∧ create_lcloud_registers b0 b1 c0 c1 c2 d0 d1 / 2 ^ 48 % 2 ^ 8 = c0
      ∧ create_lcloud_registers b0 b1 c0 c1 c2 d0 d1 / 2 ^ 40 % 2 ^ 8 = c1
      ∧ create_lcloud_registers b0 b1 c0 c1 c2 d0 d1 / 2 ^ 32 % 2 ^ 8 = c2
      ∧ create_lcloud_registers b0 b1 c0 c1 c2 d0 d1 / 2 ^ 16 % 2 ^ 16 = d0
      ∧ create_lcloud_registers b0 b1 c0 c1 c2 d0 d1 / 2 ^ 0 % 2 ^ 16 = d1 := by
  have e := create_eq_sum_mod b0 b1 c0 c1 c2 d0 d1 hb1
  rw [Nat.mod_eq_of_lt hb0, Nat.mod_eq_of_lt hc0, Nat.mod_eq_of_lt hc1, Nat.mod_eq_of_lt hc2,
    Nat.mod_eq_of_lt hd0, Nat.mod_eq_of_lt hd1] at e
  rw [e]
  refine ⟨rfl, ?_, ?_, ?_, ?_, ?_, ?_, ?_, ?_⟩ <;> omega

/-- C11 at the fields 1, 2, 3, 4, 5, 6, 7. -/
theorem frame_layout_witness :
    create_lcloud_registers 1 2 3 4 5 6 7
        = 1 * 2 ^ 60 + 2 * 2 ^ 56 + 3 * 2 ^ 48 + 4 * 2 ^ 40 + 5 * 2 ^ 32 + 6 * 2 ^ 16 + 7
      ∧ create_lcloud_registers 1 2 3 4 5 6 7 < 2 ^ 64
      ∧ create_lcloud_registers 1 2 3 4 5 6 7 / 2 ^ 60 % 2 ^ 4 = 1
      ∧ create_lcloud_registers 1 2 3 4 5 6 7 / 2 ^ 56 % 2 ^ 4 = 2
      ∧ create_lcloud_registers 1 2 3 4 5 6 7 / 2 ^ 48 % 2 ^ 8 = 3
      ∧ create_lcloud_registers 1 2 3 4 5 6 7 / 2 ^ 40 % 2 ^ 8 = 4
      ∧ create_lcloud_registers 1 2 3 4 5 6 7 / 2 ^ 32 % 2 ^ 8 = 5
      ∧ create_lcloud_registers 1 2 3 4 5 6 7 / 2 ^ 16 % 2 ^ 16 = 6
      ∧ create_lcloud_registers 1 2 3 4 5 6 7 / 2 ^ 0 % 2 ^ 16 = 7 :=
  frame_layout 1 2 3 4 5 6 7 (by decide) (by decide) (by decide) (by decide)
    (by decide) (by decide) (by decide)

/-! ## The open-file table: `lcopen`, `lcclose`, `lcshutdown` -/

theorem checkHandleFrom_found (h : Int) (fs : List FILE_OBJ) (i : Nat)
    (hex : ∃ f ∈ fs, f.info.handle = h) : ∃ k, checkHandleFrom h fs i = some k := by
  induction fs generalizing i with
  | nil =>
    obtain ⟨f, hf, _⟩ := hex
    exact absurd hf (List.not_mem_nil f)
  | cons g gs ih =>
    by_cases hg : h = g.info.handle
    · exact ⟨i, by simp only [checkHandleFrom, hg, if_true]⟩
    · obtain ⟨f, hf, hh⟩ := hex
      have hf2 : f ∈ gs := by
        rcases List.mem_cons.mp hf with e | e
        · exact absurd (e ▸ hh).symm hg
        · exact e
      obtain ⟨k, hk⟩ := ih (i + 1) ⟨f, hf2, hh⟩
      exact ⟨k, by simp only [checkHandleFrom, hg, if_false, hk]⟩

theorem powerOn_files (st : LcState) : (powerOn st).2.files = st.files := rfl

/-- C17: with `n < 256` files open, `lcopen` returns `n` and appends a file
with handle `n`, position 0, length 0 and no extents, every other file object
staying as it is (the rest of the state too, apart from the power-on of a
system that is off), unless `n` is the handle of an open file: then it returns
-1 and the open-file table is unchanged.  A handle returned by a successful
`lcopen` is not the handle of a file that was open before. -/
theorem lcopen_postcondition (st : LcState) (hn : st.files.length < 256) :
    ((∀ f ∈ st.files, f.info.handle ≠ (st.files.length : Int)) →
        ∃ st1, lcopen st = Res.ok ((st.files.length : Int), st1)
          ∧ st1.files = st.files ++
              [{ info := { handle := (st.files.length : Int), length := 0, loc := 0 }, pos := [] }]
          ∧ (st.isOn = true → st1 = { st with files := st1.files })
          ∧ (st.isOn = false → st1 = { (powerOn st).2 with files := st1.files }))
      ∧ ((∃ f ∈ st.files, f.info.handle = (st.files.length : Int)) →
        ∃ st1, lcopen st = Res.ok (-1, st1) ∧ st1.files = st.files
          ∧ (st.isOn = true → st1 = st) ∧ (st.isOn = false → st1 = (powerOn st).2))
      ∧ (∀ h st1, lcopen st = Res.ok (h, st1) → h ≠ -1 →
          h = (st.files.length : Int) ∧ ∀ f ∈ st.files, f.info.handle ≠ h) := by
  have hfiles : (if st.isOn then st else (powerOn st).2).files = st.files := by
    cases st.isOn <;> rfl
  have hI : toI32 st.files.length = (st.files.length : Int) := toI32_small _ (by omega)
  refine ⟨?_, ?_, ?_⟩
  · intro hfree
    have h0 : checkHandle st.files (st.files.length : Int) = none :=
      checkHandleFrom_none _ st.files 0 hfree
    refine ⟨{ (if st.isOn then st else (powerOn st).2) with
      files := st.files ++
        [{ info := { handle := (st.files.length : Int), length := 0, loc := 0 }, pos := [] }] },
      ?_, rfl, ?_, ?_⟩
    · simp only [lcopen, hfiles, hI, h0, hn, if_true]
    · intro hon
      simp only [hon, if_true]
    · intro hoff
      simp only [hoff, Bool.false_eq_true, if_false]
  · intro hused
    obtain ⟨k, hk⟩ := checkHandleFrom_found _ st.files 0 hused
    have hk2 : checkHandle st.files (st.files.length : Int) = some k := hk
    refine ⟨if st.isOn then st else (powerOn st).2, ?_, hfiles, ?_, ?_⟩
    · simp only [lcopen, hfiles, hI, hk2]
    · intro hon
      simp only [hon, if_true]
    · intro hoff
      simp only [hoff, Bool.false_eq_true, if_false]
  · intro h st1 hop hne
    simp only [lcopen, hfiles, hI] at hop
    cases hc : checkHandle st.files (st.files.length : Int) with
    | some k =>
      rw [hc] at hop
      simp only [Res.ok.injEq, Prod.mk.injEq] at hop
      exact absurd hop.1.symm hne
    | none =>
      rw [hc] at hop
      simp only [hn, if_true, Res.ok.injEq, Prod.mk.injEq] at hop
      refine ⟨hop.1.symm, ?_⟩
      intro f hf e
      obtain ⟨k, hk⟩ := checkHandleFrom_found (st.files.length : Int) st.files 0
        ⟨f, hf, by rw [e, ← hop.1]⟩
      have hk2 : checkHandle st.files (st.files.length : Int) = some k := hk
      rw [hc] at hk2
      exact Option.noConfusion hk2

/-- C17 at the state with the handles 0, 1 and 2 open. -/
theorem lcopen_postcondition_witness :
    ((∀ f ∈ demoOpen3.files, f.info.handle ≠ (demoOpen3.files.length : Int)) →
        ∃ st1, lcopen demoOpen3 = Res.ok ((demoOpen3.files.length : Int), st1)
          ∧ st1.files = demoOpen3.files ++
              [{ info := { handle := (demoOpen3.files.length : Int), length := 0, loc := 0 },
                 pos := [] }]
          ∧ (demoOpen3.isOn = true → st1 = { demoOpen3 with files := st1.files })
          ∧ (demoOpen3.isOn = false → st1 = { (powerOn demoOpen3).2 with files := st1.files }))
      ∧ ((∃ f ∈ demoOpen3.files, f.info.handle = (demoOpen3.files.length : Int)) →
        ∃ st1, lcopen demoOpen3 = Res.ok (-1, st1) ∧ st1.files = demoOpen3.files
          ∧ (demoOpen3.isOn = true → st1 = demoOpen3)
          ∧ (demoOpen3.isOn = false → st1 = (powerOn demoOpen3).2))
      ∧ (∀ h st1, lcopen demoOpen3 = Res.ok (h, st1) → h ≠ -1 →
          h = (demoOpen3.files.length : Int) ∧ ∀ f ∈ demoOpen3.files, f.info.handle ≠ h) :=
  lcopen_postcondition demoOpen3 (by decide)

/-- `lcopen` on a system that is on, when no open file carries the handle
`numHandles`. -/
theorem lcopen_free_handle (st : LcState) (hn : st.files.length < 256)
    (hfree : ∀ f ∈ st.files, f.info.handle ≠ (st.files.length : Int)) :
    lcopen st = Res.ok ((st.files.length : Int),
      { (if st.isOn then st else (powerOn st).2) with
        files := st.files ++
          [{ info := { handle := (st.files.length : Int), length := 0, loc := 0 }, pos := [] }] }) := by
  have hfiles : (if st.isOn then st else (powerOn st).2).files = st.files := by
    cases st.isOn <;> rfl
  have hI : toI32 st.files.length = (st.files.length : Int) := toI32_small _ (by omega)
  have h0 : checkHandle st.files (st.files.length : Int) = none :=
    checkHandleFrom_none _ st.files 0 hfree
  simp only [lcopen, hfiles, hI, h0, hn, if_true]

theorem dense_lcopen (st : LcState) (hD : DenseHandles st) (hn : st.files.length < 256) :
    ∃ st1, lcopen st = Res.ok ((st.files.length : Int), st1) ∧ DenseHandles st1
      ∧ st1.files.length = st.files.length + 1 := by
  have hfree : ∀ f ∈ st.files, f.info.handle ≠ (st.files.length : Int) := by
    intro f hf e
    obtain ⟨i, hi⟩ := List.mem_iff_getElem?.mp hf
    have h1 := hD i f hi
    have h2 := (List.getElem?_eq_some_iff.mp hi).1
    omega
  refine ⟨_, lcopen_free_handle st hn hfree, ?_, ?_⟩
  · intro i f hi
    simp only at hi
    by_cases hlt : i < st.files.length
    · rw [List.getElem?_append_left hlt] at hi
      exact hD i f hi
    · have hil := (List.getElem?_eq_some_iff.mp hi).1
      simp only [List.length_append, List.length_singleton] at hil
      have hie : i = st.files.length := by omega
      subst hie
      rw [List.getElem?_concat_length] at hi
      rw [← Option.some.inj hi]
  · show (st.files ++ _).length = st.files.length + 1
    simp only [List.length_append, List.length_singleton]

theorem dense_lcclose_last (st : LcState) (hD : DenseHandles st) (hn : 0 < st.files.length) :
    (lcclose st ((st.files.length : Int) - 1)).1 = 0
      ∧ DenseHandles (lcclose st ((st.files.length : Int) - 1)).2
      ∧ (lcclose st ((st.files.length : Int) - 1)).2.files.length = st.files.length - 1 := by
  have hlast : st.files.length - 1 < st.files.length := by omega
  have hget : st.files[st.files.length - 1]? = some st.files[st.files.length - 1] :=
    List.getElem?_eq_getElem hlast
  have hh := hD _ _ hget
  obtain ⟨k, hk⟩ := checkHandleFrom_found ((st.files.length : Int) - 1) st.files 0
    ⟨st.files[st.files.length - 1], List.getElem?_mem hget, by rw [hh]; omega⟩
  have hk2 : checkHandle st.files ((st.files.length : Int) - 1) = some k := hk
  obtain ⟨f, hf, hfh⟩ := checkHandle_some st.files _ k hk2
  have hfk : st.files[k]? = some f := by simpa using hf
  have hkk := hD k f hfk
  have hkeq : k = st.files.length - 1 := by omega
  subst hkeq
  simp only [lcclose, hk2]
  refine ⟨trivial, ?_, ?_⟩
  · intro i g hi
    simp only at hi
    rw [List.getElem?_eraseIdx] at hi
    by_cases hlt : i < st.files.length - 1
    · simp only [hlt, if_true] at hi
      exact hD i g hi
    · simp only [hlt, if_false] at hi
      have : st.files[i + 1]? = none := List.getElem?_eq_none (by omega)
      rw [this] at hi
      exact Option.noConfusion hi
  · rw [List.length_eraseIdx]
    simp only [hlast, if_true]

/-- Under `DenseHandles` the handles, in table order, are 0, 1, .., n-1. -/
theorem dense_handlesOf (st : LcState) (hD : DenseHandles st) :
    handlesOf st = (List.range st.files.length).map Int.ofNat := by
  apply List.ext_getElem?
  intro i
  unfold handlesOf
  rw [List.getElem?_map, List.getElem?_map]
  by_cases hi : i < st.files.length
  · rw [List.getElem?_range hi, List.getElem?_eq_getElem hi]
    simp only [Option.map_some', Option.some.injEq]
    exact hD i _ (List.getElem?_eq_getElem hi)
  · rw [List.getElem?_eq_none (Nat.le_of_not_lt hi),
      List.getElem?_eq_none (by rw [List.length_range]; exact Nat.le_of_not_lt hi)]
    rfl

theorem lifo_run (fuel : Nat) (ops : List Op) :
    ∀ (n : Nat) (st : LcState), DenseHandles st → st.files.length = n → lifoOps n ops = true →
      ∃ st1, runOps fuel st ops = Res.ok st1 ∧ DenseHandles st1 := by
  induction ops with
  | nil => intro n st hD _ _; exact ⟨st, rfl, hD⟩
  | cons op ops ih =>
    intro n st hD hn hops
    cases op with
    | lcopen =>
      simp only [lifoOps, Bool.and_eq_true, decide_eq_true_eq] at hops
      obtain ⟨st1, h1, hD1, hl1⟩ := dense_lcopen st hD (by omega)
      obtain ⟨st2, h2, hD2⟩ := ih (n + 1) st1 hD1 (by omega) hops.2
      refine ⟨st2, ?_, hD2⟩
      simp only [runOps, runOp, h1, Res.bind, h2]
    | lcclose h =>
      simp only [lifoOps, Bool.and_eq_true, decide_eq_true_eq] at hops
      obtain ⟨⟨hpos, hh⟩, hrest⟩ := hops
      have hh2 : h = (st.files.length : Int) - 1 := by rw [hn]; exact hh
      subst hh2
      obtain ⟨_, hD1, hl1⟩ := dense_lcclose_last st hD (by omega)
      obtain ⟨st2, h2, hD2⟩ := ih (n - 1) _ hD1 (by omega) hrest
      refine ⟨st2, ?_, hD2⟩
      simp only [runOps, runOp, Res.bind, h2]
    | lcread fh buf len => simp [lifoOps] at hops
    | lcwrite fh buf len => simp [lifoOps] at hops
    | lcseek fh off => simp [lifoOps] at hops

/-- C19, amended: after any sequence of `lcopen` and `lcclose` calls from
program start in which every `lcclose` closes the file opened last among those
still open, all calls have returned, the handles of the open files are exactly
0, 1, .., n-1, and the next `lcopen` (with n < 256) succeeds and returns n. -/
theorem dense_handles_lifo (cfg : Config) (srv : Server) (fuel : Nat) (ops : List Op)
    (hops : lifoOps 0 ops = true) :
    ∃ st, runOps fuel (LcState.boot cfg srv) ops = Res.ok st
      ∧ handlesOf st = (List.range st.files.length).map Int.ofNat
      ∧ (st.files.length < 256 →
          ∃ st1, lcopen st = Res.ok ((st.files.length : Int), st1)) := by
  have hD0 : DenseHandles (LcState.boot cfg srv) := by
    intro i f hi
    simp [LcState.boot] at hi
  obtain ⟨st, hrun, hD⟩ := lifo_run fuel ops 0 (LcState.boot cfg srv) hD0 rfl hops
  refine ⟨st, hrun, dense_handlesOf st hD, ?_⟩
  intro hn
  obtain ⟨st1, h1, _, _⟩ := dense_lcopen st hD hn
  exact ⟨st1, h1⟩

/-- C19, amended, for the calls lcopen, lcopen, lcclose(1), lcopen on the
sample installation. -/
theorem dense_handles_lifo_witness :
    ∃ st, runOps 0 (LcState.boot demoCfg (demoServer 1 4 8))
        [Op.lcopen, Op.lcopen, Op.lcclose 1, Op.lcopen] = Res.ok st
      ∧ handlesOf st = (List.range st.files.length).map Int.ofNat
      ∧ (st.files.length < 256 →
          ∃ st1, lcopen st = Res.ok ((st.files.length : Int), st1)) :=
  dense_handles_lifo demoCfg (demoServer 1 4 8) 0
    [Op.lcopen, Op.lcopen, Op.lcclose 1, Op.lcopen] (by decide)

/-- C19 as stated fails on the code: after `lcopen`, `lcopen`, `lcclose(0)` on the sample
installation one file is open and its handle is 1, not 0, and the next
`lcopen` returns -1 and opens nothing. -/
theorem handles_not_dense :
    (runOps 0 demoBoot [Op.lcopen, Op.lcopen, Op.lcclose 0]).bind (fun st => Res.ok (handlesOf st))
        = Res.ok [1]
      ∧ writeView ((runOps 0 demoBoot [Op.lcopen, Op.lcopen, Op.lcclose 0]).bind lcopen)
        = Res.ok (-1, [{ info := { handle := 1, length := 0, loc := 0 }, pos := [] }]) := by
  decide

/-! ## `lcshutdown` in general -/

/-- Without the acknowledgement `b1 = 1` of the power-off request `lcshutdown`
returns -1 and changes nothing. -/
theorem lcshutdown_nack (st : LcState)
    (hack : (extract_lcloud_registers (client_lcloud_bus_request st.cfg st.server
      (create_lcloud_registers 0 0 st.cfg.LC_POWER_OFF 0 0 0 0) []).1).2.b1 ≠ 1) :
    lcshutdown st = (-1, st) := by
  simp only [lcshutdown, hack, ne_eq, not_false_eq_true, or_true, if_true]

/-- With the acknowledgement `b1 = 1` and at least one file open, `lcshutdown`
returns 0 and removes the first file of the table only: the loop counter is the
global that `lcclose` leaves at the former `numHandles`. -/
theorem lcshutdown_closes_first (st : LcState) (f : FILE_OBJ) (rest : List FILE_OBJ)
    (hfiles : st.files = f :: rest)
    (hack : (extract_lcloud_registers (client_lcloud_bus_request st.cfg st.server
      (create_lcloud_registers 0 0 st.cfg.LC_POWER_OFF 0 0 0 0) []).1).2.b1 = 1) :
    (lcshutdown st).1 = 0 ∧ (lcshutdown st).2.files = rest := by
  have hr1 : ¬ ((extract_lcloud_registers (client_lcloud_bus_request st.cfg st.server
      (create_lcloud_registers 0 0 st.cfg.LC_POWER_OFF 0 0 0 0) []).1).1 = -1) := by
    simp [extract_lcloud_registers]
  have hcond : ¬ ((extract_lcloud_registers (client_lcloud_bus_request st.cfg st.server
        (create_lcloud_registers 0 0 st.cfg.LC_POWER_OFF 0 0 0 0) []).1).1 = -1
      ∨ (extract_lcloud_registers (client_lcloud_bus_request st.cfg st.server
        (create_lcloud_registers 0 0 st.cfg.LC_POWER_OFF 0 0 0 0) []).1).2.b1 ≠ 1) := by
    intro h
    rcases h with h | h
    · exact hr1 h
    · exact h hack
  have hclose : (lcclose st f.info.handle).2.files = rest := by
    have hc : checkHandle st.files f.info.handle = some 0 := by
      rw [hfiles]
      simp only [checkHandle, checkHandleFrom, if_true]
    simp only [lcclose, hc]
    rw [hfiles]
    rfl
  have hloop : (lcshutdownLoop (st.files.length + 1) 0 st).files = rest := by
    have hpos : 0 < st.files.length := by rw [hfiles]; simp
    have hget : st.files.get? 0 = some f := by rw [hfiles]; rfl
    have hlen : st.files.length = rest.length + 1 := by rw [hfiles]; rfl
    rw [lcshutdownLoop]
    simp only [hpos, if_true, hget]
    rw [hlen, lcshutdownLoop]
    have hnot : ¬ (rest.length + 1 + 1 < rest.length) := by omega
    simp only [hclose, hnot, if_false]
  simp only [lcshutdown, hcond, if_false, lcloud_closecache]
  exact ⟨trivial, hloop⟩

/-- C20 fails on the code: with two files open on the sample installation,
whose power-off response carries `b1 = 1`, `lcshutdown` returns 0 and the file
with handle 1 is still open. -/
theorem lcshutdown_leaves_file_open :
    (runOps 0 demoBoot [Op.lcopen, Op.lcopen]).bind
        (fun st => Res.ok ((lcshutdown st).1, (lcshutdown st).2.files,
          resolve (lcshutdown st).2 1))
      = Res.ok (0, [{ info := { handle := 1, length := 0, loc := 0 }, pos := [] }],
          some { info := { handle := 1, length := 0, loc := 0 }, pos := [] }) := by
  decide

/-! ## The cache on its own: read-your-write -/

/-- `getLine` returns the first resident line holding the key. -/
theorem getLineFrom_first (did : Int) (sec blk : Nat) (ls : List CACHE_LINE) :
    ∀ (n i0 : Nat), n ≤ ls.length →
      (getLineFrom did sec blk ls n i0 = Res.ok none
          ∧ ∀ j l, j < n → ls[j]? = some l → ¬ (l.device = did ∧ l.sec = sec ∧ l.block = blk))
        ∨ (∃ j l, j < n ∧ ls[j]? = some l ∧ (l.device = did ∧ l.sec = sec ∧ l.block = blk)
            ∧ (∀ i l1, i < j → ls[i]? = some l1 →
                ¬ (l1.device = did ∧ l1.sec = sec ∧ l1.block = blk))
            ∧ getLineFrom did sec blk ls n i0 = Res.ok (some (i0 + j))) := by
  induction ls with
  | nil =>
    intro n i0 hn
    have : n = 0 := by simpa using hn
    subst this
    left
    exact ⟨rfl, fun j l hj => absurd hj (Nat.not_lt_zero _)⟩
  | cons x xs ih =>
    intro n i0 hn
    cases n with
    | zero =>
      left
      exact ⟨rfl, fun j l hj => absurd hj (Nat.not_lt_zero _)⟩
    | succ m =>
      by_cases hx : x.device = did ∧ x.sec = sec ∧ x.block = blk
      · right
        refine ⟨0, x, Nat.succ_pos _, List.getElem?_cons_zero, hx,
          fun i l1 hi => absurd hi (Nat.not_lt_zero _), ?_⟩
        simp only [getLineFrom, hx, and_self, if_true, Nat.add_zero]
      · have hm : m ≤ xs.length := by simpa using hn
        have hcons : ∀ j l, j < m + 1 → (x :: xs)[j]? = some l →
            (∀ k l1, k < m + 1 - 1 → j = k + 1 → xs[k]? = some l1 →
              ¬ (l1.device = did ∧ l1.sec = sec ∧ l1.block = blk)) →
            ¬ (l.device = did ∧ l.sec = sec ∧ l.block = blk) := by
          intro j l hj hl hrec
          cases j with
          | zero =>
            simp only [List.getElem?_cons_zero, Option.some.injEq] at hl
            subst hl
            exact hx
          | succ k =>
            simp only [List.getElem?_cons_succ] at hl
            exact hrec k l (by omega) rfl hl
        rcases ih m (i0 + 1) hm with ⟨h1, h2⟩ | ⟨j, l, hj, hl, hk, hmin, hr⟩
        · left
          refine ⟨?_, ?_⟩
          · simp only [getLineFrom, hx, if_false, h1]
          · intro j l hj hl
            exact hcons j l hj hl (fun k l1 hk _ hl1 => h2 k l1 (by omega) hl1)
        · right
          refine ⟨j + 1, l, by omega, by simpa using hl, hk, ?_, ?_⟩
          · intro i l1 hi hl1
            cases i with
            | zero =>
              simp only [List.getElem?_cons_zero, Option.some.injEq] at hl1
              subst hl1
              exact hx
            | succ k =>
              simp only [List.getElem?_cons_succ] at hl1
              exact hmin k l1 (by omega) hl1
          · simp only [getLineFrom, hx, if_false, hr]
            congr 2
            omega

/-- On a well-formed cache `lcloud_putcache` selects a line inside the array
that lies before the new `numLines`, and no line before it holds the key. -/
theorem putLine_wf (c : Cache) (did : Int) (sec blk : Nat) (h : CacheWF c) :
    ∃ r nl, putLine c did sec blk = Res.ok (r, nl) ∧ r < c.lines.length ∧ r < nl
      ∧ nl ≤ c.lines.length
      ∧ ∀ j l, j < r → c.lines[j]? = some l →
          ¬ (l.device = did ∧ l.sec = sec ∧ l.block = blk) := by
  obtain ⟨hmax, hn, h0⟩ := h
  rcases getLineFrom_first did sec blk c.lines c.numLines 0 hn with
    ⟨h1, h2⟩ | ⟨j, l, hj, hl, hk, hmin, hg⟩
  · by_cases hfull : (c.numLines : Int) < c.maxBlocks
    · refine ⟨c.numLines, c.numLines + 1, ?_, by omega, by omega, by omega, ?_⟩
      · simp only [putLine, getLine, h1, hfull, if_true]
      · intro j l hj hl
        exact h2 j l hj hl
    · have heq : c.numLines = c.lines.length := by omega
      obtain ⟨r, hr1, hr2⟩ := evictScan_lt c.lines c.lines.length 0 0 0 (Nat.le_refl _)
      have hrl : r < c.lines.length := by omega
      refine ⟨r, c.numLines, ?_, hrl, by omega, by omega, ?_⟩
      · have ht : c.maxBlocks.toNat = c.lines.length := by omega
        simp only [putLine, getLine, h1, hfull, if_false, ht, hr1]
      · intro j l hj hl
        exact h2 j l (by omega) hl
  · refine ⟨j, c.numLines, ?_, by omega, hj, hn, hmin⟩
    simp only [putLine, getLine, hg, Nat.zero_add]

/-- A lookup on a well-formed cache returns (a payload or NULL) and leaves the
cache well formed, with the same array size, `numLines` and `maxBlocks`. -/
theorem getcache_wf (c : Cache) (did : Int) (sec blk : Nat) (h : CacheWF c) :
    ∃ r c1, lcloud_getcache c did sec blk = Res.ok (r, c1) ∧ CacheWF c1
      ∧ c1.lines.length = c.lines.length ∧ c1.numLines = c.numLines := by
  obtain ⟨hmax, hn, h0⟩ := h
  rcases getLineFrom_first did sec blk c.lines c.numLines 0 hn with
    ⟨h1, _⟩ | ⟨j, l, hj, hl, _, _, hg⟩
  · refine ⟨none, { c with misses := u64 (c.misses + 1) }, ?_, ⟨hmax, hn, h0⟩, rfl, rfl⟩
    simp only [lcloud_getcache, getLine, h1]
  · obtain ⟨ls1, ha, hb⟩ := ageLines_view
      (c.lines.set j { l with lastUsed := 18446744073709551615 }) c.numLines
      (by simpa using hn)
    have hlen : ls1.length = c.lines.length := by
      have := congrArg List.length hb
      simpa using this
    refine ⟨some l.data, { c with lines := ls1, hits := u64 (c.hits + 1) }, ?_, ?_, hlen, rfl⟩
    · have hget : c.lines.get? j = some l := by simpa using hl
      simp only [lcloud_getcache, getLine, hg, Nat.zero_add, hget, ha]
    · exact ⟨by simpa [hlen] using hmax, by simpa [hlen] using hn, by simpa [hlen] using h0⟩

/-- On a well-formed cache `lcloud_putcache` returns 0 and leaves the cache
well formed, and a lookup of the key right after it is a hit that returns the
bytes just stored. -/
theorem putcache_then_getcache (c : Cache) (did : Int) (sec blk : Nat) (d : List Nat)
    (h : CacheWF c) :
    ∃ c1, lcloud_putcache c did sec blk d = Res.ok (0, c1) ∧ CacheWF c1
      ∧ c1.lines.length = c.lines.length ∧ c.numLines ≤ c1.numLines
      ∧ ∃ c2, lcloud_getcache c1 did sec blk = Res.ok (some (d.take 256), c2) := by
  obtain ⟨r, nl, hp, hr, hrn, hnl, hmin⟩ := putLine_wf c did sec blk h
  have hnum : c.numLines ≤ nl := by
    unfold putLine at hp
    cases hg : getLine c did sec blk with
    | ok o =>
      rw [hg] at hp
      cases o with
      | none =>
        simp only at hp
        by_cases hfull : (c.numLines : Int) < c.maxBlocks
        · simp only [hfull, if_true, Res.ok.injEq, Prod.mk.injEq] at hp
          omega
        · simp only [hfull, if_false] at hp
          cases he : evictScan c.lines c.maxBlocks.toNat 0 0 0 with
          | ok line =>
            rw [he] at hp
            simp only [Res.ok.injEq, Prod.mk.injEq] at hp
            omega
          | fault => rw [he] at hp; exact Res.noConfusion hp
          | abort => rw [he] at hp; exact Res.noConfusion hp
          | nofuel => rw [he] at hp; exact Res.noConfusion hp
      | some num =>
        simp only [Res.ok.injEq, Prod.mk.injEq] at hp
        omega
    | fault => rw [hg] at hp; exact Res.noConfusion hp
    | abort => rw [hg] at hp; exact Res.noConfusion hp
    | nofuel => rw [hg] at hp; exact Res.noConfusion hp
  obtain ⟨hmax, hn, h0⟩ := h
  let nline : CACHE_LINE :=
    { data := d.take 256, lastUsed := 0, device := did, sec := sec, block := blk }
  let c1 : Cache := { c with lines := c.lines.set r nline, numLines := nl }
  have hlen1 : c1.lines.length = c.lines.length := by simp [c1]
  have hwf1 : CacheWF c1 := ⟨by simpa [c1] using hmax, by simpa [c1] using hnl,
    by simpa [c1] using h0⟩
  have hput : lcloud_putcache c did sec blk d = Res.ok (0, c1) := by
    simp only [lcloud_putcache, hp, hr, if_true, c1, nline]
  have hat : c1.lines[r]? = some nline := by
    simp only [c1]
    exact List.getElem?_set_self hr
  refine ⟨c1, hput, hwf1, hlen1, hnum, ?_⟩
  rcases getLineFrom_first did sec blk c1.lines c1.numLines 0 hwf1.2.1 with
    ⟨_, h2⟩ | ⟨j, l, hj, hl, hk, hmin1, hg⟩
  · exact absurd ⟨rfl, rfl, rfl⟩ (h2 r nline hrn hat)
  · have hjr : j = r := by
      rcases Nat.lt_trichotomy j r with hlt | heq | hgt
      · exfalso
        have hl0 : c.lines[j]? = some l := by
          have : c1.lines[j]? = c.lines[j]? := by
            simp only [c1]
            exact List.getElem?_set_ne (by omega)
          rw [← this]
          exact hl
        exact hmin j l hlt hl0 hk
      · exact heq
      · exact absurd ⟨rfl, rfl, rfl⟩ (hmin1 r nline hgt hat)
    subst hjr
    have hln : l = nline := by
      rw [hat] at hl
      exact (Option.some.inj hl).symm
    subst hln
    obtain ⟨ls1, ha, _⟩ := ageLines_view
      (c1.lines.set j { nline with lastUsed := 18446744073709551615 }) c1.numLines
      (by simpa using hwf1.2.1)
    refine ⟨{ c1 with lines := ls1, hits := u64 (c1.hits + 1) }, ?_⟩
    have hget : c1.lines.get? j = some nline := by simpa using hat
    simp only [lcloud_getcache, getLine, hg, Nat.zero_add, hget, ha]

/-- A first initialisation, or one with at least `numLines` lines, returns 0
and gives a well-formed cache. -/
theorem initcache_wf (c0 : Cache) (cap : Int) (hcap : 1 ≤ cap) (h0 : (c0.numLines : Int) ≤ cap) :
    (lcloud_initcache c0 cap).1 = 0 ∧ CacheWF (lcloud_initcache c0 cap).2 := by
  have hneg : ¬ cap < 0 := by omega
  simp only [lcloud_initcache, hneg, if_false, CacheWF, List.length_replicate, true_and]
  omega

/-- Every sequence of lookups and insertions on a well-formed cache runs to
the end and leaves a well-formed cache with the same array size. -/
theorem runCacheOps_wf (ops : List CacheOp) :
    ∀ c, CacheWF c → ∃ c1, runCacheOps c ops = Res.ok c1 ∧ CacheWF c1
      ∧ c1.lines.length = c.lines.length := by
  induction ops with
  | nil => intro c h; exact ⟨c, rfl, h, rfl⟩
  | cons op ops ih =>
    intro c h
    cases op with
    | get did sec blk =>
      obtain ⟨r, c1, h1, hwf1, hl1, _⟩ := getcache_wf c did sec blk h
      obtain ⟨c2, h2, hwf2, hl2⟩ := ih c1 hwf1
      refine ⟨c2, ?_, hwf2, by rw [hl2, hl1]⟩
      simp only [runCacheOps, runCacheOp, h1, Res.bind, h2]
    | put did sec blk block =>
      obtain ⟨c1, h1, hwf1, hl1, _, _⟩ := putcache_then_getcache c did sec blk block h
      obtain ⟨c2, h2, hwf2, hl2⟩ := ih c1 hwf1
      refine ⟨c2, ?_, hwf2, by rw [hl2, hl1]⟩
      simp only [runCacheOps, runCacheOp, h1, Res.bind, h2]

/-- Cache read-your-write on well-formed globals.  After `lcloud_initcache(cap)`
with `cap >= 1` (called at program start, where `numLines = 0`, or on any
globals with
`numLines <= cap`) has returned 0 and any sequence of lookups and insertions
has run, `lcloud_putcache(key, d)` of a 256-byte payload returns 0 and the
`lcloud_getcache(key)` right after it is a hit that returns exactly `d`;
this covers a key that was resident, a cache with spare capacity and a full
cache that evicts a line. -/
theorem cache_read_your_write (c0 : Cache) (cap : Int) (hcap : 1 ≤ cap)
    (h0 : (c0.numLines : Int) ≤ cap) (ops : List CacheOp) (did : Int) (sec blk : Nat)
    (d : List Nat) (hd : d.length = 256) :
    (lcloud_initcache c0 cap).1 = 0
      ∧ ∃ c, runCacheOps (lcloud_initcache c0 cap).2 ops = Res.ok c
        ∧ ∃ c1, lcloud_putcache c did sec blk d = Res.ok (0, c1)
          ∧ ∃ c2, lcloud_getcache c1 did sec blk = Res.ok (some d, c2) := by
  obtain ⟨hret, hwf⟩ := initcache_wf c0 cap hcap h0
  obtain ⟨c, hrun, hwfc, _⟩ := runCacheOps_wf ops _ hwf
  obtain ⟨c1, hput, _, _, _, c2, hget⟩ := putcache_then_getcache c did sec blk d hwfc
  have htake : d.take 256 = d := List.take_of_length_le (by omega)
  rw [htake] at hget
  exact ⟨hret, c, hrun, c1, hput, c2, hget⟩

/-- Read-your-write on a cache of two lines that is full when the key (0, 0, 2)
is inserted. -/
theorem cache_read_your_write_witness :
    (lcloud_initcache Cache.initial 2).1 = 0
      ∧ ∃ c, runCacheOps (lcloud_initcache Cache.initial 2).2
          [CacheOp.put 0 0 0 (List.replicate 256 1), CacheOp.put 0 0 1 (List.replicate 256 2),
            CacheOp.get 0 0 0] = Res.ok c
        ∧ ∃ c1, lcloud_putcache c 0 0 2 (List.replicate 256 3) = Res.ok (0, c1)
          ∧ ∃ c2, lcloud_getcache c1 0 0 2 = Res.ok (some (List.replicate 256 3), c2) :=
  cache_read_your_write Cache.initial 2 (by decide) (by decide)
    [CacheOp.put 0 0 0 (List.replicate 256 1), CacheOp.put 0 0 1 (List.replicate 256 2),
      CacheOp.get 0 0 0] 0 0 2 (List.replicate 256 3) (by decide)

/-! ## The cache on its own: eviction -/

theorem runCacheOps_append (xs ys : List CacheOp) :
    ∀ c, runCacheOps c (xs ++ ys) = (runCacheOps c xs).bind fun c1 => runCacheOps c1 ys := by
  induction xs with
  | nil => intro c; rfl
  | cons x xs ih =>
    intro c
    show (runCacheOp c x).bind (fun c1 => runCacheOps c1 (xs ++ ys))
      = ((runCacheOp c x).bind fun c1 => runCacheOps c1 xs).bind fun c1 => runCacheOps c1 ys
    cases runCacheOp c x with
    | ok c1 => exact ih c1
    | fault => rfl
    | abort => rfl
    | nofuel => rfl

/-- The eviction loop keeps its initial choice when no counter exceeds
`large`. -/
theorem evictScan_keep (ls : List CACHE_LINE) :
    ∀ (n i : Nat) (large : Int) (line : Nat), n ≤ ls.length →
      (∀ j l, j < n → ls[j]? = some l → l.lastUsed = 0) →
      evictScan ls n i large line = Res.ok line := by
  induction ls with
  | nil =>
    intro n i large line hn _
    have : n = 0 := by simpa using hn
    subst this
    rfl
  | cons x xs ih =>
    intro n i large line hn hz
    cases n with
    | zero => rfl
    | succ m =>
      have hx : x.lastUsed = 0 := hz 0 x (Nat.succ_pos _) List.getElem?_cons_zero
      have hgt : ¬ x.lastUsed > toU64 large := by omega
      simp only [evictScan, hgt, if_false]
      apply ih m (i + 1) large line (by simpa using hn)
      intro j l hj hl
      exact hz (j + 1) l (by omega) (by simpa using hl)

/-- What a lookup returns: NULL when no resident line holds the key, else the
payload of the first resident line holding it. -/
theorem getcache_result (c : Cache) (did : Int) (sec blk : Nat)
    (hn : c.numLines ≤ c.lines.length) :
    ((∀ j l, j < c.numLines → c.lines[j]? = some l →
          ¬ (l.device = did ∧ l.sec = sec ∧ l.block = blk))
        ∧ ∃ c1, lcloud_getcache c did sec blk = Res.ok (none, c1))
      ∨ (∃ j l, j < c.numLines ∧ c.lines[j]? = some l
          ∧ (l.device = did ∧ l.sec = sec ∧ l.block = blk)
          ∧ (∀ i l1, i < j → c.lines[i]? = some l1 →
              ¬ (l1.device = did ∧ l1.sec = sec ∧ l1.block = blk))
          ∧ ∃ c1, lcloud_getcache c did sec blk = Res.ok (some l.data, c1)) := by
  rcases getLineFrom_first did sec blk c.lines c.numLines 0 hn with
    ⟨h1, h2⟩ | ⟨j, l, hj, hl, hk, hmin, hg⟩
  · left
    refine ⟨h2, { c with misses := u64 (c.misses + 1) }, ?_⟩
    simp only [lcloud_getcache, getLine, h1]
  · right
    obtain ⟨ls1, ha, _⟩ := ageLines_view
      (c.lines.set j { l with lastUsed := 18446744073709551615 }) c.numLines
      (by simpa using hn)
    refine ⟨j, l, hj, hl, hk, hmin, { c with lines := ls1, hits := u64 (c.hits + 1) }, ?_⟩
    have hget : c.lines.get? j = some l := by simpa using hl
    simp only [lcloud_getcache, getLine, hg, Nat.zero_add, hget, ha]

/-- Lines at the same index of two caches with the same payloads and keys. -/
theorem view_getElem? (c c1 : Cache)
    (hv : c1.lines.map CACHE_LINE.kd = c.lines.map CACHE_LINE.kd) (j : Nat) (l : CACHE_LINE)
    (hl : c.lines[j]? = some l) : ∃ l1, c1.lines[j]? = some l1 ∧ l1.kd = l.kd := by
  have h := congrArg (fun V => V[j]?) hv
  simp only [List.getElem?_map, hl, Option.map_some'] at h
  cases h1 : c1.lines[j]? with
  | none => rw [h1] at h; simp at h
  | some l1 =>
    rw [h1] at h
    simp only [Option.map_some', Option.some.injEq] at h
    exact ⟨l1, rfl, h⟩

/-- A lookup returns and changes neither payloads, keys nor `numLines`. -/
theorem getcache_view (c : Cache) (did : Int) (sec blk : Nat)
    (hn : c.numLines ≤ c.lines.length) :
    ∃ r c1, lcloud_getcache c did sec blk = Res.ok (r, c1)
      ∧ c1.lines.map CACHE_LINE.kd = c.lines.map CACHE_LINE.kd ∧ c1.numLines = c.numLines := by
  rcases getLineFrom_first did sec blk c.lines c.numLines 0 hn with
    ⟨h1, _⟩ | ⟨j, l, hj, hl, _, _, hg⟩
  · refine ⟨none, { c with misses := u64 (c.misses + 1) }, ?_, rfl, rfl⟩
    simp only [lcloud_getcache, getLine, h1]
  · obtain ⟨ls1, ha, hb⟩ := ageLines_view
      (c.lines.set j { l with lastUsed := 18446744073709551615 }) c.numLines
      (by simpa using hn)
    have hset : (c.lines.set j { l with lastUsed := 18446744073709551615 }).map CACHE_LINE.kd
        = c.lines.map CACHE_LINE.kd := by
      rw [List.map_set]
      apply set_of_getElem?
      rw [List.getElem?_map, hl]
      rfl
    refine ⟨some l.data, { c with lines := ls1, hits := u64 (c.hits + 1) }, ?_, ?_, rfl⟩
    · have hget : c.lines.get? j = some l := by simpa using hl
      simp only [lcloud_getcache, getLine, hg, Nat.zero_add, hget, ha]
    · simp only [hb, hset]

/-- A sequence of lookups runs to the end and changes neither payloads, keys
nor `numLines`. -/
theorem gets_view (ks : List (Int × Nat × Nat)) :
    ∀ c, c.numLines ≤ c.lines.length →
      ∃ c1, runCacheOps c (getsOf ks) = Res.ok c1
        ∧ c1.lines.map CACHE_LINE.kd = c.lines.map CACHE_LINE.kd ∧ c1.numLines = c.numLines := by
  induction ks with
  | nil => intro c _; exact ⟨c, rfl, rfl, rfl⟩
  | cons k ks ih =>
    intro c hn
    obtain ⟨r, c1, h1, hv1, hn1⟩ := getcache_view c k.1 k.2.1 k.2.2 hn
    have hlen1 : c1.lines.length = c.lines.length := by
      have := congrArg List.length hv1
      simpa using this
    obtain ⟨c2, h2, hv2, hn2⟩ := ih c1 (by omega)
    refine ⟨c2, ?_, by rw [hv2, hv1], by rw [hn2, hn1]⟩
    simp only [getsOf, List.map_cons, runCacheOps, runCacheOp, h1, Res.bind]
    exact h2

/-- A pair that is not yet inserted is not resident. -/
theorem filling_nonresident (cap : Nat) (es : List ((Int × Nat × Nat) × List Nat)) (j : Nat)
    (c : Cache) (e : (Int × Nat × Nat) × List Nat)
    (hkeys : ∀ (i k : Nat) (a b : (Int × Nat × Nat) × List Nat),
      es[i]? = some a → es[k]? = some b → a.1 = b.1 → i = k)
    (hF : Filling cap es j c) (hj : j ≤ cap) (he : es[j]? = some e) :
    getLineFrom e.1.1 e.1.2.1 e.1.2.2 c.lines c.numLines 0 = Res.ok none := by
  obtain ⟨hlen, _, hnum, hlines⟩ := hF
  rcases getLineFrom_first e.1.1 e.1.2.1 e.1.2.2 c.lines c.numLines 0 (by omega) with
    ⟨h1, _⟩ | ⟨i, l, hi, hl, hk, _, _⟩
  · exact h1
  · exfalso
    have hi2 : i < j := by omega
    rw [hlines i hi2] at hl
    cases hei : es[i]? with
    | none => rw [hei] at hl; simp at hl
    | some a =>
      rw [hei] at hl
      simp only [Option.map_some', Option.some.injEq] at hl
      subst hl
      simp only [lineOf] at hk
      have : a.1 = e.1 := Prod.ext hk.1 (Prod.ext hk.2.1 hk.2.2)
      have := hkeys i j a e hei he this
      omega

/-- Inserting the next pair while the cache has spare capacity. -/
theorem filling_step (cap : Nat) (es : List ((Int × Nat × Nat) × List Nat)) (j : Nat) (c : Cache)
    (e : (Int × Nat × Nat) × List Nat)
    (hkeys : ∀ (i k : Nat) (a b : (Int × Nat × Nat) × List Nat),
      es[i]? = some a → es[k]? = some b → a.1 = b.1 → i = k)
    (hF : Filling cap es j c) (hj : j < cap) (he : es[j]? = some e) :
    ∃ c1, lcloud_putcache c e.1.1 e.1.2.1 e.1.2.2 e.2 = Res.ok (0, c1)
      ∧ Filling cap es (j + 1) c1 := by
  obtain ⟨hlen, hmax, hnum, hlines⟩ := hF
  have hn : c.numLines ≤ c.lines.length := by omega
  have hnone := filling_nonresident cap es j c e hkeys ⟨hlen, hmax, hnum, hlines⟩ (by omega) he
  have hspare : (c.numLines : Int) < c.maxBlocks := by omega
  have hput : putLine c e.1.1 e.1.2.1 e.1.2.2 = Res.ok (j, j + 1) := by
    simp only [putLine, getLine, hnone, hspare, if_true]
    rw [hnum]
  have hjl : j < c.lines.length := by omega
  refine ⟨{ c with lines := c.lines.set j (lineOf e), numLines := j + 1 }, ?_, ?_⟩
  · simp only [lcloud_putcache, hput, hjl, if_true, lineOf]
  · refine ⟨by simpa using hlen, hmax, rfl, ?_⟩
    intro i hi
    by_cases hij : i = j
    · subst hij
      simp only [List.getElem?_set_self hjl, he, Option.map_some']
    · simp only [List.getElem?_set_ne (Ne.symm hij)]
      exact hlines i (by omega)

/-- The first `j <= cap` insertions of pairwise distinct keys into a fresh
cache of `cap` lines run to the end and fill the lines `0..j-1` in order. -/
theorem filling_run (cap : Nat) (es : List ((Int × Nat × Nat) × List Nat))
    (hkeys : ∀ (i k : Nat) (a b : (Int × Nat × Nat) × List Nat),
      es[i]? = some a → es[k]? = some b → a.1 = b.1 → i = k)
    (hlen : cap < es.length) :
    ∀ j, j ≤ cap →
      ∃ c, runCacheOps (lcloud_initcache Cache.initial (cap : Int)).2 (putsOf (es.take j))
          = Res.ok c ∧ Filling cap es j c := by
  intro j
  induction j with
  | zero =>
    intro _
    refine ⟨(lcloud_initcache Cache.initial (cap : Int)).2, rfl, ?_⟩
    have hneg : ¬ (cap : Int) < 0 := by omega
    simp only [lcloud_initcache, hneg, if_false]
    exact ⟨by simp, rfl, rfl, fun i hi => absurd hi (Nat.not_lt_zero _)⟩
  | succ j ih =>
    intro hj
    obtain ⟨c, hrun, hF⟩ := ih (by omega)
    have hjl : j < es.length := by omega
    have he : es[j]? = some es[j] := List.getElem?_eq_getElem hjl
    obtain ⟨c1, hput, hF1⟩ := filling_step cap es j c es[j] hkeys hF (by omega) he
    refine ⟨c1, ?_, hF1⟩
    rw [List.take_succ, he]
    simp only [Option.toList, putsOf, List.map_append, List.map_cons, List.map_nil]
    rw [runCacheOps_append]
    have hrun2 : runCacheOps (lcloud_initcache Cache.initial (cap : Int)).2
        (List.map (fun e => CacheOp.put e.1.1 e.1.2.1 e.1.2.2 e.2) (es.take j)) = Res.ok c := hrun
    rw [hrun2]
    simp only [Res.bind, runCacheOps, runCacheOp, hput]

/-- C13: after `lcloud_initcache(cap)` with `cap >= 1` at program start and
`lcloud_putcache` of `cap + 1` pairs with pairwise distinct keys and 256-byte
payloads, with no lookup in between, all calls have returned and `numLines` is
`cap`; from then on, also after any further lookups `ks`, a lookup of the
first key is a miss and a lookup of each of the other keys is a hit that
returns the payload inserted for it. -/
theorem capacity_plus_one_eviction (cap : Nat) (hcap : 1 ≤ cap)
    (es : List ((Int × Nat × Nat) × List Nat)) (hlen : es.length = cap + 1)
    (hnd : (es.map Prod.fst).Nodup) (hd : ∀ e ∈ es, e.2.length = 256) :
    (lcloud_initcache Cache.initial (cap : Int)).1 = 0
      ∧ ∃ c, runCacheOps (lcloud_initcache Cache.initial (cap : Int)).2 (putsOf es) = Res.ok c
        ∧ c.numLines = cap
        ∧ ∀ ks : List (Int × Nat × Nat), ∃ c1, runCacheOps c (getsOf ks) = Res.ok c1
          ∧ (∀ e, es[0]? = some e → lookup (Res.ok c1) e.1.1 e.1.2.1 e.1.2.2 = Res.ok none)
          ∧ (∀ i e, 1 ≤ i → es[i]? = some e →
              lookup (Res.ok c1) e.1.1 e.1.2.1 e.1.2.2 = Res.ok (some e.2)) := by
  have hkeys : ∀ (i k : Nat) (a b : (Int × Nat × Nat) × List Nat),
      es[i]? = some a → es[k]? = some b → a.1 = b.1 → i = k := by
    have hne := List.nodup_iff_getElem?_ne_getElem?.mp hnd
    have half : ∀ (i k : Nat) (a b : (Int × Nat × Nat) × List Nat), i < k →
        es[i]? = some a → es[k]? = some b → a.1 = b.1 → False := by
      intro i k a b hik ha hb hab
      have hk : k < (es.map Prod.fst).length := by
        rw [List.length_map]
        exact (List.getElem?_eq_some_iff.mp hb).1
      apply hne i k hik hk
      rw [List.getElem?_map, List.getElem?_map, ha, hb]
      simp only [Option.map_some', hab]
    intro i k a b ha hb hab
    rcases Nat.lt_trichotomy i k with h | h | h
    · exact (half i k a b h ha hb hab).elim
    · exact h
    · exact (half k i b a h hb ha hab.symm).elim
  have hinit : (lcloud_initcache Cache.initial (cap : Int)).1 = 0 := by
    have hneg : ¬ (cap : Int) < 0 := by omega
    simp only [lcloud_initcache, hneg, if_false]
  obtain ⟨c, hrun, hF⟩ := filling_run cap es hkeys (by omega) cap (Nat.le_refl _)
  have hcl : cap < es.length := by omega
  have hec : es[cap]? = some es[cap] := List.getElem?_eq_getElem hcl
  have hnone := filling_nonresident cap es cap c es[cap] hkeys hF (Nat.le_refl _) hec
  obtain ⟨hlenc, hmax, hnum, hlines⟩ := hF
  have hzero : ∀ j l, j < cap → c.lines[j]? = some l → l.lastUsed = 0 := by
    intro j l hj hl
    rw [hlines j hj] at hl
    cases hej : es[j]? with
    | none => rw [hej] at hl; simp at hl
    | some a =>
      rw [hej] at hl
      simp only [Option.map_some', Option.some.injEq] at hl
      subst hl
      rfl
  have hscan : evictScan c.lines cap 0 0 0 = Res.ok 0 :=
    evictScan_keep c.lines cap 0 0 0 (by omega) hzero
  have hfull : ¬ (c.numLines : Int) < c.maxBlocks := by omega
  have htn : c.maxBlocks.toNat = cap := by omega
  have hput : putLine c es[cap].1.1 es[cap].1.2.1 es[cap].1.2.2 = Res.ok (0, cap) := by
    simp only [putLine, getLine, hnone, hfull, if_false, htn, hscan]
    rw [hnum]
  have h0l : 0 < c.lines.length := by omega
  let c1 : Cache := { c with lines := c.lines.set 0 (lineOf es[cap]), numLines := cap }
  have hputc : lcloud_putcache c es[cap].1.1 es[cap].1.2.1 es[cap].1.2.2 es[cap].2
      = Res.ok (0, c1) := by
    simp only [lcloud_putcache, hput, h0l, if_true, lineOf, c1]
  have hall : runCacheOps (lcloud_initcache Cache.initial (cap : Int)).2 (putsOf es)
      = Res.ok c1 := by
    have hes : es = es.take cap ++ [es[cap]] := by
      have h1 : es.take (cap + 1) = es := List.take_of_length_le (by omega)
      have h2 := @List.take_succ _ es cap
      rw [h1, hec] at h2
      exact h2
    have hsplit : putsOf es = putsOf (es.take cap)
        ++ [CacheOp.put es[cap].1.1 es[cap].1.2.1 es[cap].1.2.2 es[cap].2] := by
      conv => lhs; rw [hes]
      simp only [putsOf, List.map_append, List.map_cons, List.map_nil]
    rw [hsplit, runCacheOps_append, hrun]
    simp only [Res.bind, runCacheOps, runCacheOp, hputc]
  -- the pair held by each line of the final cache
  have hline0 : c1.lines[0]? = some (lineOf es[cap]) := by
    simp only [c1]
    exact List.getElem?_set_self h0l
  have hlinei : ∀ i, 0 < i → i < cap → c1.lines[i]? = (es[i]?).map lineOf := by
    intro i hi0 hic
    simp only [c1]
    rw [List.getElem?_set_ne (by omega)]
    exact hlines i hic
  have hn1 : c1.numLines ≤ c1.lines.length := by
    simp only [c1, List.length_set]
    omega
  have hsrc1 : ∀ j l, j < cap → c1.lines[j]? = some l →
      ∃ m a, es[m]? = some a ∧ l = lineOf a ∧ 1 ≤ m ∧ (0 < j → m = j) ∧ (j = 0 → m = cap) := by
    intro j l hjc hl
    by_cases hj0 : j = 0
    · subst hj0
      rw [hline0] at hl
      exact ⟨cap, es[cap], hec, (Option.some.inj hl).symm, hcap, fun h => absurd h (Nat.lt_irrefl 0),
        fun _ => rfl⟩
    · rw [hlinei j (by omega) hjc] at hl
      cases hej : es[j]? with
      | none => rw [hej] at hl; simp at hl
      | some a =>
        rw [hej] at hl
        simp only [Option.map_some', Option.some.injEq] at hl
        exact ⟨j, a, hej, hl.symm, by omega, fun _ => rfl, fun h => absurd h hj0⟩
  refine ⟨hinit, c1, hall, rfl, ?_⟩
  intro ks
  obtain ⟨c2, hgets, hv, hnum2⟩ := gets_view ks c1 hn1
  have hnum2c : c2.numLines = cap := hnum2
  have hlen2 : c2.lines.length = c1.lines.length := by
    have := congrArg List.length hv
    simpa using this
  have hn2 : c2.numLines ≤ c2.lines.length := by omega
  have hsrc : ∀ j l, j < c2.numLines → c2.lines[j]? = some l →
      ∃ m a, es[m]? = some a ∧ l.kd = (lineOf a).kd ∧ 1 ≤ m ∧ (0 < j → m = j)
        ∧ (j = 0 → m = cap) := by
    intro j l hj hl
    obtain ⟨l1, hl1, hkd⟩ := view_getElem? c2 c1 hv.symm j l hl
    obtain ⟨m, a, hm, hla, h3, h4, h5⟩ := hsrc1 j l1 (by omega) hl1
    exact ⟨m, a, hm, by rw [← hkd, hla], h3, h4, h5⟩
  refine ⟨c2, hgets, ?_, ?_⟩
  · intro e he
    rcases getcache_result c2 e.1.1 e.1.2.1 e.1.2.2 hn2 with
      ⟨_, c3, hget⟩ | ⟨j, l, hj, hl, hk, _, _⟩
    · simp only [lookup, Res.bind, hget]
    · exfalso
      obtain ⟨m, a, hm, hla, hm1, _, _⟩ := hsrc j l hj hl
      simp only [CACHE_LINE.kd, lineOf, Prod.mk.injEq] at hla
      have : a.1 = e.1 :=
        Prod.ext (by rw [← hla.2.1, hk.1]) (Prod.ext (by rw [← hla.2.2.1, hk.2.1])
          (by rw [← hla.2.2.2, hk.2.2]))
      have := hkeys m 0 a e hm he this
      omega
  · intro i e hi he
    have hic : i ≤ cap := by
      have := (List.getElem?_eq_some_iff.mp he).1
      omega
    rcases getcache_result c2 e.1.1 e.1.2.1 e.1.2.2 hn2 with
      ⟨hno, _⟩ | ⟨j, l, hj, hl, hk, _, c3, hget⟩
    · exfalso
      have hex : ∃ j, j < cap ∧ c1.lines[j]? = some (lineOf e) := by
        by_cases hie : i = cap
        · subst hie
          have hee : e = es[i] := by
            rw [hec] at he
            exact (Option.some.inj he).symm
          subst hee
          exact ⟨0, by omega, hline0⟩
        · have hlt : i < cap := by omega
          have hli := hlinei i (by omega) hlt
          rw [he] at hli
          exact ⟨i, hlt, hli⟩
      obtain ⟨j, hj, hlj⟩ := hex
      obtain ⟨l2, hl2, hkd⟩ := view_getElem? c1 c2 hv j (lineOf e) hlj
      simp only [CACHE_LINE.kd, lineOf, Prod.mk.injEq] at hkd
      exact hno j l2 (by omega) hl2 ⟨hkd.2.1, hkd.2.2.1, hkd.2.2.2⟩
    · obtain ⟨m, a, hm, hla, _, _, _⟩ := hsrc j l hj hl
      simp only [CACHE_LINE.kd, lineOf, Prod.mk.injEq] at hla
      have hkey : a.1 = e.1 :=
        Prod.ext (by rw [← hla.2.1, hk.1]) (Prod.ext (by rw [← hla.2.2.1, hk.2.1])
          (by rw [← hla.2.2.2, hk.2.2]))
      have hmi := hkeys m i a e hm he hkey
      subst hmi
      have hae : a = e := by
        rw [hm] at he
        exact Option.some.inj he
      subst hae
      have hmem : a ∈ es := List.getElem?_mem hm
      have htake : a.2.take 256 = a.2 := List.take_of_length_le (by have := hd a hmem; omega)
      simp only [lookup, Res.bind, hget, hla.1, htake]

/-- C13 for a cache of two lines and the keys (0,0,0), (0,0,1), (0,0,2). -/
theorem capacity_plus_one_eviction_witness :
    (lcloud_initcache Cache.initial ((2 : Nat) : Int)).1 = 0
      ∧ ∃ c, runCacheOps (lcloud_initcache Cache.initial ((2 : Nat) : Int)).2 (putsOf demoPairs)
          = Res.ok c
        ∧ c.numLines = 2
        ∧ ∀ ks : List (Int × Nat × Nat), ∃ c1, runCacheOps c (getsOf ks) = Res.ok c1
          ∧ (∀ e, demoPairs[0]? = some e →
              lookup (Res.ok c1) e.1.1 e.1.2.1 e.1.2.2 = Res.ok none)
          ∧ (∀ i e, 1 ≤ i → demoPairs[i]? = some e →
              lookup (Res.ok c1) e.1.1 e.1.2.1 e.1.2.2 = Res.ok (some e.2)) :=
  capacity_plus_one_eviction 2 (by decide) demoPairs (by decide) (by decide) (by decide)

/-! ## Worked cache runs that contradict the specification -/

/-- C14 fails on the code: in a cache of two lines, after inserting the keys
(0,0,0) and (0,0,1) and refreshing (0,0,0), the insertion of (0,0,2) selects
line 0 and evicts (0,0,0), the key touched last, while (0,0,1), the key least
recently touched, stays resident.  `lcloud_putcache` zeroes the counter of its
own line and leaves the other counters alone, so after insertions only all
counters are 0 and the eviction loop keeps its initial line 0. -/
theorem eviction_not_lru :
    (runCacheOps demoCache
        [CacheOp.put 0 0 0 (List.replicate 256 1), CacheOp.put 0 0 1 (List.replicate 256 2),
          CacheOp.put 0 0 0 (List.replicate 256 1)]).bind (fun c => putLine c 0 0 2)
        = Res.ok (0, 2)
      ∧ lookup (runCacheOps demoCache
          [CacheOp.put 0 0 0 (List.replicate 256 1), CacheOp.put 0 0 1 (List.replicate 256 2),
            CacheOp.put 0 0 0 (List.replicate 256 1), CacheOp.put 0 0 2 (List.replicate 256 3)])
          0 0 0 = Res.ok none
      ∧ lookup (runCacheOps demoCache
          [CacheOp.put 0 0 0 (List.replicate 256 1), CacheOp.put 0 0 1 (List.replicate 256 2),
            CacheOp.put 0 0 0 (List.replicate 256 1), CacheOp.put 0 0 2 (List.replicate 256 3)])
          0 0 1 = Res.ok (some (List.replicate 256 2)) := by
  decide

/-- C15 fails on the code at capacity 0: `lcloud_initcache(0)` at program start
returns 0 with an array of no lines, and the first `lcloud_putcache` selects
line 0, which is not smaller than the capacity, and stores to it outside the
array. -/
theorem capacity_zero_store_outside :
    (lcloud_initcache Cache.initial 0).1 = 0
      ∧ (lcloud_initcache Cache.initial 0).2.lines.length = 0
      ∧ putLine (lcloud_initcache Cache.initial 0).2 0 0 0 = Res.ok (0, 0)
      ∧ lcloud_putcache (lcloud_initcache Cache.initial 0).2 0 0 0 (List.replicate 256 1)
          = Res.fault := by
  decide

/-- C16 fails on the code: `lcloud_initcache` does not reset `numLines`.  After
two insertions into a cache of two lines, `lcloud_initcache(2)` returns 0 and
`numLines` is still 2; the two blank lines count as resident, so a lookup of
the blank key (-1, 65535, 65535) is a hit; and after `lcloud_initcache(1)`
instead, a lookup of (0,0,0) reads line 1 outside the new array. -/
theorem reinit_keeps_numLines :
    (runCacheOps demoCache
        [CacheOp.put 0 0 0 (List.replicate 256 1), CacheOp.put 0 0 1 (List.replicate 256 2)]).bind
        (fun c => Res.ok ((lcloud_initcache c 2).1, (lcloud_initcache c 2).2.numLines))
        = Res.ok (0, 2)
      ∧ (lookup (reinit (runCacheOps demoCache
          [CacheOp.put 0 0 0 (List.replicate 256 1), CacheOp.put 0 0 1 (List.replicate 256 2)]) 2)
          (-1) 65535 65535).bind (fun o => Res.ok o.isSome) = Res.ok true
      ∧ lookup (reinit (runCacheOps demoCache
          [CacheOp.put 0 0 0 (List.replicate 256 1), CacheOp.put 0 0 1 (List.replicate 256 2)]) 1)
          0 0 0 = Res.fault := by
  decide

/-- C12 fails on the code after a re-initialisation to fewer lines:
`lcloud_initcache(2)`, two insertions, then `lcloud_initcache(1)`, which
returns 0 with capacity 1 and an array of one line but leaves `numLines` at 2.
`lcloud_putcache` of the key (0,0,2) then does not return 0: `getLine` reads
line 1 outside the array.  `lcloud_putcache` of the blank key
(-1, 65535, 65535) finds it in line 0 and returns 0, but the
`lcloud_getcache` right after it is not a hit that returns the payload: its
loop over `numLines` counters writes line 1 outside the array. -/
theorem read_your_write_lost_after_reinit :
    (runCacheOps demoCache
        [CacheOp.put 0 0 0 (List.replicate 256 1), CacheOp.put 0 0 1 (List.replicate 256 2)]).bind
        (fun c => Res.ok ((lcloud_initcache c 1).1, (lcloud_initcache c 1).2.maxBlocks,
          (lcloud_initcache c 1).2.lines.length, (lcloud_initcache c 1).2.numLines))
        = Res.ok (0, 1, 1, 2)
      ∧ (reinit (runCacheOps demoCache
          [CacheOp.put 0 0 0 (List.replicate 256 1), CacheOp.put 0 0 1 (List.replicate 256 2)])
          1).bind (fun c => lcloud_putcache c 0 0 2 (List.replicate 256 3)) = Res.fault
      ∧ ((reinit (runCacheOps demoCache
          [CacheOp.put 0 0 0 (List.replicate 256 1), CacheOp.put 0 0 1 (List.replicate 256 2)])
          1).bind (fun c => lcloud_putcache c (-1) 65535 65535 (List.replicate 256 3))).bind
          (fun r => Res.ok r.1) = Res.ok 0
      ∧ ((reinit (runCacheOps demoCache
          [CacheOp.put 0 0 0 (List.replicate 256 1), CacheOp.put 0 0 1 (List.replicate 256 2)])
          1).bind (fun c => lcloud_putcache c (-1) 65535 65535 (List.replicate 256 3))).bind
          (fun r => lcloud_getcache r.2 (-1) 65535 65535) = Res.fault := by
  decide

/-! ## Register frames: fields wider than their bit range -/

theorem shiftLeft_or (x y k : Nat) : x <<< k ||| y <<< k = (x ||| y) <<< k := by
  apply Nat.eq_of_testBit_eq
  intro i
  simp only [Nat.testBit_or, Nat.testBit_shiftLeft]
  cases decide (i ≥ k) <;> simp

/-- The two leading fields of a frame: `b0` loses its high four bits, and the
high four bits of `b1` are ORed into the range of `b0`. -/
theorem lead_fields (b0 b1 : Nat) :
    u64 (u8 b0 <<< 60) ||| u64 (u8 b1 <<< 56)
      = u64 (u8 ((b0 % 16) ||| (b1 % 256 / 16)) <<< 60) ||| u64 (u8 (b1 % 16) <<< 56) := by
  have hx : b0 % 16 < 2 ^ 4 := by omega
  have hh : b1 % 256 / 16 < 2 ^ 4 := by omega
  have hor : (b0 % 16) ||| (b1 % 256 / 16) < 2 ^ 4 := Nat.or_lt_two_pow hx hh
  generalize hz : (b0 % 16) ||| (b1 % 256 / 16) = z at hor
  unfold u64 u8
  simp only [Nat.shiftLeft_eq]
  have e0 : b0 % 256 * 2 ^ 60 % 18446744073709551616 = (b0 % 16) * 2 ^ 60 := by omega
  have e1 : b1 % 256 * 2 ^ 56 % 18446744073709551616
      = (b1 % 256 / 16) * 2 ^ 60 + (b1 % 16) * 2 ^ 56 := by omega
  have e2 : z % 256 * 2 ^ 60 % 18446744073709551616 = z * 2 ^ 60 := by omega
  have e3 : b1 % 16 % 256 * 2 ^ 56 % 18446744073709551616 = (b1 % 16) * 2 ^ 56 := by omega
  rw [e0, e1, e2, e3, ← or_shift_add (b1 % 256 / 16) ((b1 % 16) * 2 ^ 56) 60 (by omega),
    ← Nat.lor_assoc, ← hz]
  congr 1
  rw [← Nat.shiftLeft_eq, ← Nat.shiftLeft_eq, ← Nat.shiftLeft_eq, shiftLeft_or]

/-- C27 as stated fails on the code: with `b0 = 0` and `b1 = 16` the frame is
not the frame of `b0 mod 16 = 0` and `b1 mod 16 = 0`; bit 4 of `b1` lands in
bit 60, and the frame decodes to `b0 = 1`. -/
theorem wide_b1_changes_b0 :
    create_lcloud_registers 0 16 0 0 0 0 0
        ≠ create_lcloud_registers (0 % 16) (16 % 16) 0 0 0 0 0
      ∧ create_lcloud_registers 0 16 0 0 0 0 0 = 2 ^ 60
      ∧ (extract_lcloud_registers (create_lcloud_registers 0 16 0 0 0 0 0)).2.b0 = 1 := by
  decide

/-- C27, amended: of the two four-bit fields only `b0` is truncated.  For all
arguments, the frame of `(b0, b1, ..)` is the frame of
`((b0 mod 16) OR (b1 mod 256 div 16), b1 mod 16, ..)`: the high four bits of an
8-bit `b1` are ORed into the bits of `b0`; and with `b1` reduced to four bits
the frame of `(b0, b1 mod 16, ..)` is the frame of `(b0 mod 16, b1 mod 16, ..)`. -/
theorem frame_truncation (b0 b1 c0 c1 c2 d0 d1 : Nat) :
    create_lcloud_registers b0 b1 c0 c1 c2 d0 d1
        = create_lcloud_registers ((b0 % 16) ||| (b1 % 256 / 16)) (b1 % 16) c0 c1 c2 d0 d1
      ∧ create_lcloud_registers b0 (b1 % 16) c0 c1 c2 d0 d1
        = create_lcloud_registers (b0 % 16) (b1 % 16) c0 c1 c2 d0 d1 := by
  constructor
  · unfold create_lcloud_registers
    rw [lead_fields b0 b1]
  · have h := lead_fields b0 (b1 % 16)
    have h2 := lead_fields (b0 % 16) (b1 % 16)
    unfold create_lcloud_registers
    rw [h, h2]
    have e : b0 % 16 % 16 = b0 % 16 := by omega
    rw [e]

/-! ## Decoding of the probe bitmask -/

theorem probeLoop_bits :
    ∀ (n x i : Nat), x < 2 ^ n →
      probeLoop n x i
        = ((List.range n).filter fun k => x.testBit k).map fun k => Int.ofNat (i + k) := by
  intro n
  induction n with
  | zero => intro x i _; rfl
  | succ n ih =>
    intro x i hx
    have hhalf : x >>> 1 < 2 ^ n := by
      rw [Nat.shiftRight_eq_div_pow]
      have : 2 ^ (n + 1) = 2 * 2 ^ n := by rw [Nat.pow_succ, Nat.mul_comm]
      omega
    have hrec := ih (x >>> 1) (i + 1) hhalf
    have htb : ∀ k, (x >>> 1).testBit k = x.testBit (k + 1) := by
      intro k
      rw [Nat.testBit_succ, Nat.shiftRight_eq_div_pow]
    have hrange : List.range (n + 1) = 0 :: (List.range n).map Nat.succ :=
      List.range_succ_eq_map n
    have htail : ((List.range n).map Nat.succ).filter (fun k => x.testBit k)
        = ((List.range n).filter fun k => (x >>> 1).testBit k).map Nat.succ := by
      rw [List.filter_map]
      congr 1
      apply List.filter_congr
      intro k _
      simp only [Function.comp, htb]
    have hmap : (((List.range n).filter fun k => (x >>> 1).testBit k).map Nat.succ).map
          (fun k => Int.ofNat (i + k))
        = ((List.range n).filter fun k => (x >>> 1).testBit k).map
          (fun k => Int.ofNat (i + 1 + k)) := by
      rw [List.map_map]
      apply List.map_congr_left
      intro k _
      simp only [Function.comp]
      congr 1
      omega
    by_cases h0 : x = 0
    · subst h0
      simp only [probeLoop, if_true]
      have : ((List.range (n + 1)).filter fun k => (0 : Nat).testBit k) = [] := by
        apply List.filter_eq_nil_iff.mpr
        intro k _
        simp
      rw [this]
      rfl
    · have hand : x &&& 1 = x % 2 := Nat.and_one_is_mod x
      have hbit0 : x.testBit 0 = decide (x % 2 = 1) := Nat.testBit_zero x
      by_cases h1 : x % 2 = 1
      · have hc : x &&& 1 = 1 := by rw [hand, h1]
        have hb : x.testBit 0 = true := by rw [hbit0]; exact decide_eq_true h1
        simp only [probeLoop, h0, if_false, hc, if_true, hrec]
        rw [hrange, List.filter_cons_of_pos hb, List.map_cons, htail, hmap]
        rfl
      · have hc : ¬ (x &&& 1 = 1) := by rw [hand]; exact h1
        have hb : ¬ (x.testBit 0 = true) := by
          rw [hbit0]
          simpa using h1
        simp only [probeLoop, h0, if_false, hc, hrec]
        rw [hrange, List.filter_cons_of_neg hb, htail, hmap]

/-- C26: for every server, and so every 16-bit `d0` in its probe response,
`powerOn` at program start returns with the devices registered being exactly
the ids `i` in `0..15` for which bit `i` of `d0` is set, in increasing order;
their number is the number of set bits of `d0`, which has no bit above 15. -/
theorem probe_decoding (cfg : Config) (srv : Server) :
    (powerOn (LcState.boot cfg srv)).2.devices.map (fun dev => dev.id)
        = setBits (probeD0 cfg srv)
      ∧ (powerOn (LcState.boot cfg srv)).2.devices.length
        = ((List.range 16).filter fun i => (probeD0 cfg srv).testBit i).length
      ∧ probeD0 cfg srv < 2 ^ 16 := by
  have hlt : probeD0 cfg srv < 2 ^ 16 := by
    unfold probeD0 extract_lcloud_registers u16
    simp only
    omega
  have hids : (powerOn (LcState.boot cfg srv)).2.devices.map (fun dev => dev.id)
      = setBits (probeD0 cfg srv) := by
    have hp := probeLoop_bits 16 (probeD0 cfg srv) 0 hlt
    simp only [powerOn, LcState.boot, List.nil_append, List.map_map, Function.comp]
    have hid : ∀ (l : List Int) (f : Int → Int), (∀ x, f x = x) → l.map f = l := by
      intro l f hf
      induction l with
      | nil => rfl
      | cons a as ih => rw [List.map_cons, hf, ih]
    unfold probeD0 at hp
    refine (hid _ _ (fun _ => rfl)).trans ?_
    rw [hp]
    unfold setBits probeD0
    apply List.map_congr_left
    intro k _
    rw [Nat.zero_add]
  refine ⟨hids, ?_, hlt⟩
  have := congrArg List.length hids
  simpa [setBits] using this

/-- The probe mask 5 (bits 0 and 2) registers the devices 0 and 2. -/
theorem probe_decoding_demo :
    (powerOn (LcState.boot demoCfg (demoServer 5 4 8))).2.devices.map (fun dev => dev.id)
      = [0, 2] := by
  decide

/-! ## First fit in general -/

/-- On that device the first fit for handle 7 is slot (1, 0), and an unknown
device id gives -1. -/
theorem first_fit_demo :
    availableSpace [demoGrid] 3 7 = some (1, 0) ∧ availableSpace [demoGrid] 4 7 = none := by
  decide

/-! ## Recency bookkeeping of `lcloud_getcache` -/

theorem ageLines_getElem? (ls : List CACHE_LINE) :
    ∀ (n : Nat), n ≤ ls.length →
      ∃ ls1, ageLines ls n = Res.ok ls1 ∧ ls1.length = ls.length
        ∧ (∀ i l, i < n → ls[i]? = some l →
            ls1[i]? = some { l with lastUsed := u64 (l.lastUsed + 1) })
        ∧ (∀ i, n ≤ i → ls1[i]? = ls[i]?) := by
  induction ls with
  | nil =>
    intro n hn
    have : n = 0 := by simpa using hn
    subst this
    exact ⟨[], rfl, rfl, fun i l hi => absurd hi (Nat.not_lt_zero _), fun i _ => rfl⟩
  | cons x xs ih =>
    intro n hn
    cases n with
    | zero => exact ⟨x :: xs, rfl, rfl, fun i l hi => absurd hi (Nat.not_lt_zero _), fun i _ => rfl⟩
    | succ m =>
      obtain ⟨ys, h1, h2, h3, h4⟩ := ih m (by simpa using hn)
      refine ⟨{ x with lastUsed := u64 (x.lastUsed + 1) } :: ys, ?_, ?_, ?_, ?_⟩
      · simp only [ageLines, h1]
      · simp only [List.length_cons, h2]
      · intro i l hi hl
        cases i with
        | zero =>
          simp only [List.getElem?_cons_zero, Option.some.injEq] at hl
          subst hl
          exact List.getElem?_cons_zero
        | succ k =>
          simp only [List.getElem?_cons_succ] at hl ⊢
          exact h3 k l (by omega) hl
      · intro i hi
        cases i with
        | zero => omega
        | succ k =>
          simp only [List.getElem?_cons_succ]
          exact h4 k (by omega)

/-- C24 as stated fails on the code: a counter of 2^64 - 1 is not increased by
1 but wraps to 0.  After two insertions into a cache of two lines,
`lcloud_initcache(2)` (which keeps `numLines = 2`) and an insertion of (0,0,0),
the counters of the two resident lines are 0 and 2^64 - 1; a hit on (0,0,0)
leaves them at 0 and 0. -/
theorem counter_wraps_on_hit :
    counters ((reinit (runCacheOps demoCache
        [CacheOp.put 0 0 0 (List.replicate 256 1), CacheOp.put 0 0 1 (List.replicate 256 2)]) 2).bind
        fun c => runCacheOps c [CacheOp.put 0 0 0 (List.replicate 256 1)])
        = Res.ok ([0, 18446744073709551615], 2)
      ∧ counters ((reinit (runCacheOps demoCache
        [CacheOp.put 0 0 0 (List.replicate 256 1), CacheOp.put 0 0 1 (List.replicate 256 2)]) 2).bind
        fun c => runCacheOps c [CacheOp.put 0 0 0 (List.replicate 256 1), CacheOp.get 0 0 0])
        = Res.ok ([0, 0], 2) := by
  decide

/-- C24, amended: on a cache whose `numLines` does not exceed its array, a
lookup that finds the key (first) at the resident line `j` returns that line's
payload, sets that line's counter to 0, increases the counter of every other
resident line by 1 modulo 2^64 (by exactly 1 unless it was 2^64 - 1), and
leaves keys, payloads, the lines that are not resident, the array size and
`numLines` unchanged; a lookup of a key that no resident line holds returns
NULL and changes no line. -/
theorem getcache_bookkeeping (c : Cache) (did : Int) (sec blk : Nat)
    (hn : c.numLines ≤ c.lines.length) :
    (∀ j l, j < c.numLines → c.lines[j]? = some l →
        (l.device = did ∧ l.sec = sec ∧ l.block = blk) →
        (∀ i l1, i < j → c.lines[i]? = some l1 →
          ¬ (l1.device = did ∧ l1.sec = sec ∧ l1.block = blk)) →
        ∃ c1, lcloud_getcache c did sec blk = Res.ok (some l.data, c1)
          ∧ c1.numLines = c.numLines ∧ c1.lines.length = c.lines.length
          ∧ c1.lines[j]? = some { l with lastUsed := 0 }
          ∧ (∀ i l1, i ≠ j → i < c.numLines → c.lines[i]? = some l1 →
              c1.lines[i]? = some { l1 with lastUsed := (l1.lastUsed + 1) % 2 ^ 64 }
                ∧ (l1.lastUsed < 2 ^ 64 - 1 →
                    c1.lines[i]? = some { l1 with lastUsed := l1.lastUsed + 1 }))
          ∧ (∀ i, c.numLines ≤ i → c1.lines[i]? = c.lines[i]?))
      ∧ ((∀ j l, j < c.numLines → c.lines[j]? = some l →
            ¬ (l.device = did ∧ l.sec = sec ∧ l.block = blk)) →
          ∃ c1, lcloud_getcache c did sec blk = Res.ok (none, c1)
            ∧ c1.lines = c.lines ∧ c1.numLines = c.numLines) := by
  rcases getLineFrom_first did sec blk c.lines c.numLines 0 hn with
    ⟨h1, h2⟩ | ⟨j0, l0, hj0, hl0, hk0, hmin0, hg⟩
  · refine ⟨?_, ?_⟩
    · intro j l hj hl hk _
      exact absurd hk (h2 j l hj hl)
    · intro _
      refine ⟨{ c with misses := u64 (c.misses + 1) }, ?_, rfl, rfl⟩
      simp only [lcloud_getcache, getLine, h1]
  · refine ⟨?_, ?_⟩
    · intro j l hj hl hk hmin
      have hjj : j = j0 := by
        rcases Nat.lt_trichotomy j j0 with h | h | h
        · exact absurd hk (hmin0 j l h hl)
        · exact h
        · exact absurd hk0 (hmin j0 l0 h hl0)
      subst hjj
      have hll : l0 = l := by
        rw [hl0] at hl
        exact Option.some.inj hl
      subst hll
      have hjlen : j < c.lines.length := by omega
      obtain ⟨ls1, ha, hlen, hin, hout⟩ := ageLines_getElem?
        (c.lines.set j { l0 with lastUsed := 18446744073709551615 }) c.numLines
        (by simpa using hn)
      refine ⟨{ c with lines := ls1, hits := u64 (c.hits + 1) }, ?_, rfl, ?_, ?_, ?_, ?_⟩
      · have hget : c.lines.get? j = some l0 := by simpa using hl0
        simp only [lcloud_getcache, getLine, hg, Nat.zero_add, hget, ha]
      · simpa using hlen
      · have := hin j { l0 with lastUsed := 18446744073709551615 } hj
          (List.getElem?_set_self hjlen)
        simpa [u64] using this
      · intro i l1 hij hi hl1
        have hset : (c.lines.set j { l0 with lastUsed := 18446744073709551615 })[i]? = some l1 := by
          rw [List.getElem?_set_ne (Ne.symm hij)]
          exact hl1
        have h := hin i l1 hi hset
        refine ⟨by simpa [u64] using h, ?_⟩
        intro hlt
        have e : u64 (l1.lastUsed + 1) = l1.lastUsed + 1 := by
          unfold u64
          omega
        rw [e] at h
        exact h
      · intro i hi
        have := hout i hi
        simp only
        rw [this, List.getElem?_set_ne (by omega)]
    · intro hno
      exact absurd hk0 (hno j0 l0 hj0 hl0)

/-- C24, amended, on a cache of two lines holding (0,0,0) and (0,0,1). -/
theorem getcache_bookkeeping_witness :
    (∀ j l, j < demoFull.numLines → demoFull.lines[j]? = some l →
        (l.device = 0 ∧ l.sec = 0 ∧ l.block = 1) →
        (∀ i l1, i < j → demoFull.lines[i]? = some l1 →
          ¬ (l1.device = 0 ∧ l1.sec = 0 ∧ l1.block = 1)) →
        ∃ c1, lcloud_getcache demoFull 0 0 1 = Res.ok (some l.data, c1)
          ∧ c1.numLines = demoFull.numLines ∧ c1.lines.length = demoFull.lines.length
          ∧ c1.lines[j]? = some { l with lastUsed := 0 }
          ∧ (∀ i l1, i ≠ j → i < demoFull.numLines → demoFull.lines[i]? = some l1 →
              c1.lines[i]? = some { l1 with lastUsed := (l1.lastUsed + 1) % 2 ^ 64 }
                ∧ (l1.lastUsed < 2 ^ 64 - 1 →
                    c1.lines[i]? = some { l1 with lastUsed := l1.lastUsed + 1 }))
          ∧ (∀ i, demoFull.numLines ≤ i → c1.lines[i]? = demoFull.lines[i]?))
      ∧ ((∀ j l, j < demoFull.numLines → demoFull.lines[j]? = some l →
            ¬ (l.device = 0 ∧ l.sec = 0 ∧ l.block = 1)) →
          ∃ c1, lcloud_getcache demoFull 0 0 1 = Res.ok (none, c1)
            ∧ c1.lines = demoFull.lines ∧ c1.numLines = demoFull.numLines) :=
  getcache_bookkeeping demoFull 0 0 1 (by decide)

/-! ## Worked overwrites and reads that contradict the specification -/

/-- The scenario of the specification for an overwrite in place: in a file of
300 bytes the bytes 10..20 are overwritten; length (300) and number of entries
(2) stay, and a read of the whole file returns the old bytes with exactly
those eleven replaced. -/
theorem overwrite_inside_first_block :
    ((runOps 4 demoBoot [Op.lcopen, Op.lcwrite 0 (List.replicate 300 1) 300, Op.lcseek 0 10,
        Op.lcwrite 0 (List.replicate 11 2) 11, Op.lcseek 0 0]).bind
      fun st => lcread 4 st 0 (List.replicate 300 0) 300).bind
      (fun r => Res.ok (r.1, r.2.1, r.2.2.files.map fun fl => (fl.info.length, fl.pos.length)))
      = Res.ok (300, List.replicate 10 1 ++ List.replicate 11 2 ++ List.replicate 279 1,
          [(300, 2)]) := by
  decide

/-- An overwrite that ends at the file end inside a partial last block: a file
of 456 bytes written by one append has the entries [0,256) and [256,456);
after `lcseek(fh,256)`, `lcwrite` with
`len = 200` (so p + len = L) takes `256 - 0 = 256` bytes in its pass.  With a
buffer of exactly 200 bytes the `memcpy` reads 56 bytes past the buffer; with a
buffer of 256 bytes the call returns 200, the position ends at 512 beyond the
length 456, and the second entry grows to 256 bytes, so the entries no longer
add up to the length. -/
theorem overwrite_to_file_end_overruns :
    filesOf (runOps 4 demoBoot
        [Op.lcopen, Op.lcwrite 0 (List.replicate 456 1) 456, Op.lcseek 0 256])
        = Res.ok [{ info := { handle := 0, length := 456, loc := 256 },
                    pos := [{ startByte := 0, length := 256, sec := 0, block := 0, device := 0 },
                            { startByte := 256, length := 200, sec := 0, block := 1,
                              device := 0 }] }]
      ∧ writeView ((runOps 4 demoBoot
            [Op.lcopen, Op.lcwrite 0 (List.replicate 456 1) 456, Op.lcseek 0 256]).bind
          fun st => lcwrite 4 st 0 (List.replicate 200 2) 200)
        = Res.fault
      ∧ writeView ((runOps 4 demoBoot
            [Op.lcopen, Op.lcwrite 0 (List.replicate 456 1) 456, Op.lcseek 0 256]).bind
          fun st => lcwrite 4 st 0 (List.replicate 200 2 ++ List.replicate 56 9) 200)
        = Res.ok (200,
            [{ info := { handle := 0, length := 456, loc := 512 },
               pos := [{ startByte := 0, length := 256, sec := 0, block := 0, device := 0 },
                       { startByte := 256, length := 256, sec := 0, block := 1,
                         device := 0 }] }])
      ∧ (filesOf ((runOps 4 demoBoot
            [Op.lcopen, Op.lcwrite 0 (List.replicate 456 1) 456, Op.lcseek 0 256]).bind
          fun st => (lcwrite 4 st 0 (List.replicate 200 2 ++ List.replicate 56 9) 200).bind
            fun r => Res.ok r.2)).bind
          (fun fs => Res.ok (fs.map fun fl => decide fl.extentsOK))
        = Res.ok [false] := by
  decide

/-- An overwrite that extends the file inside the block of its last entry: in a
file of 100 bytes, 100 bytes written at position 50 give length 150, one entry
of 150 bytes, and the read returns 50 old bytes followed by the new ones. -/
theorem overwrite_extends_inside_block :
    ((runOps 4 demoBoot [Op.lcopen, Op.lcwrite 0 (List.replicate 100 1) 100, Op.lcseek 0 50,
        Op.lcwrite 0 (List.replicate 100 2) 100, Op.lcseek 0 0]).bind
      fun st => lcread 4 st 0 (List.replicate 150 0) 150).bind
      (fun r => Res.ok (r.1, r.2.1, r.2.2.files.map fun fl => (fl.info.length, fl.pos.length)))
      = Res.ok (150, List.replicate 50 1 ++ List.replicate 100 2, [(150, 1)]) := by
  decide

/-- C22 fails on the code: in a file of 10 bytes (one entry in block (0,0)),
after `lcseek(fh,5)`, `lcwrite` of 300 bytes runs past the end of the block.
Its first pass fills the block (251 bytes); in the second pass the call is
still in overwrite mode, no entry holds position 256, and `pos[memPos]` is read
one past the array of entries. -/
theorem overwrite_past_block_end_faults :
    filesOf (runOps 4 demoBoot
        [Op.lcopen, Op.lcwrite 0 (List.replicate 10 1) 10, Op.lcseek 0 5])
        = Res.ok [{ info := { handle := 0, length := 10, loc := 5 },
                    pos := [{ startByte := 0, length := 10, sec := 0, block := 0, device := 0 }] }]
      ∧ writeView ((runOps 4 demoBoot
            [Op.lcopen, Op.lcwrite 0 (List.replicate 10 1) 10, Op.lcseek 0 5]).bind
          fun st => lcwrite 4 st 0 (List.replicate 300 2) 300)
        = Res.fault
      ∧ writeView ((runOps 4 demoBoot
            [Op.lcopen, Op.lcwrite 0 (List.replicate 10 1) 10, Op.lcseek 0 5]).bind
          fun st => lcwrite 4 st 0 (List.replicate 251 2) 251)
        = Res.ok (251,
            [{ info := { handle := 0, length := 256, loc := 256 },
               pos := [{ startByte := 0, length := 256, sec := 0, block := 0, device := 0 }] }]) := by
  decide

/-- C23 fails on the code: with a cache of two lines, a file of three blocks
is written (three misses; the third insertion evicts block (0,0,0)).  A read
of the first 256 bytes misses the cache and goes to the server, and afterwards
block (0,0,0) is still not resident: the same read again is one more miss. -/
theorem read_miss_not_cached :
    cacheProbe (runOps 4 demoBoot
        [Op.lcopen, Op.lcwrite 0 (List.replicate 600 1) 600, Op.lcseek 0 0]) 0 0 0
        = Res.ok (false, 0, 3)
      ∧ cacheProbe (runOps 4 demoBoot
        [Op.lcopen, Op.lcwrite 0 (List.replicate 600 1) 600, Op.lcseek 0 0,
         Op.lcread 0 (List.replicate 256 0) 256]) 0 0 0
        = Res.ok (false, 0, 4)
      ∧ cacheProbe (runOps 4 demoBoot
        [Op.lcopen, Op.lcwrite 0 (List.replicate 600 1) 600, Op.lcseek 0 0,
         Op.lcread 0 (List.replicate 256 0) 256, Op.lcseek 0 0,
         Op.lcread 0 (List.replicate 256 0) 256]) 0 0 0
        = Res.ok (false, 0, 5) := by
  decide

/-! ## `lcread` never inserts into the cache -/

theorem getcache_ok_view (c : Cache) (did : Int) (sec blk : Nat)
    (hn : c.numLines ≤ c.lines.length) (r : Option (List Nat)) (c1 : Cache)
    (h : lcloud_getcache c did sec blk = Res.ok (r, c1)) :
    c1.lines.map CACHE_LINE.kd = c.lines.map CACHE_LINE.kd ∧ c1.numLines = c.numLines := by
  obtain ⟨r2, c2, h2, hv, hnum⟩ := getcache_view c did sec blk hn
  rw [h2] at h
  simp only [Res.ok.injEq, Prod.mk.injEq] at h
  rw [← h.2]
  exact ⟨hv, hnum⟩

theorem view_numLines_le (c c1 : Cache)
    (hv : c1.lines.map CACHE_LINE.kd = c.lines.map CACHE_LINE.kd) (hnum : c1.numLines = c.numLines)
    (hn : c.numLines ≤ c.lines.length) : c1.numLines ≤ c1.lines.length := by
  have := congrArg List.length hv
  simp only [List.length_map] at this
  omega

theorem fetchBlock_view (st : LcState) (id : Int) (sec blk : Nat)
    (hn : st.cache.numLines ≤ st.cache.lines.length) (b : List Nat) (st1 : LcState)
    (h : fetchBlock st id sec blk = Res.ok (b, st1)) :
    st1.cache.lines.map CACHE_LINE.kd = st.cache.lines.map CACHE_LINE.kd
      ∧ st1.cache.numLines = st.cache.numLines ∧ st1.files = st.files := by
  obtain ⟨r, c1, h1, hv1, hn1⟩ := getcache_view st.cache id sec blk hn
  cases r with
  | none =>
    simp only [fetchBlock, h1, Res.ok.injEq, Prod.mk.injEq] at h
    rw [← h.2]
    exact ⟨hv1, hn1, rfl⟩
  | some d =>
    have hn2 := view_numLines_le st.cache c1 hv1 hn1 hn
    obtain ⟨r2, c2, h2, hv2, hnum2⟩ := getcache_view c1 id sec blk hn2
    cases r2 with
    | none =>
      simp only [fetchBlock, h1, h2] at h
      exact Res.noConfusion h
    | some d2 =>
      simp only [fetchBlock, h1, h2, Res.ok.injEq, Prod.mk.injEq] at h
      rw [← h.2]
      exact ⟨by rw [hv2, hv1], by rw [hnum2, hn1], rfl⟩

theorem lcreadStep_view (fIndex len : Nat) (s s1 : ReadLoop)
    (hn : s.st.cache.numLines ≤ s.st.cache.lines.length)
    (h : lcreadStep fIndex len s = Res.ok s1) :
    s1.st.cache.lines.map CACHE_LINE.kd = s.st.cache.lines.map CACHE_LINE.kd
      ∧ s1.st.cache.numLines = s.st.cache.numLines := by
  unfold lcreadStep at h
  split at h
  · exact Res.noConfusion h
  · split at h
    · exact Res.noConfusion h
    · rename_i k e _
      split at h
      · exact Res.noConfusion h
      · split at h
        · exact Res.noConfusion h
        · rename_i dev _
          cases hf : fetchBlock s.st dev.id e.sec e.block with
          | ok p =>
            obtain ⟨subBuf, st1⟩ := p
            obtain ⟨hv, hnum, _⟩ := fetchBlock_view s.st _ _ _ hn subBuf st1 hf
            simp only [hf] at h
            split at h
            · split at h
              · simp only [Res.ok.injEq] at h
                rw [← h]
                exact ⟨hv, hnum⟩
              · exact Res.noConfusion h
            · split at h
              · simp only [Res.ok.injEq] at h
                rw [← h]
                exact ⟨hv, hnum⟩
              · exact Res.noConfusion h
          | fault => simp only [hf] at h; exact Res.noConfusion h
          | abort => simp only [hf] at h; exact Res.noConfusion h
          | nofuel => simp only [hf] at h; exact Res.noConfusion h

theorem lcreadLoop_view (fIndex len : Nat) :
    ∀ (fuel : Nat) (s s1 : ReadLoop), s.st.cache.numLines ≤ s.st.cache.lines.length →
      lcreadLoop fIndex len fuel s = Res.ok s1 →
      s1.st.cache.lines.map CACHE_LINE.kd = s.st.cache.lines.map CACHE_LINE.kd
        ∧ s1.st.cache.numLines = s.st.cache.numLines := by
  intro fuel
  induction fuel with
  | zero =>
    intro s s1 _ h
    unfold lcreadLoop at h
    split at h
    · exact Res.noConfusion h
    · simp only [Res.ok.injEq] at h
      rw [← h]
      exact ⟨rfl, rfl⟩
  | succ fuel ih =>
    intro s s1 hn h
    unfold lcreadLoop at h
    split at h
    · split at h
      · rename_i s2 hs
        obtain ⟨hv, hnum⟩ := lcreadStep_view fIndex len s s2 hn hs
        obtain ⟨hv2, hnum2⟩ := ih s2 s1 (view_numLines_le _ _ hv hnum hn) h
        exact ⟨by rw [hv2, hv], by rw [hnum2, hnum]⟩
      · exact Res.noConfusion h
      · exact Res.noConfusion h
      · exact Res.noConfusion h
    · simp only [Res.ok.injEq] at h
      rw [← h]
      exact ⟨rfl, rfl⟩

/-- Whatever `lcread` returns, the keys and payloads of all cache lines and
`numLines` are as before the call: a block fetched over the bus on a miss is
not inserted. -/
theorem lcread_keeps_cache_contents (fuel : Nat) (st : LcState) (fh : Int) (buf : List Nat)
    (len : Nat) (hn : st.cache.numLines ≤ st.cache.lines.length)
    (r : Int) (out : List Nat) (st1 : LcState)
    (h : lcread fuel st fh buf len = Res.ok (r, out, st1)) :
    st1.cache.lines.map CACHE_LINE.kd = st.cache.lines.map CACHE_LINE.kd
      ∧ st1.cache.numLines = st.cache.numLines := by
  unfold lcread at h
  split at h
  · simp only [Res.ok.injEq, Prod.mk.injEq] at h
    rw [← h.2.2]
    exact ⟨rfl, rfl⟩
  · split at h
    · exact Res.noConfusion h
    · rename_i fIndex _ _ fl _
      cases hs : lcreadLoop fIndex
          (if len ≥ u32 (fl.info.length + 4294967296 - fl.info.loc)
            then u32 (fl.info.length + 4294967296 - fl.info.loc) else len)
          fuel { subPos := 0, buf := buf, st := st } with
      | ok s =>
        simp only [hs, Res.ok.injEq, Prod.mk.injEq] at h
        rw [← h.2.2]
        exact lcreadLoop_view _ _ fuel _ s hn hs
      | fault => simp only [hs] at h; exact Res.noConfusion h
      | abort => simp only [hs] at h; exact Res.noConfusion h
      | nofuel => simp only [hs] at h; exact Res.noConfusion h
/-! ## Overwrite in place beyond block 255 -/

/-- One pass of the write loop in overwrite mode when the bytes to write end
before the entry that holds the position does: the pass takes all `len` bytes
and stores them in the block the entry names. -/
theorem lcwriteStep_inside (id : Int) (s : WriteLoop) (L p len k : Nat)
    (es : List MEMORY_ENTRY) (e : MEMORY_ENTRY) (dev : DEVICE_OBJ) (buf : List Nat)
    (hcfg : s.st.cfg.WF)
    (hfiles : s.st.files = [{ info := { handle := 0, length := L, loc := p }, pos := es }])
    (hdevs : s.st.devices = [dev]) (hid : dev.id = id)
    (hcache : CacheInv s.st.cache s.st.server id)
    (hfind : findEntry p es 0 = some (k, e))
    (hed : e.device = id) (hsec : e.sec < 65536) (hblk : e.block < 65536)
    (hstart : e.startByte ≤ p) (hend : p + len < e.startByte + e.length)
    (h32 : e.startByte + e.length < 2147483648)
    (hoff : p % 256 + len ≤ 256) (hused : (dev.table e.sec e.block).spaceUsed ≤ 256)
    (hbuf : len ≤ buf.length) (hsub : s.subPos = 0) :
    ∃ s1, lcwriteStep 0 0 buf len true s = Res.ok s1
      ∧ s1.subPos = (len : Int)
      ∧ s1.st.cfg = s.st.cfg
      ∧ s1.st.files = [{ info := { handle := 0, length := L, loc := p + len }, pos := es }]
      ∧ (∃ dev1, s1.st.devices = [dev1] ∧ dev1.id = id)
      ∧ CacheInv s1.st.cache s1.st.server id
      ∧ s1.st.server = s.st.server.store (devReg id) e.sec e.block
          ((blk256 (s.st.server.blocks (devReg id) e.sec e.block)).take (p % 256)
            ++ buf.take len
            ++ (blk256 (s.st.server.blocks (devReg id) e.sec e.block)).drop (p % 256 + len)) := by
  have hcid : checkId s.st.devices e.device = some 0 := by
    rw [hdevs, hed, ← hid]
    simp only [checkId, checkIdFrom, if_true]
  have hsel : selectTarget true 0
      { info := { handle := 0, length := L, loc := p }, pos := es } s
      = (e.sec, e.block, some 0, some (k, e)) := by
    simp only [selectTarget, if_true, hfind, hcid]
  obtain ⟨c1, hf, hc1inv⟩ := fetchBlock_spec s.st id e.sec e.block hcfg hcache hsec hblk
  generalize hold : blk256 (s.st.server.blocks (devReg id) e.sec e.block) = old at hf
  have holdlen : old.length = 256 := by rw [← hold]; exact blk256_length _
  generalize hu : (dev.table e.sec e.block).spaceUsed = used at hused
  have hrest : u64 (len + 18446744073709551616 - 0) = len := by
    unfold u64
    omega
  have hwl : writeLen true (some (k, e)) p used len = Res.ok len := by
    unfold writeLen
    by_cases h1 : len ≤ toU64 ((LC_DEVICE_BLOCK_SIZE : Int) - (used : Int))
    · rw [if_pos h1]
    · rw [if_neg h1]
      have a1 : ¬ u32 (u32 (e.startByte + e.length) + 4294967296 - p) ≤ len := by
        unfold u32
        omega
      simp only [if_true, a1, if_false]
  have hupd : updateEntries true (some (k, e)) es p len e.sec e.block id used
      = Res.ok (es, used) := by
    unfold updateEntries
    have a1 : ¬ u64 (len + u32 (p + 4294967296 - e.startByte)) > e.length := by
      unfold u64 u32
      omega
    simp only [if_true, a1, if_false, hused]
  have hsubU : toU64 s.subPos = 0 := by rw [hsub]; rfl
  have hoff1 : p % LC_DEVICE_BLOCK_SIZE + len ≤ LC_DEVICE_BLOCK_SIZE := hoff
  generalize hnb : old.take (p % LC_DEVICE_BLOCK_SIZE) ++ (buf.drop 0).take len
      ++ old.drop (p % LC_DEVICE_BLOCK_SIZE + len) = newBlock
  have hnblen : newBlock.length = 256 := by
    rw [← hnb]
    simp only [List.drop_zero, List.length_append, List.length_take, List.length_drop, holdlen]
    unfold LC_DEVICE_BLOCK_SIZE at hoff1 ⊢
    omega
  obtain ⟨c2, hput, hc2inv⟩ := putcache_spec c1 s.st.server id e.sec e.block newBlock hc1inv
    hnblen
  have hbw := bus_write s.st.cfg hcfg s.st.server id e.sec e.block hsec hblk newBlock
  have hget0 : s.st.files.get? 0
      = some { info := { handle := 0, length := L, loc := p }, pos := es } := by
    rw [hfiles]; rfl
  have hgetd : s.st.devices.get? 0 = some dev := by
    rw [hdevs]; rfl
  have hi32 : toI32 len = (len : Int) := toI32_small _ (by omega)
  have hu32 : u32 (p + len) = p + len := Nat.mod_eq_of_lt (by omega)
  refine ⟨{ subPos := (len : Int), sec := e.sec, block := e.block, dev := some 0,
            st := { cfg := s.st.cfg
                    files := [{ info := { handle := 0, length := L, loc := p + len },
                                pos := es }]
                    devices := [setBlock dev e.sec e.block { handle := 0, spaceUsed := used }]
                    isOn := s.st.isOn
                    cache := c2
                    server := s.st.server.store (devReg id) e.sec e.block newBlock } },
    ?_, rfl, rfl, rfl, ⟨_, rfl, hid⟩, hc2inv, ?_⟩
  · simp only [lcwriteStep, hget0, hsel, hgetd, hid, hf, hu, hrest, hwl, hsubU, hoff1,
      Nat.zero_add, hbuf, and_self, if_true, hnb, hbw, hput, hupd, hi32, hu32]
    simp only [hfiles, hdevs, List.set]
  · show s.st.server.store (devReg id) e.sec e.block newBlock = _
    rw [← hnb, List.drop_zero]
    rfl

/-- The call `lcwrite` in overwrite mode when the bytes to write end before the
entry that holds the position does: it returns `len`, advances the position by
`len`, keeps length and entries, and stores the bytes in the block the entry
names. -/
theorem lcwrite_inside (id : Int) (st : LcState) (L p len k : Nat)
    (es : List MEMORY_ENTRY) (e : MEMORY_ENTRY) (dev : DEVICE_OBJ) (buf : List Nat) (fuel : Nat)
    (hcfg : st.cfg.WF)
    (hfiles : st.files = [{ info := { handle := 0, length := L, loc := p }, pos := es }])
    (hdevs : st.devices = [dev]) (hid : dev.id = id)
    (hcache : CacheInv st.cache st.server id)
    (hfind : findEntry p es 0 = some (k, e))
    (hed : e.device = id) (hsec : e.sec < 65536) (hblk : e.block < 65536)
    (hstart : e.startByte ≤ p) (hend : p + len < e.startByte + e.length)
    (h32 : e.startByte + e.length < 2147483648) (hL : p + len ≤ L)
    (hoff : p % 256 + len ≤ 256) (hused : (dev.table e.sec e.block).spaceUsed ≤ 256)
    (hlen : 0 < len) (hbuf : len ≤ buf.length) (hfuel : 0 < fuel) :
    ∃ st1, lcwrite fuel st 0 buf len = Res.ok ((len : Int), st1)
      ∧ st1.cfg = st.cfg
      ∧ st1.files = [{ info := { handle := 0, length := L, loc := p + len }, pos := es }]
      ∧ (∃ dev1, st1.devices = [dev1] ∧ dev1.id = id)
      ∧ CacheInv st1.cache st1.server id
      ∧ st1.server = st.server.store (devReg id) e.sec e.block
          ((blk256 (st.server.blocks (devReg id) e.sec e.block)).take (p % 256)
            ++ buf.take len
            ++ (blk256 (st.server.blocks (devReg id) e.sec e.block)).drop (p % 256 + len)) := by
  have hch : checkHandle st.files 0 = some 0 := by
    rw [hfiles]; rfl
  have hget : st.files.get? 0
      = some { info := { handle := 0, length := L, loc := p }, pos := es } := by
    rw [hfiles]; rfl
  have hgrow : grownLength L p len = L := by
    unfold grownLength u64
    have : ¬ (p + len) % 18446744073709551616 > L := by omega
    rw [if_neg this]
  have hov : decide (p < L) = true := decide_eq_true (by omega)
  obtain ⟨s1, hstep, hsub1, hc1, hf1, hd1, hci1, hs1⟩ := lcwriteStep_inside id
    { subPos := 0, sec := 0, block := 0, dev := none,
      st := { st with
        files := [{ info := { handle := 0, length := L, loc := p }, pos := es }] } }
    L p len k es e dev buf hcfg rfl hdevs hid hcache hfind hed hsec hblk hstart hend h32 hoff
    hused hbuf rfl
  obtain ⟨n, rfl⟩ : ∃ n, fuel = n + 1 := ⟨fuel - 1, by omega⟩
  have hcond : toU64 (0 : Int) < len := hlen
  have hdone : ¬ toU64 s1.subPos < len := by
    rw [hsub1, toU64_natCast _ (by omega)]
    omega
  refine ⟨s1.st, ?_, hc1, hf1, hd1, hci1, hs1⟩
  simp only [lcwrite, hch, hget, hgrow, hov]
  simp only [hfiles, List.set, lcwriteLoop, hcond, if_true, hstep,
    lcwriteLoop_done _ _ _ _ _ _ _ hdone, toI32_small len (by omega)]

/-- The call `lcseek` on the single open file (handle 0) to an offset inside
the file. -/
theorem lcseek_single (st : LcState) (L q off : Nat) (es : List MEMORY_ENTRY)
    (hfiles : st.files = [{ info := { handle := 0, length := L, loc := q }, pos := es }])
    (hoff : off ≤ L) (h31 : off < 2147483648) :
    lcseek st 0 off
      = ((off : Int), { st with
          files := [{ info := { handle := 0, length := L, loc := off }, pos := es }] }) := by
  have hch : checkHandle st.files 0 = some 0 := by
    rw [hfiles]; rfl
  have hget : st.files.get? 0
      = some { info := { handle := 0, length := L, loc := q }, pos := es } := by
    rw [hfiles]; rfl
  have h0 : ¬ off > L := by omega
  have hu : u32 off = off := Nat.mod_eq_of_lt (by omega)
  simp only [lcseek, hch, hget, h0, if_false, setLoc, toI32_small off h31, hu]
  simp only [hfiles, List.set]

/-- C21 fails on the code: on a fresh installation with one device of 1 sector
and 257 blocks a file of 65538 zero bytes is written by one append; its last
entry holds the bytes 65536 and 65537 in block 256, but the `uint8_t` block
number of the entry records block 0.  After `lcseek(fh, 65536)`,
`lcwrite(fh, [9], 1)` (p = 65536, len = 1, p + len <= L) returns 1 and keeps
the length (65538) and the number of entries (257), but stores the byte in
block 0: the full read from offset 0, whose first byte was 0 before, now
starts with 9, a byte outside p..p+len-1. -/
theorem overwrite_past_block_255_changes_byte_0 :
    ∃ st1 st2 st3 st4 st5 before after,
      lcopen (LcState.boot demoCfg (demoServer 1 1 257)) = Res.ok (0, st1)
      ∧ lcwrite 300 st1 0 (List.replicate 65538 0) 65538 = Res.ok (65538, st2)
      ∧ lcread 300 (lcseek st2 0 0).2 0 (List.replicate 65538 0) 65538
          = Res.ok (65538, before, st3)
      ∧ before.head? = some 0
      ∧ (lcseek st2 0 65536).1 = 65536
      ∧ lcwrite 300 (lcseek st2 0 65536).2 0 [9] 1 = Res.ok (1, st4)
      ∧ st2.files.map (fun f => (f.info.length, f.pos.length)) = [(65538, 257)]
      ∧ st4.files.map (fun f => (f.info.length, f.pos.length)) = [(65538, 257)]
      ∧ (lcseek st4 0 0).1 = 0
      ∧ lcread 300 (lcseek st4 0 0).2 0 (List.replicate 65538 0) 65538
          = Res.ok (65538, after, st5)
      ∧ after.head? = some 9 := by
  have hlen : (List.replicate 65538 0).length = 65538 := List.length_replicate _ _
  obtain ⟨st1, st2, st3, h1, h2, hW, _, h4⟩ := fresh_run demoCfg (demoServer 1 1 257) 0 1 257
    (List.replicate 65538 0) (List.replicate 65538 0) 300 (by decide) (by decide)
    (by decide) (by omega) (by omega) (by rw [hlen]; omega) (by rw [hlen]; omega)
    (by rw [hlen]) (by rw [hlen]; omega)
  rw [hlen] at h2 h4
  have hWc := hW
  obtain ⟨hcfg, hfiles, ⟨dev, hdevs, hid, _, _, htab⟩, hcache, hsrv⟩ := hWc
  rw [hlen] at hfiles
  have e0 : devReg 0 = 0 := by decide
  have hcnt : (65538 + 255) / 256 = 257 := by decide
  have hes0 : (extsOf 0 257 65538)[0]?
      = some { startByte := 0, length := 256, sec := 0, block := 0, device := 0 } := by
    unfold extsOf
    rw [List.getElem?_map, hcnt, List.getElem?_range (by omega)]
    rfl
  have hes256 : (extsOf 0 257 65538)[256]?
      = some { startByte := 65536, length := 2, sec := 0, block := 0, device := 0 } := by
    unfold extsOf
    rw [List.getElem?_map, hcnt, List.getElem?_range (by omega)]
    rfl
  have hfind : findEntry 65536 (extsOf 0 257 65538) 0
      = some (0 + 256, { startByte := 65536, length := 2, sec := 0, block := 0, device := 0 }) := by
    apply findEntry_spec 65536 (extsOf 0 257 65538) 0 256 _ hes256
    · decide
    · intro j e1 hj he1
      obtain ⟨_, rfl⟩ := extsOf_getElem? 0 257 65538 j e1 he1
      show ¬ (256 * j ≤ 65536 ∧ 65536 < u32 (256 * j + min 256 (65538 - 256 * j)))
      unfold u32
      omega
  have hused : (dev.table 0 0).spaceUsed ≤ 256 := by
    rw [htab]
    unfold freshSlot
    split
    · show min 256 _ ≤ 256
      omega
    · show 0 ≤ 256
      omega
  -- the seek to 65536 and the overwrite of one byte
  have hseek := lcseek_single st2 65538 65538 65536 _ hfiles (by omega) (by omega)
  obtain ⟨st4, hw, hc4, hf4, ⟨dev4, hd4, hid4⟩, hci4, hs4⟩ := lcwrite_inside 0
    { st2 with
      files := [{ info := { handle := 0, length := 65538, loc := 65536 },
                  pos := extsOf 0 257 65538 }] }
    65538 65536 1 (0 + 256) (extsOf 0 257 65538)
    { startByte := 65536, length := 2, sec := 0, block := 0, device := 0 } dev [9] 300
    hcfg rfl hdevs hid hcache hfind rfl (by decide) (by decide) (by decide) (by decide)
    (by decide) (by decide) (by decide) hused (by decide) (by decide) (by decide)
  -- the full read after it
  have hseek0 := lcseek_single st4 65538 (65536 + 1) 0 _ hf4 (by omega) (by omega)
  obtain ⟨st5, hrd⟩ := lcread_aligned 0 65538 (extsOf 0 257 65538)
    { st4 with
      files := [{ info := { handle := 0, length := 65538, loc := 0 },
                  pos := extsOf 0 257 65538 }] }
    (List.replicate 65538 0) 300 (by omega) (by rw [hlen]) (by omega)
    (extsOf_aligned 0 1 257 65538 (by omega) (by omega)) (by rw [← hc4] at hcfg; exact hcfg) rfl
    ⟨dev4, hd4, hid4⟩ hci4
  -- the first byte of the two reads
  have hsplit : ∀ srv : Server, readBack srv (extsOf 0 257 65538)
      = (blk256 (srv.blocks 0 0 0)).take 256
        ++ readBack srv ((extsOf 0 257 65538).drop 1) := by
    intro srv
    have a := readBack_take_succ srv (extsOf 0 257 65538) 0 _ hes0
    rw [List.take_zero] at a
    have b : readBack srv (extsOf 0 257 65538)
        = readBack srv ((extsOf 0 257 65538).take (0 + 1))
          ++ readBack srv ((extsOf 0 257 65538).drop (0 + 1)) := by
      rw [← readBack_append, List.take_append_drop]
    rw [b, a]
    rfl
  refine ⟨st1, st2, st3, st4, st5, _,
    readBack st4.server (extsOf 0 257 65538) ++ (List.replicate 65538 0).drop 65538,
    h1, h2, h4, ?_, ?_, ?_, ?_, ?_, ?_, ?_, ?_⟩
  · -- byte 0 before the overwrite
    have hs := hsrv 0 (by rw [hlen]; omega)
    rw [hlen, e0] at hs
    have hs1 : (blk256 (st2.server.blocks 0 0 0)).take 256 = List.replicate 256 0 := by
      have m : min 256 (65538 - 256 * 0) = 256 := by decide
      rw [m] at hs
      rw [show (0 : Nat) / 257 = 0 from rfl, show (0 : Nat) % 257 = 0 from rfl] at hs
      rw [hs, Nat.mul_zero, List.drop_zero, List.take_replicate]
      rfl
    rw [hsplit, hs1]
    rfl
  · rw [hseek]
    rfl
  · rw [hseek]
    exact hw
  · rw [hfiles]
    simp [extsOf]
  · rw [hf4]
    simp [extsOf]
  · rw [hseek0]
    rfl
  · rw [hseek0]
    exact hrd
  · rw [hsplit, hs4]
    show (((blk256 (blk256 _)).take 256 ++ _) ++ _).head? = some 9
    rw [e0]
    show (((blk256 (blk256 ((blk256 (st2.server.blocks 0 0 0)).take (65536 % 256)
      ++ [9].take 1 ++ (blk256 (st2.server.blocks 0 0 0)).drop (65536 % 256 + 1)))).take 256
      ++ _) ++ _).head? = some 9
    rfl

end LionCloud
